import Mathlib

/-!
# easeprobe: the value-extraction engine (`eval/extract.go`)

A shallow embedding of `eval/extract.go`.

* Go functions returning `(T, error)` are modelled as functions returning a pair
  `T × Option GoError` (`none` is the `nil` error), wrapped in `Run` when the
  function can abort with a run-time panic or fail to terminate.
* Pointers `*T` are modelled as `Option T` (`none` is `nil`).
* The third-party libraries (`regexp`, `time`, `strconv.ParseFloat`, the HTML, XML and
  JSON parsers and their XPath engines) are not part of the repository: they are the
  fields of `Env`, over which every theorem quantifies.  Closed examples use
  `sampleEnv`, which tabulates what the libraries return on a few documents.
* `strconv.Atoi`, `strconv.ParseBool`, `htmlquery.InnerText`, `htmlquery.OutputHTML` and
  `html.Render` are small enough to be modelled in full.
-/

namespace Easeprobe

/-! ## Outcomes of running Go code -/

/-- Run-time panics raised by the modelled code. -/
inductive Panic where
  | indexOutOfRange (index len : Nat)
  | nilDereference
  | mustCompile (pattern : String)
  | mustRegister
  | nonPositiveInterval
deriving DecidableEq, Repr

/-- Outcome of running a Go function: a normal return, a run-time panic, or
no return at all (the traversal of a cyclic pointer structure). -/
inductive Run (α : Type) where
  | ret (a : α)
  | panic (p : Panic)
  | hang
deriving DecidableEq, Repr

/-- Sequencing of two Go computations. -/
def Run.bind {α β : Type} : Run α → (α → Run β) → Run β
  | .ret a, f => f a
  | .panic p, _ => .panic p
  | .hang, _ => .hang

instance : Monad Run where
  pure := Run.ret
  bind := Run.bind

/-- Kinds of `*strconv.NumError`. -/
inductive NumErr where
  | invalid
  | range
deriving DecidableEq, Repr

/-- Go `error` values. -/
inductive GoError where
  | errorf (msg : String)
  | numError (fn : String) (num : String) (err : NumErr)
  | library (pkg : String) (msg : String)
deriving DecidableEq, Repr

/-! ## Declarations of `eval/types.go` -/

/-- Modelled from the spec: `VarType` is declared in `eval/types.go`, which is not among
the sources; it is an integer type with the seven named constants of the spec, any other
integer being `other`. -/
inductive VarType where
  | String | Int | Float | Bool | Time | Duration | LengthVariable
  | other (code : Nat)
deriving DecidableEq, Repr

/-- Modelled from the spec: `DocType` is declared in `eval/types.go`, which is not among
the sources; it is an integer type with the four named constants of the spec, any other
integer being `other`. -/
inductive DocType where
  | HTML | XML | JSON | TEXT
  | other (code : Nat)
deriving DecidableEq, Repr

/-- The struct `BaseExtractor`, without its field `ExtractStrFn`: that field holds a method
value bound to the enclosing extractor and is modelled by `Receiver.ExtractStrFn`. -/
structure BaseExtractor where
  Name : String
  VarType : VarType
  Document : String
  DocType : DocType
  XPath : String
deriving DecidableEq, Repr

/-- `BaseExtractor.SetVarType`. -/
def BaseExtractor.SetVarType (x : BaseExtractor) (t : Easeprobe.VarType) : BaseExtractor :=
  { x with VarType := t }

/-- `BaseExtractor.SetDocument`. -/
def BaseExtractor.SetDocument (x : BaseExtractor) (doc : String) : BaseExtractor :=
  { x with Document := doc }

/-! ## Regular expressions -/

/-- A compiled `*regexp.Regexp`, as far as `MatchStr` uses it. -/
structure Regexp where
  /-- `re.SubexpNames()`: entry 0 is the whole match, entry `i` the name of group `i`. -/
  SubexpNames : List String
  /-- `re.FindStringSubmatch(doc)`: `none` is the `nil` slice of a failed match. -/
  FindStringSubmatch : String → Option (List String)

/-- The struct `RegexExtractor`. -/
structure RegexExtractor extends BaseExtractor where
  Regex : String
deriving DecidableEq, Repr

/-- `SetVarType`, promoted from the embedded `BaseExtractor`. -/
def RegexExtractor.SetVarType (r : RegexExtractor) (t : VarType) : RegexExtractor :=
  { r with VarType := t }

/-- `SetDocument`, promoted from the embedded `BaseExtractor`. -/
def RegexExtractor.SetDocument (r : RegexExtractor) (doc : String) : RegexExtractor :=
  { r with Document := doc }

/-- `RegexExtractor.SetQuery`. -/
def RegexExtractor.SetQuery (r : RegexExtractor) (q : String) : RegexExtractor :=
  { r with Regex := q }

/-- The loop `for i, name := range re.SubexpNames()` of `MatchStr`, from index `i` on, with
the `return match[0], nil` that follows it. -/
def matchLoop (m : List String) (r : RegexExtractor) :
    Nat → List String → Run ((String × Option GoError) × RegexExtractor)
  | _, [] =>
    match m[0]? with
    | some s => .ret ((s, none), r)
    | none => .panic (.indexOutOfRange 0 m.length)
  | i, name :: rest =>
    if 0 < i ∧ i ≤ m.length then
      let r1 := if 0 < name.length then { r with Name := name } else r
      match m[i]? with
      | some s => .ret ((s, none), r1)
      | none => .panic (.indexOutOfRange i m.length)
    else matchLoop m r (i + 1) rest

/-- `RegexExtractor.MatchStr`; `compile` is `regexp.Compile` (`none` for an invalid pattern,
on which `regexp.MustCompile` panics). -/
def RegexExtractor.MatchStr (compile : String → Option Regexp) (r : RegexExtractor) :
    Run ((String × Option GoError) × RegexExtractor) :=
  match compile r.Regex with
  | none => .panic (.mustCompile r.Regex)
  | some re =>
    match re.FindStringSubmatch r.Document with
    | none => .ret (("", some (.errorf ("no match found for - " ++ r.Regex))), r)
    | some m => matchLoop m r 0 re.SubexpNames

/-! ## HTML trees (`golang.org/x/net/html`)

`NewHTMLExtractor.Query` overwrites sibling pointers of parsed nodes, so HTML nodes live in
a heap: an address is a natural number, a pointer is an `Option Nat`. -/

/-- The constants `html.NodeType`; `other` stands for any further value. -/
inductive HNodeType where
  | ErrorNode | TextNode | DocumentNode | ElementNode | CommentNode | DoctypeNode | RawNode
  | other (code : Nat)
deriving DecidableEq, Repr

/-- The struct `html.Attribute`. -/
structure HAttr where
  Namespace : String
  Key : String
  Val : String
deriving DecidableEq, Repr

/-- The struct `html.Node` (`DataAtom`, which is determined by `Data`, is left out; the
field `Type` is named `NodeType`, after its Go type). -/
structure HNode where
  Parent : Option Nat
  FirstChild : Option Nat
  LastChild : Option Nat
  PrevSibling : Option Nat
  NextSibling : Option Nat
  NodeType : HNodeType
  Data : String
  Namespace : String
  Attr : List HAttr
deriving DecidableEq, Repr

/-- The zero value `html.Node{}`. -/
def HNode.zero : HNode :=
  ⟨none, none, none, none, none, .ErrorNode, "", "", []⟩

/-- A heap of HTML nodes: the node stored at each address, and the next free address. -/
structure HHeap where
  node : Nat → HNode
  size : Nat

/-- A non-nil `*html.Node`: an address together with the heap it points into. -/
structure HRef where
  heap : HHeap
  addr : Nat

/-- The assignment `a.NextSibling = v`. -/
def HHeap.setNext (h : HHeap) (a : Nat) (v : Option Nat) : HHeap :=
  { h with node := Function.update h.node a { h.node a with NextSibling := v } }

/-- The assignment `a.PrevSibling = v`. -/
def HHeap.setPrev (h : HHeap) (a : Nat) (v : Option Nat) : HHeap :=
  { h with node := Function.update h.node a { h.node a with PrevSibling := v } }

/-- Allocation `&html.Node{...}`: the node is stored at the next free address. -/
def HHeap.alloc (h : HHeap) (nd : HNode) : HHeap :=
  { node := Function.update h.node h.size nd, size := h.size + 1 }

/-- Bound on the depth of any terminating traversal of the heap along `FirstChild` and
`NextSibling`: a traversal that needs more steps has entered a cycle. -/
def HHeap.fuel (h : HHeap) : Nat := 2 * h.size + 2

/-- Work items of the recursive traversals: visit one node, or run the loop
`for c := p; c != nil; c = c.NextSibling` from the pointer `p`. -/
inductive Visit where
  | node (n : Nat)
  | loop (p : Option Nat)
deriving DecidableEq, Repr

/-- The closure `output` of `htmlquery.InnerText`, with a step bound. -/
def innerTextGo (h : HHeap) : Nat → Visit → Option String
  | _, .loop none => some ""
  | 0, _ => none
  | f + 1, .node n =>
    match (h.node n).NodeType with
    | .TextNode => some (h.node n).Data
    | .CommentNode => some ""
    | _ => innerTextGo h f (.loop (h.node n).FirstChild)
  | f + 1, .loop (some c) =>
    match innerTextGo h f (.node c), innerTextGo h f (.loop (h.node c).NextSibling) with
    | some a, some b => some (a ++ b)
    | _, _ => none

/-- `htmlquery.InnerText(n)`. -/
def hqInnerText (r : HRef) : Run String :=
  match innerTextGo r.heap r.heap.fuel (.node r.addr) with
  | some s => .ret s
  | none => .hang

/-- One character of `html.escape`. -/
def escapeChar (c : Char) : List Char :=
  if c = Char.ofNat 38 then "&amp;".toList
  else if c = Char.ofNat 39 then "&#39;".toList
  else if c = Char.ofNat 60 then "&lt;".toList
  else if c = Char.ofNat 62 then "&gt;".toList
  else if c = Char.ofNat 34 then "&#34;".toList
  else if c = Char.ofNat 13 then "&#13;".toList
  else [c]

/-- The function `escape` of `html/escape.go`. -/
def htmlEscape (s : String) : String :=
  String.mk (s.toList.flatMap escapeChar)

/-- The table `voidElements` of `html/render.go`. -/
def voidElements : List String :=
  ["area", "base", "br", "col", "embed", "hr", "img", "input", "keygen", "link", "meta",
   "param", "source", "track", "wbr"]

/-- The function `childTextNodesAreLiteral` of `html/render.go`. -/
def childTextNodesAreLiteral (nd : HNode) : Bool :=
  if nd.Namespace ≠ "" then false
  else decide (nd.Data ∈ ["iframe", "noembed", "noframes", "noscript", "plaintext", "script",
    "style", "xmp"])

/-- The attributes of a start tag, as `render1` writes them. -/
def renderAttrs : List HAttr → String
  | [] => ""
  | a :: rest =>
    " " ++ (if a.Namespace ≠ "" then a.Namespace ++ ":" else "") ++ a.Key ++ "=\"" ++
      htmlEscape a.Val ++ "\"" ++ renderAttrs rest

/-- How a call of `render1` ends: no error, an error, or the marker `plaintextAbort`. -/
inductive RenderStatus where
  | ok | failed | plaintextAbort
deriving DecidableEq, Repr

/-- The parts of `html.Render` that are taken from the library as they are: the text
written for a comment and for a doctype node. -/
structure RenderLib where
  comment : HNode → String
  doctype : HNode → String

/-- Work items of `render1`: render one node, or run one of its two child loops
(`literal` is the loop that writes the text children unescaped). -/
inductive RenderVisit where
  | node (n : Nat)
  | loop (literal : Bool) (p : Option Nat)
deriving DecidableEq, Repr

/-- The function `render1` of `html/render.go`, with a step bound: the text written and how
the call ended. -/
def renderGo (L : RenderLib) (h : HHeap) : Nat → RenderVisit → Option (String × RenderStatus)
  | _, .loop _ none => some ("", .ok)
  | 0, _ => none
  | f + 1, .loop literal (some c) =>
    let first :=
      if literal ∧ (h.node c).NodeType = .TextNode then some ((h.node c).Data, RenderStatus.ok)
      else renderGo L h f (.node c)
    match first with
    | none => none
    | some (a, .ok) =>
      match renderGo L h f (.loop literal (h.node c).NextSibling) with
      | none => none
      | some (b, st) => some (a ++ b, st)
    | some (a, st) => some (a, st)
  | f + 1, .node n =>
    let nd := h.node n
    match nd.NodeType with
    | .ErrorNode => some ("", .failed)
    | .TextNode => some (htmlEscape nd.Data, .ok)
    | .DocumentNode => renderGo L h f (.loop false nd.FirstChild)
    | .CommentNode => some (L.comment nd, .ok)
    | .DoctypeNode => some (L.doctype nd, .ok)
    | .RawNode => some (nd.Data, .ok)
    | .other _ => some ("", .failed)
    | .ElementNode =>
      let start := "<" ++ nd.Data ++ renderAttrs nd.Attr
      if nd.Data ∈ voidElements then
        if nd.FirstChild ≠ none then some (start, .failed) else some (start ++ "/>", .ok)
      else
        let newline :=
          match nd.FirstChild with
          | some c =>
            if (h.node c).NodeType = .TextNode ∧ (h.node c).Data.toList.head? = some (Char.ofNat 10)
                ∧ nd.Data ∈ ["pre", "listing", "textarea"] then "\n" else ""
          | none => ""
        match renderGo L h f (.loop (childTextNodesAreLiteral nd) nd.FirstChild) with
        | none => none
        | some (body, .ok) =>
          if childTextNodesAreLiteral nd ∧ nd.Data = "plaintext" then
            some (start ++ ">" ++ newline ++ body, .plaintextAbort)
          else some (start ++ ">" ++ newline ++ body ++ "</" ++ nd.Data ++ ">", .ok)
        | some (body, st) => some (start ++ ">" ++ newline ++ body, st)

/-- `html.Render(&buf, n)`, as `htmlquery.OutputHTML` uses it: the text written to the
buffer; the error is discarded by the caller. -/
def htmlRender (L : RenderLib) (h : HHeap) (n : Nat) : Run String :=
  match renderGo L h h.fuel (.node n) with
  | some (s, _) => .ret s
  | none => .hang

/-- The loop `for n := n.FirstChild; n != nil; n = n.NextSibling` of
`htmlquery.OutputHTML`, with a step bound. -/
def outputLoop (L : RenderLib) (h : HHeap) : Nat → Option Nat → Run String
  | _, none => .ret ""
  | 0, some _ => .hang
  | f + 1, some c =>
    (htmlRender L h c).bind fun a =>
    (outputLoop L h f (h.node c).NextSibling).bind fun b => .ret (a ++ b)

/-- `htmlquery.OutputHTML(n, self)`. -/
def hqOutputHTML (L : RenderLib) (r : HRef) (self : Bool) : Run String :=
  if self then htmlRender L r.heap r.addr
  else outputLoop L r.heap r.heap.fuel (r.heap.node r.addr).FirstChild

/-! ## The extractors built on path expressions -/

/-- The generic function `Query`. -/
def Query {T : Type} (document xpath : String)
    (parser : String → Run (Option T × Option GoError))
    (query : Option T → String → Run (Option T × Option GoError))
    (inner : T → Run String) : Run (String × Option GoError) :=
  (parser document).bind fun (doc, err) =>
    if err ≠ none then .ret ("", err)
    else (query doc xpath).bind fun (n, err) =>
      if err ≠ none then .ret ("", err)
      else match n with
        | none => .ret ("", none)
        | some n => (inner n).bind fun s => .ret (s, none)

/-- The struct `XPathExtractor[T]`; the embedded `BaseExtractor` has an `XPath` of its own,
which the outer field of the same name shadows. -/
structure XPathExtractor (T : Type) where
  toBaseExtractor : BaseExtractor
  XPath : String
  Parser : String → Run (Option T × Option GoError)
  Query : Option T → String → Run (Option T × Option GoError)
  Inner : T → Run String

/-- `XPathExtractor.SetQuery`. -/
def XPathExtractor.SetQuery {T : Type} (x : XPathExtractor T) (q : String) : XPathExtractor T :=
  { x with XPath := q, toBaseExtractor := { x.toBaseExtractor with XPath := q } }

/-- `SetVarType`, promoted from the embedded `BaseExtractor`. -/
def XPathExtractor.SetVarType {T : Type} (x : XPathExtractor T) (t : VarType) :
    XPathExtractor T :=
  { x with toBaseExtractor := x.toBaseExtractor.SetVarType t }

/-- `SetDocument`, promoted from the embedded `BaseExtractor`. -/
def XPathExtractor.SetDocument {T : Type} (x : XPathExtractor T) (doc : String) :
    XPathExtractor T :=
  { x with toBaseExtractor := x.toBaseExtractor.SetDocument doc }

/-- `XPathExtractor.ExtractStr`. -/
def XPathExtractor.ExtractStr {T : Type} (x : XPathExtractor T) : Run (String × Option GoError) :=
  Easeprobe.Query x.toBaseExtractor.Document x.XPath x.Parser x.Query x.Inner

/-- The first loop of the `Query` closure of `NewHTMLExtractor`:
`nodes[i].PrevSibling = nil; nodes[i].NextSibling = nil`. -/
def unlinkLoop : HHeap → List Nat → HHeap
  | h, [] => h
  | h, n :: rest => unlinkLoop ((h.setPrev n none).setNext n none) rest

/-- The second loop of the `Query` closure of `NewHTMLExtractor`, from index `i` on:
`child` is the loop variable, `prev` is `nodes[i-1]` and the list holds `nodes[i:]`.
The pointer read back in `child.NextSibling.PrevSibling = child` and in
`child = child.NextSibling` is the `nodes[i]` assigned on the line before. -/
def linkLoop : HHeap → Nat → Nat → List Nat → HHeap
  | h, _, _, [] => h
  | h, child, prev, ni :: rest =>
    let h1 := h.setNext child (some ni)
    let h2 := h1.setPrev ni (some child)
    let h3 := h2.setPrev child (some prev)
    linkLoop h3 ni ni rest

/-- The `Query` closure of `NewHTMLExtractor` from its first loop on, for the non-empty
slice `nodes = n0 :: rest`: the heap after the first loop, the allocation of `root` (at the
next free address) and the second loop, which starts with `child = root.FirstChild`. -/
def relink (h : HHeap) (n0 : Nat) (rest : List Nat) : HHeap :=
  let h1 := unlinkLoop h (n0 :: rest)
  let root : HNode :=
    { HNode.zero with NodeType := .ElementNode, FirstChild := some n0,
                      LastChild := (n0 :: rest).getLast? }
  let h2 := h1.alloc root
  linkLoop h2 n0 n0 rest

/-- The `Query` closure of `NewHTMLExtractor`; `queryAll` is `htmlquery.QueryAll`, which
returns the addresses of the matched nodes in the heap of `doc`. -/
def htmlQuery (queryAll : HRef → String → List Nat × Option GoError)
    (doc : Option HRef) (xpath : String) : Run (Option HRef × Option GoError) :=
  match doc with
  | none => .panic .nilDereference
  | some d =>
    match queryAll d xpath with
    | (_, some err) => .ret (none, some err)
    | (nodes, none) =>
      match nodes with
      | [n] => .ret (some ⟨d.heap, n⟩, none)
      | [] => .panic (.indexOutOfRange 0 0)
      | n0 :: rest => .ret (some ⟨relink d.heap n0 rest, (unlinkLoop d.heap nodes).size⟩, none)

/-- The `Inner` closure of `NewHTMLExtractor`, with the two serializers it chooses between
(`htmlquery.InnerText` and `htmlquery.OutputHTML`) as parameters. -/
def htmlInnerWith {β : Type} (innerText : HRef → β) (outputHTML : HRef → Bool → β)
    (n : HRef) : β :=
  match (n.heap.node n.addr).NodeType with
  | .DocumentNode | .TextNode | .ErrorNode | .CommentNode | .DoctypeNode => innerText n
  | _ =>
    match (n.heap.node n.addr).FirstChild with
    | none => innerText n
    | some c =>
      if (n.heap.node c).NodeType = .TextNode ∧ (n.heap.node c).NextSibling = none then innerText n
      else outputHTML n false

/-- The HTML library functions that are parameters of the model: `html.Parse`,
`htmlquery.QueryAll` and the node texts of `RenderLib`. -/
structure HtmlLib where
  parse : String → Option HRef × Option GoError
  queryAll : HRef → String → List Nat × Option GoError
  render : RenderLib

/-- `NewHTMLExtractor`. -/
def NewHTMLExtractor (L : HtmlLib) (document : String) (docType : DocType) :
    XPathExtractor HRef :=
  { toBaseExtractor :=
      { Name := "", VarType := .String, Document := document, DocType := docType, XPath := "" }
    XPath := ""
    Parser := fun document => .ret (L.parse document)
    Query := htmlQuery L.queryAll
    Inner := htmlInnerWith hqInnerText (hqOutputHTML L.render) }

/-! ## XML trees (`github.com/antchfx/xmlquery`) and JSON trees (`github.com/antchfx/jsonquery`)

These trees are only read, so they are modelled as values: a node carries the list of its
children, `FirstChild` is the head of that list and `NextSibling` the next entry. -/

/-- The constants `xmlquery.NodeType`; `other` stands for any further value. -/
inductive XNodeType where
  | DocumentNode | DeclarationNode | ElementNode | TextNode | CharDataNode | CommentNode
  | AttributeNode | NotationNode
  | other (code : Nat)
deriving DecidableEq, Repr

/-- The struct `xmlquery.Node`, with its children in order. -/
inductive XNode where
  | mk (NodeType : XNodeType) (Data : String) (children : List XNode)

/-- The field `Type` of an XML node. -/
def XNode.NodeType : XNode → XNodeType
  | .mk t _ _ => t

/-- The field `Data` of an XML node. -/
def XNode.Data : XNode → String
  | .mk _ d _ => d

/-- The children of an XML node: `FirstChild` followed along `NextSibling`. -/
def XNode.children : XNode → List XNode
  | .mk _ _ cs => cs

/-- A 64-bit floating-point number: a dyadic rational `mant * 2 ^ exp`, an infinity, or NaN. -/
inductive Float64 where
  | finite (mant exp : Int)
  | inf (negative : Bool)
  | nan
deriving DecidableEq, Repr

/-- A value decoded from JSON by `encoding/json` into an `interface{}`: `nil`, `bool`,
`float64`, `string`, `[]interface{}` or `map[string]interface{}` (listed by key). -/
inductive JValue where
  | null
  | bool (b : Bool)
  | number (f : Float64)
  | string (s : String)
  | array (xs : List JValue)
  | object (kvs : List (String × JValue))

/-- The constants `jsonquery.NodeType`; `other` stands for any further value. -/
inductive JNodeType where
  | DocumentNode | ElementNode | TextNode
  | other (code : Nat)
deriving DecidableEq, Repr

/-- The struct `jsonquery.Node`, with its decoded value and its children in order. -/
inductive JNode where
  | mk (NodeType : JNodeType) (Data : String) (value : JValue) (children : List JNode)

/-- The field `Type` of a JSON node. -/
def JNode.NodeType : JNode → JNodeType
  | .mk t _ _ _ => t

/-- The method `Value()` of a JSON node. -/
def JNode.Value : JNode → JValue
  | .mk _ _ v _ => v

/-- The method `ChildNodes()` of a JSON node. -/
def JNode.ChildNodes : JNode → List JNode
  | .mk _ _ _ cs => cs

/-- The XML library functions that are parameters of the model. -/
structure XmlLib where
  /-- `xmlquery.Parse`. -/
  parse : String → Option XNode × Option GoError
  /-- `xmlquery.Query`: the first node matched, `nil` when there is none. -/
  query : XNode → String → Option XNode × Option GoError
  /-- `(*Node).SelectElement`: the first node matched, `nil` when there is none; it panics
  on an expression that does not compile. -/
  selectElement : XNode → String → Run (Option XNode)
  /-- `(*Node).InnerText`. -/
  innerText : XNode → String
  /-- `(*Node).OutputXML`. -/
  outputXML : XNode → Bool → String

/-- The JSON library functions that are parameters of the model. -/
structure JsonLib where
  /-- `jsonquery.Parse`. -/
  parse : String → Option JNode × Option GoError
  /-- `jsonquery.Query`: the first node matched, `nil` when there is none. -/
  query : JNode → String → Option JNode × Option GoError
  /-- `(*Node).InnerText`. -/
  innerText : JNode → String
  /-- `json.Marshal`. -/
  marshal : JValue → String × Option GoError

/-- The `Inner` closure of `NewXMLExtractor`, with the two serializers it chooses between
(`InnerText` and `OutputXML`) as parameters. -/
def xmlInnerWith {β : Type} (innerText : XNode → β) (outputXML : XNode → Bool → β)
    (n : XNode) : β :=
  match n.NodeType with
  | .DocumentNode | .TextNode | .DeclarationNode | .CharDataNode | .CommentNode
  | .AttributeNode => innerText n
  | _ =>
    match n.children with
    | [] => innerText n
    | c :: rest =>
      if c.NodeType = .TextNode ∧ rest.isEmpty then innerText n else outputXML n true

/-- The `Inner` closure of `NewJSONExtractor`, with the two serializers it chooses between
(`InnerText` and `json.Marshal`, whose error it drops) as parameters.  The case
`[]map[string]any` of the type switch is a type that decoding never produces. -/
def jsonInnerWith {β : Type} (innerText : JNode → β) (marshal : JValue → β) (n : JNode) : β :=
  match n.NodeType with
  | .DocumentNode | .TextNode => innerText n
  | _ =>
    match n.Value with
    | .array _ | .object _ => marshal n.Value
    | _ => innerText n

/-- `NewXMLExtractor`. -/
def NewXMLExtractor (L : XmlLib) (document : String) (docType : DocType) :
    XPathExtractor XNode :=
  { toBaseExtractor :=
      { Name := "", VarType := .String, Document := document, DocType := docType, XPath := "" }
    XPath := ""
    Parser := fun document => .ret (L.parse document)
    Query := fun doc xpath =>
      match doc with
      | none => .panic .nilDereference
      | some d => .ret (L.query d xpath)
    Inner := fun n => .ret (xmlInnerWith L.innerText L.outputXML n) }

/-- `NewJSONExtractor`. -/
def NewJSONExtractor (L : JsonLib) (document : String) (docType : DocType) :
    XPathExtractor JNode :=
  { toBaseExtractor :=
      { Name := "", VarType := .String, Document := document, DocType := docType, XPath := "" }
    XPath := ""
    Parser := fun document => .ret (L.parse document)
    Query := fun doc xpath =>
      match doc with
      | none => .panic .nilDereference
      | some d => .ret (L.query d xpath)
    Inner := fun n => .ret (jsonInnerWith L.innerText (fun v => (L.marshal v).1) n) }

/-- `NewRegexExtractor`. -/
def NewRegexExtractor (document : String) (docType : DocType) : RegexExtractor :=
  { Name := "", VarType := .String, Document := document, DocType := docType, XPath := ""
    Regex := "" }

/-! ## Type coercion -/

/-- A `*time.Location`. -/
inductive Location where
  | UTC
  | Local
  | fixed (name : String) (offset : Int)
deriving DecidableEq, Repr

/-- A `time.Time`: the wall clock reading and the zone it is read in. -/
structure Time where
  year : Int
  month : Nat
  day : Nat
  hour : Nat
  minute : Nat
  second : Nat
  nanosecond : Nat
  loc : Location
deriving DecidableEq, Repr

/-- The zero value `time.Time{}`: January 1, year 1, 00:00:00 UTC. -/
def Time.zero : Time := ⟨1, 1, 1, 0, 0, 0, 0, .UTC⟩

/-- The zero value of `float64`. -/
def Float64.zero : Float64 := .finite 0 0

/-- How the digit loop of `strconv.ParseUint` ends: with a value, on a character that is
not a digit, or on an overflow. -/
inductive UintResult where
  | value (n : Nat)
  | invalid
  | range
deriving DecidableEq, Repr

/-- The loop `for _, c := range []byte(s)` of `strconv.ParseUint(s, 10, 64)`, with `n` the
value read so far: a character that is not a decimal digit is a syntax error; a value that
leaves the range of `uint64` is a range error, reported as soon as it is reached. -/
def parseUintLoop : List Char → Nat → UintResult
  | [], n => .value n
  | c :: rest, n =>
    if c.isDigit then
      if (2 ^ 64 - 1) / 10 + 1 ≤ n then .range
      else if 2 ^ 64 ≤ n * 10 + (c.toNat - 48) then .range
      else parseUintLoop rest (n * 10 + (c.toNat - 48))
    else .invalid

/-- `strconv.Atoi` on a 64-bit platform (its fast path and `ParseInt(s, 10, 0)` agree): an
optional sign, then decimal digits only; a value outside the range of `int` is clamped and
reported as a range error. -/
def strconvAtoi (s : String) : Int × Option GoError :=
  let body : List Char :=
    match s.toList with
    | c :: rest => if c = Char.ofNat 43 ∨ c = Char.ofNat 45 then rest else c :: rest
    | [] => []
  let neg : Bool := s.toList.head? = some (Char.ofNat 45)
  if body = [] then (0, some (.numError "Atoi" s .invalid))
  else
    match parseUintLoop body 0 with
    | .invalid => (0, some (.numError "Atoi" s .invalid))
    | .range =>
      if neg then (-(2 ^ 63), some (.numError "Atoi" s .range))
      else (2 ^ 63 - 1, some (.numError "Atoi" s .range))
    | .value un =>
      if ¬ neg ∧ 2 ^ 63 ≤ un then (2 ^ 63 - 1, some (.numError "Atoi" s .range))
      else if neg ∧ 2 ^ 63 < un then (-(2 ^ 63), some (.numError "Atoi" s .range))
      else if neg then (-(un : Int), none) else ((un : Int), none)

/-- `strconv.ParseBool`. -/
def strconvParseBool (str : String) : Bool × Option GoError :=
  if str ∈ ["1", "t", "T", "true", "TRUE", "True"] then (true, none)
  else if str ∈ ["0", "f", "F", "false", "FALSE", "False"] then (false, none)
  else (false, some (.numError "ParseBool" str .invalid))

/-- The array `timeFormats` of `tryParseTime`, with the constants of package `time`
(`ANSIC`, `UnixDate`, `RubyDate`, `Kitchen`, `RFC3339`, `RFC3339Nano`) written out. -/
def timeFormats : List String :=
  [ "Mon Jan _2 15:04:05 2006",
    "Mon Jan _2 15:04:05 MST 2006",
    "Mon Jan 02 15:04:05 -0700 2006",
    "3:04PM",
    "2006-01-02T15:04:05Z07:00",
    "2006-01-02T15:04:05.999999999Z07:00",
    "2006-01-02",
    "2006-01-02 15:04",
    "2006-01-02 15:04:05",
    "2006-01-02 15:04:05-07:00",
    "2006-01-02T15Z0700",
    "2006-01-02T15:04Z0700",
    "2006-01-02T15:04:05Z0700",
    "2006-01-02T15:04:05.999999999Z0700" ]

/-- `tryParseExactTime`; `parseInLocation` is `time.ParseInLocation`. -/
def tryParseExactTime (parseInLocation : String → String → Location → Time × Option GoError)
    (candidate format : String) : Time × Option GoError :=
  match parseInLocation format candidate .Local with
  | (_, some err) => (Time.zero, some err)
  | (ret, none) => (ret, none)

/-- The loop `for _, format := range timeFormats` of `tryParseTime`, over the formats
still to try, with the `return` that follows it. -/
def tryParseTimeLoop (parseInLocation : String → String → Location → Time × Option GoError)
    (str : String) : List String → Time × Option GoError
  | [] => (Time.zero, some (.errorf ("Cannot parse the time: " ++ str)))
  | format :: rest =>
    match tryParseExactTime parseInLocation str format with
    | (ret, none) => (ret, none)
    | (_, some _) => tryParseTimeLoop parseInLocation str rest

/-- `tryParseTime`. -/
def tryParseTime (parseInLocation : String → String → Location → Time × Option GoError)
    (str : String) : Time × Option GoError :=
  tryParseTimeLoop parseInLocation str timeFormats

/-- Everything `eval/extract.go` calls that is not in the sources. -/
structure Env where
  /-- `strconv.ParseFloat(s, 64)`. -/
  ParseFloat : String → Float64 × Option GoError
  /-- `time.ParseInLocation(layout, value, loc)`. -/
  ParseInLocation : String → String → Location → Time × Option GoError
  /-- `time.ParseDuration`, in nanoseconds. -/
  ParseDuration : String → Int × Option GoError
  /-- `regexp.Compile`: `none` for a pattern that does not compile. -/
  regexpCompile : String → Option Regexp
  /-- The method `VarType.String` of `eval/types.go`, used by the verb `%s`. -/
  VarTypeString : VarType → String
  html : HtmlLib
  xml : XmlLib
  json : JsonLib

/-- One entry of the `[]any` that `ExtractLengthVariable` returns: a string or a decoded
JSON value. -/
inductive Elem where
  | string (s : String)
  | json (v : JValue)

/-- The `interface{}` values that `Extract` returns. -/
inductive Value where
  | nil
  | string (s : String)
  | int (i : Int)
  | float (f : Float64)
  | bool (b : Bool)
  | time (t : Time)
  | duration (d : Int)
  | slice (vs : List Elem)

/-- An extractor as the methods of `BaseExtractor` see it: the embedded `BaseExtractor` and
the method value stored in its field `ExtractStrFn`, which runs on the enclosing extractor
and may update it. -/
structure Receiver (σ : Type) where
  base : σ → BaseExtractor
  ExtractStrFn : σ → Run ((String × Option GoError) × σ)

/-- `BaseExtractor.ExtractInt`. -/
def BaseExtractor.ExtractInt {σ : Type} (R : Receiver σ) (x : σ) :
    Run ((Int × Option GoError) × σ) :=
  (R.ExtractStrFn x).bind fun ((s, err), x1) =>
    if err ≠ none then .ret ((0, err), x1) else .ret (strconvAtoi s, x1)

/-- `BaseExtractor.ExtractFloat`. -/
def BaseExtractor.ExtractFloat {σ : Type} (E : Env) (R : Receiver σ) (x : σ) :
    Run ((Float64 × Option GoError) × σ) :=
  (R.ExtractStrFn x).bind fun ((s, err), x1) =>
    if err ≠ none then .ret ((Float64.zero, err), x1) else .ret (E.ParseFloat s, x1)

/-- `BaseExtractor.ExtractBool`. -/
def BaseExtractor.ExtractBool {σ : Type} (R : Receiver σ) (x : σ) :
    Run ((Bool × Option GoError) × σ) :=
  (R.ExtractStrFn x).bind fun ((s, err), x1) =>
    if err ≠ none then .ret ((false, err), x1) else .ret (strconvParseBool s, x1)

/-- `BaseExtractor.ExtractTime`. -/
def BaseExtractor.ExtractTime {σ : Type} (E : Env) (R : Receiver σ) (x : σ) :
    Run ((Time × Option GoError) × σ) :=
  (R.ExtractStrFn x).bind fun ((s, err), x1) =>
    if err ≠ none then .ret ((Time.zero, err), x1)
    else .ret (tryParseTime E.ParseInLocation s, x1)

/-- `BaseExtractor.ExtractDuration`. -/
def BaseExtractor.ExtractDuration {σ : Type} (E : Env) (R : Receiver σ) (x : σ) :
    Run ((Int × Option GoError) × σ) :=
  (R.ExtractStrFn x).bind fun ((s, err), x1) =>
    if err ≠ none then .ret ((0, err), x1) else .ret (E.ParseDuration s, x1)

/-- The nodes that a loop `for c := p; c != nil; c = c.NextSibling` visits, with a step
bound. -/
def siblingsGo (h : HHeap) : Nat → Option Nat → Option (List Nat)
  | _, none => some []
  | 0, some _ => none
  | f + 1, some c => (siblingsGo h f (h.node c).NextSibling).map (c :: ·)

/-- The nodes that the loop `for child := n.FirstChild; child != nil; child =
child.NextSibling` visits; the loops of `ExtractLengthVariable` do not write to the heap. -/
def HHeap.childNodes (h : HHeap) (n : Nat) : Run (List Nat) :=
  match siblingsGo h h.fuel (h.node n).FirstChild with
  | some cs => .ret cs
  | none => .hang

/-- The innermost loop of the HTML case of `ExtractLengthVariable`, over the children of an
element child: the inner text of every text node. -/
def htmlGrandChildren (h : HHeap) : List Nat → Run (List Elem)
  | [] => .ret []
  | g :: rest =>
    if (h.node g).NodeType = .TextNode then
      (hqInnerText ⟨h, g⟩).bind fun t =>
      (htmlGrandChildren h rest).bind fun vs => .ret (.string t :: vs)
    else htmlGrandChildren h rest

/-- The loop over the children of one matched node in the HTML case of
`ExtractLengthVariable`. -/
def htmlChildren (h : HHeap) : List Nat → Run (List Elem)
  | [] => .ret []
  | child :: rest =>
    match (h.node child).NodeType with
    | .ElementNode =>
      (h.childNodes child).bind fun gs =>
      (htmlGrandChildren h gs).bind fun vs =>
      (htmlChildren h rest).bind fun ws => .ret (vs ++ ws)
    | .TextNode =>
      (hqInnerText ⟨h, child⟩).bind fun t =>
      (htmlChildren h rest).bind fun ws => .ret (.string t :: ws)
    | _ => htmlChildren h rest

/-- The loop `for i := 0; i < len(nodes); i++` of the HTML case of
`ExtractLengthVariable`. -/
def htmlLengthValues (h : HHeap) : List Nat → Run (List Elem)
  | [] => .ret []
  | n :: rest =>
    (h.childNodes n).bind fun cs =>
    (htmlChildren h cs).bind fun vs =>
    (htmlLengthValues h rest).bind fun ws => .ret (vs ++ ws)

/-- The loop over the children of the selected node in the XML case of
`ExtractLengthVariable`. -/
def xmlLengthValues (L : XmlLib) : List XNode → List Elem
  | [] => []
  | child :: rest =>
    match child.NodeType with
    | .ElementNode =>
      child.children.map (fun g => Elem.string (L.outputXML g true)) ++ xmlLengthValues L rest
    | .TextNode => .string child.Data :: xmlLengthValues L rest
    | _ => xmlLengthValues L rest

/-- `BaseExtractor.ExtractLengthVariable`. -/
def BaseExtractor.ExtractLengthVariable {σ : Type} (E : Env) (R : Receiver σ) (x : σ) :
    Run ((Value × Option GoError) × σ) :=
  (R.ExtractStrFn x).bind fun ((s, err), x1) =>
    if err ≠ none then .ret ((.nil, err), x1)
    else
      match (R.base x1).DocType with
      | .HTML =>
        match E.html.parse s with
        | (_, some err) => .ret ((.nil, some err), x1)
        | (none, none) => .panic .nilDereference
        | (some root, none) =>
          match E.html.queryAll root (R.base x1).XPath with
          | (_, some err) => .ret ((.nil, some err), x1)
          | (nodes, none) =>
            (htmlLengthValues root.heap nodes).bind fun values =>
              .ret ((.slice values, none), x1)
      | .XML =>
        match E.xml.parse s with
        | (_, some err) => .ret ((.nil, some err), x1)
        | (none, none) => .panic .nilDereference
        | (some root, none) =>
          (E.xml.selectElement root (R.base x1).XPath).bind fun node =>
            match node with
            | none => .panic .nilDereference
            | some node => .ret ((.slice (xmlLengthValues E.xml node.children), none), x1)
      | .TEXT | .JSON =>
        match E.json.parse s with
        | (_, some err) => .ret ((.nil, some err), x1)
        | (none, none) => .panic .nilDereference
        | (some parent, none) =>
          .ret ((.slice (parent.ChildNodes.map fun n => Elem.json n.Value), none), x1)
      | _ => .ret ((.nil, some (.errorf ("Cannot parse the length: " ++ s))), x1)

/-- `BaseExtractor.Extract`. -/
def BaseExtractor.Extract {σ : Type} (E : Env) (R : Receiver σ) (x : σ) :
    Run ((Value × Option GoError) × σ) :=
  match (R.base x).VarType with
  | .String => (R.ExtractStrFn x).bind fun ((s, err), x1) => .ret ((.string s, err), x1)
  | .Int => (BaseExtractor.ExtractInt R x).bind fun ((v, err), x1) => .ret ((.int v, err), x1)
  | .Float =>
    (BaseExtractor.ExtractFloat E R x).bind fun ((v, err), x1) => .ret ((.float v, err), x1)
  | .Bool => (BaseExtractor.ExtractBool R x).bind fun ((v, err), x1) => .ret ((.bool v, err), x1)
  | .Time =>
    (BaseExtractor.ExtractTime E R x).bind fun ((v, err), x1) => .ret ((.time v, err), x1)
  | .Duration =>
    (BaseExtractor.ExtractDuration E R x).bind fun ((v, err), x1) =>
      .ret ((.duration v, err), x1)
  | .LengthVariable => BaseExtractor.ExtractLengthVariable E R x
  | .other c =>
    .ret ((.nil, some (.errorf ("unknown type: " ++ E.VarTypeString (.other c)))), x)

/-- An `XPathExtractor` as a receiver: `x.ExtractStrFn = x.ExtractStr`. -/
def XPathExtractor.receiver (T : Type) : Receiver (XPathExtractor T) :=
  { base := fun x => x.toBaseExtractor
    ExtractStrFn := fun x => x.ExtractStr.bind fun r => .ret (r, x) }

/-- A `RegexExtractor` as a receiver: `x.ExtractStrFn = x.MatchStr`. -/
def RegexExtractor.receiver (E : Env) : Receiver RegexExtractor :=
  { base := fun r => r.toBaseExtractor
    ExtractStrFn := fun r => r.MatchStr E.regexpCompile }

/-- `Extract` on an `XPathExtractor`. -/
def XPathExtractor.Extract {T : Type} (E : Env) (x : XPathExtractor T) :
    Run ((Value × Option GoError) × XPathExtractor T) :=
  BaseExtractor.Extract E (XPathExtractor.receiver T) x

/-- `Extract` on a `RegexExtractor`. -/
def RegexExtractor.Extract (E : Env) (r : RegexExtractor) :
    Run ((Value × Option GoError) × RegexExtractor) :=
  BaseExtractor.Extract E (RegexExtractor.receiver E) r

/-! ## Well-formed heaps and specification-level notions -/

/-- Whether the pointer `p`, stored in the node at `a`, is nil or points to a later address
below `N`. -/
def linkForward (a N : Nat) : Option Nat → Bool
  | none => true
  | some c => decide (a < c) && decide (c < N)

/-- The nodes below `N` form a forest laid out in document order: the `FirstChild` and
`NextSibling` pointers of every node below `N` are nil or point to a later node below `N`.
The trees that `html.Parse` builds satisfy this when their nodes are numbered in document
order. -/
def HHeap.ForwardBelow (h : HHeap) (N : Nat) : Prop :=
  ∀ a, a < N → linkForward a N (h.node a).FirstChild = true ∧
    linkForward a N (h.node a).NextSibling = true

/-- A parsed tree: every allocated node satisfies `ForwardBelow`. -/
def HHeap.Forward (h : HHeap) : Prop := h.ForwardBelow h.size

instance (h : HHeap) (N : Nat) : Decidable (h.ForwardBelow N) := by
  unfold HHeap.ForwardBelow; infer_instance

instance (h : HHeap) : Decidable h.Forward := by
  unfold HHeap.Forward; infer_instance

/-- The entry that follows the first occurrence of `a` in the list. -/
def succIn : List Nat → Nat → Option Nat
  | [], _ => none
  | [_], _ => none
  | x :: y :: rest, a => if a = x then some y else succIn (y :: rest) a

/-- The concatenation of the listed strings, in order. -/
def concatStrings : List String → String
  | [] => ""
  | a :: rest => a ++ concatStrings rest

/-- The text that `html.Render` writes for the node at `n`. -/
def renderedText (L : RenderLib) (h : HHeap) (n : Nat) : String :=
  match renderGo L h h.fuel (.node n) with
  | some (s, _) => s
  | none => ""

/-- The text that the `Inner` closure of `NewHTMLExtractor` returns for a node (the empty
string if the traversal does not return). -/
def htmlInnerString (L : RenderLib) (n : HRef) : String :=
  match htmlInnerWith hqInnerText (hqOutputHTML L) n with
  | .ret s => s
  | _ => ""

/-- The children of the node at `n`, in order (the empty list if the sibling chain is
cyclic). -/
def HHeap.children (h : HHeap) (n : Nat) : List Nat :=
  (siblingsGo h h.fuel (h.node n).FirstChild).getD []

/-- Follows the words of the spec (§4.6, markup): what one child contributes to the list,
"if an element, [...] inner text of its text-type grandchildren; if a text node, [...] its
text directly". -/
def htmlChildTexts (h : HHeap) (child : Nat) : List Elem :=
  match (h.node child).NodeType with
  | .ElementNode =>
    ((h.children child).filter (fun g => (h.node g).NodeType = .TextNode)).map
      (fun g => Elem.string (h.node g).Data)
  | .TextNode => [Elem.string (h.node child).Data]
  | _ => []

/-- Follows the words of the spec (§4.2): the node kinds it names, and `element` and
`other` for the rest. -/
inductive NodeKind where
  | document | text | comment | declaration | charData | attribute | error | doctype
  | element | other
deriving DecidableEq, Repr

/-- Follows the words of the spec (§4.2): the "Markup/XML node kinds {document, text,
comment, declaration, char-data, attribute, error, doctype}" that are always flattened. -/
def flattenedKinds : List NodeKind :=
  [.document, .text, .comment, .declaration, .charData, .attribute, .error, .doctype]

/-- The kind of an HTML node type. -/
def HNodeType.kind : HNodeType → NodeKind
  | .ErrorNode => .error
  | .TextNode => .text
  | .DocumentNode => .document
  | .ElementNode => .element
  | .CommentNode => .comment
  | .DoctypeNode => .doctype
  | .RawNode => .other
  | .other _ => .other

/-- The kind of an XML node type. -/
def XNodeType.kind : XNodeType → NodeKind
  | .DocumentNode => .document
  | .DeclarationNode => .declaration
  | .ElementNode => .element
  | .TextNode => .text
  | .CharDataNode => .charData
  | .CommentNode => .comment
  | .AttributeNode => .attribute
  | .NotationNode => .other
  | .other _ => .other

/-- Follows the words of the claim: the HTML node's kind is one of the flattened kinds, or
the node has no children, or its only child is a text node. -/
def htmlFlattens (n : HRef) : Bool :=
  decide ((n.heap.node n.addr).NodeType.kind ∈ flattenedKinds) ||
  (match (n.heap.node n.addr).FirstChild with
   | none => true
   | some c =>
     decide ((n.heap.node c).NodeType = .TextNode) && decide ((n.heap.node c).NextSibling = none))

/-- Follows the words of the claim: the XML node's kind is one of the flattened kinds, or
the node has no children, or its only child is a text node. -/
def xmlFlattens (n : XNode) : Bool :=
  decide (n.NodeType.kind ∈ flattenedKinds) ||
  (match n.children with
   | [] => true
   | [c] => decide (c.NodeType = .TextNode)
   | _ => false)

/-- Whether a decoded JSON value is a list or a mapping. -/
def JValue.isComposite : JValue → Bool
  | .array _ => true
  | .object _ => true
  | _ => false

/-- The zero value that `Extract` returns next to an error of the string extraction, per
target type: `0`, `0.0`, `false`, `time.Time{}`, `0`, and `nil` for the list. -/
def zeroValue : VarType → Value
  | .Int => .int 0
  | .Float => .float Float64.zero
  | .Bool => .bool false
  | .Time => .time Time.zero
  | .Duration => .duration 0
  | _ => .nil

/-- Library behaviour on the empty string: `strconv.ParseFloat`, `time.ParseDuration` and
`time.ParseInLocation` under every layout of `timeFormats` report an error on it. -/
def Env.RejectsEmpty (E : Env) : Prop :=
  (E.ParseFloat "").2 ≠ none ∧ (E.ParseDuration "").2 ≠ none ∧
  ∀ layout ∈ timeFormats, (E.ParseInLocation layout "" .Local).2 ≠ none

instance (E : Env) : Decidable E.RejectsEmpty := by
  unfold Env.RejectsEmpty; infer_instance

/-- Follows the words of the spec: "scan [the capturing groups] in declared order and return
the text of the first non-empty group", on the submatches `m` (entry 0 is the whole
match). -/
def firstNonEmptyGroup (m : List String) : Option String :=
  (m.drop 1).find? (fun s => s ≠ "")

/-! ## Sample library behaviour, for the closed examples

What the libraries return on the documents used in the examples. -/

/-- A heap holding the listed nodes at the addresses `0, 1, 2, ...`. -/
def HHeap.ofList (l : List HNode) : HHeap :=
  { node := fun a => l.getD a HNode.zero, size := l.length }

/-- An element node with the given tag and links. -/
def HNode.element (tag : String) (parent first last prev next : Option Nat) : HNode :=
  ⟨parent, first, last, prev, next, .ElementNode, tag, "", []⟩

/-- A text node with the given text and links. -/
def HNode.text (data : String) (parent prev next : Option Nat) : HNode :=
  ⟨parent, none, none, prev, next, .TextNode, data, "", []⟩

/-- The tree that `html.Parse` builds for `<ul><li>a</li><li>b</li></ul>`:
document 0, html 1, head 2, body 3, ul 4, li 5, text 6, li 7, text 8. -/
def sampleListDoc : HHeap :=
  HHeap.ofList
    [ ⟨none, some 1, some 1, none, none, .DocumentNode, "", "", []⟩,
      .element "html" (some 0) (some 2) (some 3) none none,
      .element "head" (some 1) none none none (some 3),
      .element "body" (some 1) (some 4) (some 4) (some 2) none,
      .element "ul" (some 3) (some 5) (some 7) none none,
      .element "li" (some 4) (some 6) (some 6) none (some 7),
      .text "a" (some 5) none none,
      .element "li" (some 4) (some 8) (some 8) (some 5) none,
      .text "b" (some 7) none none ]

/-- The tree that `html.Parse` builds for `<li>a</li><li>b</li>`:
document 0, html 1, head 2, body 3, li 4, text 5, li 6, text 7. -/
def sampleItemsDoc : HHeap :=
  HHeap.ofList
    [ ⟨none, some 1, some 1, none, none, .DocumentNode, "", "", []⟩,
      .element "html" (some 0) (some 2) (some 3) none none,
      .element "head" (some 1) none none none (some 3),
      .element "body" (some 1) (some 4) (some 6) (some 2) none,
      .element "li" (some 3) (some 5) (some 5) none (some 6),
      .text "a" (some 4) none none,
      .element "li" (some 3) (some 7) (some 7) (some 4) none,
      .text "b" (some 6) none none ]

/-- The tree that `html.Parse` builds for a document without markup or text:
document 0, html 1, head 2, body 3. -/
def sampleEmptyDoc : HHeap :=
  HHeap.ofList
    [ ⟨none, some 1, some 1, none, none, .DocumentNode, "", "", []⟩,
      .element "html" (some 0) (some 2) (some 3) none none,
      .element "head" (some 1) none none none (some 3),
      .element "body" (some 1) none none (some 2) none ]

/-- `html.Parse` on the sample documents; any other document is treated as the empty one
(`html.Parse` reports no error on a string). -/
def sampleHtmlParse (document : String) : Option HRef × Option GoError :=
  if document = "<ul><li>a</li><li>b</li></ul>" then (some ⟨sampleListDoc, 0⟩, none)
  else if document = "<li>a</li><li>b</li>" then (some ⟨sampleItemsDoc, 0⟩, none)
  else (some ⟨sampleEmptyDoc, 0⟩, none)

/-- The addresses below `n`, in increasing order. -/
def addressesBelow : Nat → List Nat
  | 0 => []
  | n + 1 => addressesBelow n ++ [n]

/-- Whether the node at `a` is an element with the given tag. -/
def HHeap.isElement (h : HHeap) (tag : String) (a : Nat) : Bool :=
  (h.node a).NodeType = .ElementNode ∧ (h.node a).Data = tag

/-- `htmlquery.QueryAll` on the sample trees (whose addresses follow document order), for
the expressions `//li`, `//ul`, `//p` (all elements with that tag) and `//ul/li` (the `li`
children of `ul` elements); any other expression is reported as an error. -/
def sampleQueryAll (doc : HRef) (xpath : String) : List Nat × Option GoError :=
  let all := addressesBelow doc.heap.size
  if xpath = "//li" then (all.filter (doc.heap.isElement "li"), none)
  else if xpath = "//ul" then (all.filter (doc.heap.isElement "ul"), none)
  else if xpath = "//p" then (all.filter (doc.heap.isElement "p"), none)
  else if xpath = "//ul/li" then
    (all.filter (fun a => doc.heap.isElement "li" a &&
      match (doc.heap.node a).Parent with
      | some p => doc.heap.isElement "ul" p
      | none => false), none)
  else ([], some (.library "xpath" ("expression not tabulated: " ++ xpath)))

/-- The sample HTML library. -/
def sampleHtmlLib : HtmlLib :=
  { parse := sampleHtmlParse
    queryAll := sampleQueryAll
    render := { comment := fun nd => "<!--" ++ nd.Data ++ "-->"
                doctype := fun nd => "<!DOCTYPE " ++ nd.Data ++ ">" } }

/-- `regexp.Compile` on the sample patterns: `(a*)(b)`, whose only match in the document
`b` has an empty first group, and `(?P<code>\d+)`, which matches `42` in `status=42`.
Patterns outside the table are treated as invalid. -/
def sampleCompile (pattern : String) : Option Regexp :=
  if pattern = "(a*)(b)" then
    some { SubexpNames := ["", "", ""]
           FindStringSubmatch := fun doc => if doc = "b" then some ["b", "", "b"] else none }
  else if pattern = "(?P<code>\\d+)" then
    some { SubexpNames := ["", "code"]
           FindStringSubmatch := fun doc =>
             if doc = "status=42" then some ["42", "42"] else none }
  else none

/-- Sample XML trees: the tree of `<a><b>1</b></a>`. -/
def sampleXmlDoc : XNode :=
  .mk .DocumentNode "" [.mk .ElementNode "a" [.mk .ElementNode "b" [.mk .TextNode "1" []]]]

mutual
/-- `InnerText` on XML trees: the text and character data below the node. -/
def xmlInnerText : XNode → String
  | .mk .TextNode d _ => d
  | .mk .CharDataNode d _ => d
  | .mk .CommentNode _ _ => ""
  | .mk _ _ cs => xmlInnerTextList cs
/-- `InnerText` over a list of siblings. -/
def xmlInnerTextList : List XNode → String
  | [] => ""
  | c :: rest => xmlInnerText c ++ xmlInnerTextList rest
end

mutual
/-- `OutputXML(true)` on sample XML trees, which hold elements without attributes and
text without characters that need escaping. -/
def sampleOutputXML : XNode → String
  | .mk .TextNode d _ => d
  | .mk .ElementNode d cs => "<" ++ d ++ ">" ++ sampleOutputXMLList cs ++ "</" ++ d ++ ">"
  | .mk _ _ cs => sampleOutputXMLList cs
/-- `OutputXML(true)` over a list of siblings. -/
def sampleOutputXMLList : List XNode → String
  | [] => ""
  | c :: rest => sampleOutputXML c ++ sampleOutputXMLList rest
end

/-- The sample XML library: `xmlquery.Parse` on `<a><b>1</b></a>` (any other document is
reported as malformed) and the expressions `//b` (one match) and `//c` (no match). -/
def sampleXmlLib : XmlLib :=
  { parse := fun document =>
      if document = "<a><b>1</b></a>" then (some sampleXmlDoc, none)
      else (none, some (.library "xml" "document not tabulated"))
    query := fun _ xpath =>
      if xpath = "//b" then (some (.mk .ElementNode "b" [.mk .TextNode "1" []]), none)
      else if xpath = "//c" then (none, none)
      else (none, some (.library "xpath" ("expression not tabulated: " ++ xpath)))
    selectElement := fun _ xpath =>
      if xpath = "//b" then .ret (some (.mk .ElementNode "b" [.mk .TextNode "1" []]))
      else .ret none
    innerText := xmlInnerText
    outputXML := fun n self => if self then sampleOutputXML n else sampleOutputXMLList n.children }

mutual
/-- `json.Marshal` on sample values: strings without characters that need escaping, and
numbers `mant * 2 ^ 0`, which `encoding/json` writes in plain decimal. -/
def sampleMarshal : JValue → String
  | .null => "null"
  | .bool b => if b then "true" else "false"
  | .number (.finite m e) => if e = 0 then toString m else "null"
  | .number _ => "null"
  | .string s => "\"" ++ s ++ "\""
  | .array xs => "[" ++ sampleMarshalList xs ++ "]"
  | .object kvs => "\x7b" ++ sampleMarshalFields kvs ++ "\x7d"
/-- The entries of an array, separated by commas. -/
def sampleMarshalList : List JValue → String
  | [] => ""
  | [x] => sampleMarshal x
  | x :: rest => sampleMarshal x ++ "," ++ sampleMarshalList rest
/-- The fields of an object, separated by commas. -/
def sampleMarshalFields : List (String × JValue) → String
  | [] => ""
  | [(k, v)] => "\"" ++ k ++ "\":" ++ sampleMarshal v
  | (k, v) :: rest => "\"" ++ k ++ "\":" ++ sampleMarshal v ++ "," ++ sampleMarshalFields rest
end

/-- The node that `jsonquery` builds for the field `x` of `\x7b"x":\x7b"a":1\x7d\x7d`: an
element whose decoded value is the mapping `\x7b"a":1\x7d`. -/
def sampleJsonField : JNode :=
  .mk .ElementNode "x" (.object [("a", .number (.finite 1 0))])
    [.mk .ElementNode "a" (.number (.finite 1 0))
      [.mk .TextNode "1" (.number (.finite 1 0)) []]]

/-- The tree that `jsonquery.Parse` builds for `\x7b"x":\x7b"a":1\x7d\x7d`. -/
def sampleJsonDoc : JNode :=
  .mk .DocumentNode "" .null [sampleJsonField]

mutual
/-- `InnerText` on JSON trees: the data of the text nodes below the node. -/
def jsonInnerText : JNode → String
  | .mk .TextNode d _ _ => d
  | .mk _ _ _ cs => jsonInnerTextList cs
/-- `InnerText` over a list of siblings. -/
def jsonInnerTextList : List JNode → String
  | [] => ""
  | c :: rest => jsonInnerText c ++ jsonInnerTextList rest
end

/-- The sample JSON library: `jsonquery.Parse` on `\x7b"x":\x7b"a":1\x7d\x7d` (any other
document is reported as malformed) and the expressions `//x` (one match) and `//y` (no
match). -/
def sampleJsonLib : JsonLib :=
  { parse := fun document =>
      if document = "\x7b\"x\":\x7b\"a\":1\x7d\x7d" then (some sampleJsonDoc, none)
      else (none, some (.library "json" "document not tabulated"))
    query := fun _ xpath =>
      if xpath = "//x" then (some sampleJsonField, none)
      else if xpath = "//y" then (none, none)
      else (none, some (.library "xpath" ("expression not tabulated: " ++ xpath)))
    innerText := jsonInnerText
    marshal := fun v => (sampleMarshal v, none) }

/-- The sample environment.  `strconv.ParseFloat`, `time.ParseDuration` and
`time.ParseInLocation` are tabulated on one accepted string each (`1.5`, `1s`, and
`2023-05-01` under the layout `2006-01-02`); they reject every other string of the table,
the empty string among them. -/
def sampleEnv : Env :=
  { ParseFloat := fun s =>
      if s = "1.5" then (.finite 3 (-1), none)
      else (Float64.zero, some (.numError "ParseFloat" s .invalid))
    ParseInLocation := fun layout value loc =>
      if layout = "2006-01-02" ∧ value = "2023-05-01" then (⟨2023, 5, 1, 0, 0, 0, 0, loc⟩, none)
      else (Time.zero, some (.library "time" ("cannot parse " ++ value ++ " as " ++ layout)))
    ParseDuration := fun s =>
      if s = "1s" then (1000000000, none)
      else (0, some (.library "time" ("invalid duration " ++ s)))
    regexpCompile := sampleCompile
    VarTypeString := fun _ => "unknown"
    html := sampleHtmlLib
    xml := sampleXmlLib
    json := sampleJsonLib }

/-! ## Definitions for the claims on booleans and regular expressions -/

/-- The strings on which `strconv.ParseBool` returns `true`. -/
def boolTrueTokens : List String := ["1", "t", "T", "true", "TRUE", "True"]

/-- The strings on which `strconv.ParseBool` returns `false`. -/
def boolFalseTokens : List String := ["0", "f", "F", "false", "FALSE", "False"]

/-- Follows the words of the spec: the "canonical boolean tokens (true/false
case-insensitive, 1/0)" and the boolean each stands for. -/
def canonicalBoolToken (s : String) : Option Bool :=
  if s = "1" ∨ s.toList.map Char.toLower = "true".toList then some true
  else if s = "0" ∨ s.toList.map Char.toLower = "false".toList then some false
  else none

/-- An extractor whose field `ExtractStrFn` holds a function that returns the string `s`
and no error. -/
def stringReceiver (s : String) : Receiver BaseExtractor :=
  { base := fun x => x
    ExtractStrFn := fun x => .ret ((s, none), x) }

/-- A `BaseExtractor` with the given target type and empty fields otherwise. -/
def sampleBase (t : VarType) : BaseExtractor :=
  { Name := "", VarType := t, Document := "", DocType := .TEXT, XPath := "" }

/-- `regexp.Compile` on further sample patterns: `\d+`, which has no capturing group and
whose first match in `status=42 code=7` is `42`; the other patterns are those of
`sampleCompile`, so `(` is invalid. -/
def sampleCompilePlain (pattern : String) : Option Regexp :=
  if pattern = "\\d+" then
    some { SubexpNames := [""]
           FindStringSubmatch := fun doc =>
             if doc = "status=42 code=7" then some ["42"] else none }
  else sampleCompile pattern

/-- The sample environment with the patterns of `sampleCompilePlain`. -/
def sampleEnvPlain : Env := { sampleEnv with regexpCompile := sampleCompilePlain }

/-- The target types that `Extract` knows. -/
def knownVarTypes : List VarType :=
  [.String, .Int, .Float, .Bool, .Time, .Duration, .LengthVariable]

/-! ## Definitions for the claims on composite nodes and on the XML list extraction -/

/-- Follows the words of the claim: a composite element node of an HTML tree, "one that has
an element child or two or more children". -/
def htmlComposite (n : HRef) : Bool :=
  decide ((n.heap.node n.addr).NodeType = .ElementNode) &&
  (((n.heap.children n.addr).any fun c => decide ((n.heap.node c).NodeType = .ElementNode)) ||
    decide (2 ≤ (n.heap.children n.addr).length))

/-- Follows the words of the claim: a composite element node of an XML tree, "one that has
an element child or two or more children". -/
def xmlComposite (n : XNode) : Bool :=
  decide (n.NodeType = .ElementNode) &&
  ((n.children.any fun c => decide (c.NodeType = .ElementNode)) ||
    decide (2 ≤ n.children.length))

/-- The steps of an absolute path `/a/b/...`, given as the characters after the first
slash: the names between the slashes. -/
def pathSteps : List Char → List Char → List String
  | [], acc => [String.mk acc.reverse]
  | c :: rest, acc =>
    if c = Char.ofNat 47 then String.mk acc.reverse :: pathSteps rest [] else pathSteps rest (c :: acc)

/-- The first element with the given name among the listed nodes. -/
def firstNamed (name : String) : List XNode → Option XNode
  | [] => none
  | c :: rest =>
    if c.NodeType = .ElementNode ∧ c.Data = name then some c else firstNamed name rest

/-- The first node reached from `n` by descending through child elements with the given
names, one per step, taking the first such child at every step. -/
def selectSteps : XNode → List String → Option XNode
  | n, [] => some n
  | n, name :: rest =>
    match firstNamed name n.children with
    | none => none
    | some c => selectSteps c rest

/-- The first node that an absolute path `/a/b/...` selects below the document node, on
the sample trees, in which no element has two children of the same name with children
that differ in the names of the path. -/
def samplePathSelect (root : XNode) (xpath : String) : Option XNode :=
  match xpath.toList with
  | c :: rest => if c = Char.ofNat 47 then selectSteps root (pathSteps rest []) else none
  | [] => none

/-- The tree of `<a><b><c>1</c><c>2</c></b></a>`. -/
def sampleNestedXml : XNode :=
  .mk .DocumentNode ""
    [.mk .ElementNode "a"
      [.mk .ElementNode "b"
        [.mk .ElementNode "c" [.mk .TextNode "1" []],
         .mk .ElementNode "c" [.mk .TextNode "2" []]]]]

/-- The tree of `<b><c>1</c><c>2</c></b>`. -/
def sampleInnerXml : XNode :=
  .mk .DocumentNode ""
    [.mk .ElementNode "b"
      [.mk .ElementNode "c" [.mk .TextNode "1" []],
       .mk .ElementNode "c" [.mk .TextNode "2" []]]]

/-- A second sample XML library: `xmlquery.Parse` on `<a><b><c>1</c><c>2</c></b></a>` and
on `<b><c>1</c><c>2</c></b>` (any other document is reported as malformed), and absolute
paths for `xmlquery.Query` and `SelectElement`. -/
def samplePathXmlLib : XmlLib :=
  { parse := fun document =>
      if document = "<a><b><c>1</c><c>2</c></b></a>" then (some sampleNestedXml, none)
      else if document = "<b><c>1</c><c>2</c></b>" then (some sampleInnerXml, none)
      else (none, some (.library "xml" "document not tabulated"))
    query := fun root xpath => (samplePathSelect root xpath, none)
    selectElement := fun root xpath => .ret (samplePathSelect root xpath)
    innerText := xmlInnerText
    outputXML := fun n self => if self then sampleOutputXML n else sampleOutputXMLList n.children }

/-- The sample environment with the XML library `samplePathXmlLib`. -/
def samplePathEnv : Env := { sampleEnv with xml := samplePathXmlLib }

/-! ## The parser of package `time` (`time/format.go`)

A model of `time.ParseInLocation` on character lists.  The tokenizer `nextStdChunk` is
modelled in full; of the layout elements, the day of the year is not modelled (no layout of
`timeFormats` has it), and a `Z` in the value is read as UTC for the elements `Z0700`,
`Z07:00` and `Z07` only.  Three parts are parameters (`TimeLib`): the recognizer of zone
abbreviations, the reader of fractional seconds, and the choice of the location for a
parsed zone, which depends on the zone database of the machine. -/

/-- The layout elements: the constants `std...` of `time/format.go`; the two elements for
fractional seconds carry the number of digits and the separator. -/
inductive Std where
  | LongMonth | Month | NumMonth | ZeroMonth | LongWeekDay | WeekDay | Day | UnderDay | ZeroDay
  | UnderYearDay | ZeroYearDay | Hour | Hour12 | ZeroHour12 | Minute | ZeroMinute | Second
  | ZeroSecond | LongYear | Year | PM | pm | TZ | ISO8601TZ | ISO8601SecondsTZ | ISO8601ShortTZ
  | ISO8601ColonTZ | ISO8601ColonSecondsTZ | NumTZ | NumSecondsTz | NumShortTZ | NumColonTZ
  | NumColonSecondsTZ
  | FracSecond0 (digits : Nat) (sep : Char)
  | FracSecond9 (digits : Nat) (sep : Char)
deriving DecidableEq, Repr

/-- Whether the list `l` starts with the characters `p`. -/
def startsWith : List Char → List Char → Bool
  | [], _ => true
  | _ :: _, [] => false
  | p :: ps, c :: cs => p = c && startsWith ps cs

/-- The function `startsWithLowerCase` of `time/format.go`. -/
def startsWithLowerCase : List Char → Bool
  | [] => false
  | c :: _ => 'a' ≤ c ∧ c ≤ 'z'

/-- The numeric zone elements that start with `-`, longest first, as `nextStdChunk` tries
them. -/
def numZoneElements : List (String × Std) :=
  [("-070000", .NumSecondsTz), ("-07:00:00", .NumColonSecondsTZ), ("-0700", .NumTZ),
   ("-07:00", .NumColonTZ), ("-07", .NumShortTZ)]

/-- The ISO 8601 zone elements that start with `Z`, as `nextStdChunk` tries them. -/
def isoZoneElements : List (String × Std) :=
  [("Z070000", .ISO8601SecondsTZ), ("Z07:00:00", .ISO8601ColonSecondsTZ),
   ("Z0700", .ISO8601TZ), ("Z07:00", .ISO8601ColonTZ), ("Z07", .ISO8601ShortTZ)]

/-- The first element of the table whose text starts the list `l`, with the rest of `l`. -/
def firstElement : List (String × Std) → List Char → Option (List Char × Std × List Char)
  | [], _ => none
  | (text, std) :: rest, l =>
    if startsWith text.toList l then some ([], std, l.drop text.length)
    else firstElement rest l

/-- The `switch` of `nextStdChunk` at one position: the layout element that starts at the
head of `l`, with the literal text that goes to the prefix (the underscore of `_2006`) and
the layout after the element. -/
def stdAt (l : List Char) : Option (List Char × Std × List Char) :=
  match l with
  | [] => none
  | c :: rest =>
    if c = 'J' then
      if startsWith "January".toList l then some ([], .LongMonth, l.drop 7)
      else if startsWith "Jan".toList l ∧ ¬ startsWithLowerCase (l.drop 3) then
        some ([], .Month, l.drop 3)
      else none
    else if c = 'M' then
      if startsWith "Monday".toList l then some ([], .LongWeekDay, l.drop 6)
      else if startsWith "Mon".toList l ∧ ¬ startsWithLowerCase (l.drop 3) then
        some ([], .WeekDay, l.drop 3)
      else if startsWith "MST".toList l then some ([], .TZ, l.drop 3)
      else none
    else if c = '0' then
      match rest with
      | '1' :: r => some ([], .ZeroMonth, r)
      | '2' :: r => some ([], .ZeroDay, r)
      | '3' :: r => some ([], .ZeroHour12, r)
      | '4' :: r => some ([], .ZeroMinute, r)
      | '5' :: r => some ([], .ZeroSecond, r)
      | '6' :: r => some ([], .Year, r)
      | '0' :: '2' :: r => some ([], .ZeroYearDay, r)
      | _ => none
    else if c = '1' then
      match rest with
      | '5' :: r => some ([], .Hour, r)
      | _ => some ([], .NumMonth, rest)
    else if c = '2' then
      if startsWith "2006".toList l then some ([], .LongYear, l.drop 4)
      else some ([], .Day, rest)
    else if c = '_' then
      match rest with
      | '2' :: r =>
        if startsWith "2006".toList rest then some (['_'], .LongYear, rest.drop 4)
        else some ([], .UnderDay, r)
      | '_' :: '2' :: r => some ([], .UnderYearDay, r)
      | _ => none
    else if c = '3' then some ([], .Hour12, rest)
    else if c = '4' then some ([], .Minute, rest)
    else if c = '5' then some ([], .Second, rest)
    else if c = 'P' then
      match rest with
      | 'M' :: r => some ([], .PM, r)
      | _ => none
    else if c = 'p' then
      match rest with
      | 'm' :: r => some ([], .pm, r)
      | _ => none
    else if c = '-' then firstElement numZoneElements l
    else if c = 'Z' then firstElement isoZoneElements l
    else if c = '.' ∨ c = ',' then
      match rest with
      | d :: _ =>
        if d = '0' ∨ d = '9' then
          let after := rest.dropWhile (fun e => e = d)
          let count := (rest.takeWhile (fun e => e = d)).length
          if (match after with | e :: _ => e.isDigit | [] => false) then none
          else if d = '9' then some ([], .FracSecond9 count c, after)
          else some ([], .FracSecond0 count c, after)
        else none
      | [] => none
    else none

/-- The function `nextStdChunk`: the literal text before the first layout element, that
element (`none` when the layout has no further element) and the layout after it. -/
def nextStdChunk : List Char → List Char × Option Std × List Char
  | [] => ([], none, [])
  | c :: rest =>
    match stdAt (c :: rest) with
    | some (lit, std, suffix) => (lit, some std, suffix)
    | none =>
      match nextStdChunk rest with
      | (lit, std, suffix) => (c :: lit, std, suffix)

/-- The chunks that the loop of `parse` takes off the layout, one `nextStdChunk` per
iteration: the pairs of literal text and layout element, and the literal text after the last
element.  The first argument bounds the number of iterations by the length of the layout. -/
def layoutChunks : Nat → List Char → List (List Char × Std) × List Char
  | 0, l => ([], l)
  | f + 1, l =>
    match nextStdChunk l with
    | (lit, none, _) => ([], lit)
    | (lit, some std, suffix) =>
      match layoutChunks f suffix with
      | (chunks, last) => ((lit, std) :: chunks, last)

/-- How reading one element of the value ends: with a result, with `errBad`, with a range
error, or on a layout element that is not modelled. -/
inductive Parsed (α : Type) where
  | ok (a : α)
  | bad
  | outOfRange (what : String)
  | unsupported
deriving DecidableEq, Repr

/-- The function `cutspace`: the list without its leading spaces. -/
def cutspace (l : List Char) : List Char := l.dropWhile (fun c => c = Char.ofNat 32)

/-- The function `skip`, with a bound on its iterations: the value after the literal text
`lit`, `none` when the value does not start with it.  A run of spaces in the layout
matches any run of spaces in the value, an empty one at the end of the value included. -/
def skipGo : Nat → List Char → List Char → Option (List Char)
  | _, value, [] => some value
  | 0, _, _ :: _ => none
  | f + 1, value, p :: ps =>
    if p = Char.ofNat 32 then
      match value with
      | v :: _ => if v ≠ Char.ofNat 32 then none else skipGo f (cutspace value) (cutspace (p :: ps))
      | [] => skipGo f (cutspace value) (cutspace (p :: ps))
    else
      match value with
      | v :: vs => if v ≠ p then none else skipGo f vs ps
      | [] => none

/-- The function `skip`. -/
def skip (value lit : List Char) : Option (List Char) := skipGo (lit.length + 1) value lit

/-- The value of a decimal digit. -/
def digitValue (c : Char) : Nat := c.toNat - 48

/-- The function `getnum`: a number of one or two digits (of exactly two when `fixed`) at
the head of the value, and the value after it. -/
def getnum (s : List Char) (fixed : Bool) : Option (Nat × List Char) :=
  match s with
  | [] => none
  | [c] => if c.isDigit then (if fixed then none else some (digitValue c, [])) else none
  | c :: d :: rest =>
    if c.isDigit then
      if d.isDigit then some (digitValue c * 10 + digitValue d, rest)
      else if fixed then none else some (digitValue c, d :: rest)
    else none

/-- The digits of `leadingInt`, read into the value `acc`: `none` when a character is not a
digit. -/
def digitsOnly : List Char → Nat → Option Nat
  | [], acc => some acc
  | c :: rest, acc => if c.isDigit then digitsOnly rest (acc * 10 + digitValue c) else none

/-- The function `atoi` of `time/format.go` on the short strings it is given here: an
optional sign, then digits only (possibly none). -/
def timeAtoi (s : List Char) : Option Int :=
  match s with
  | c :: rest =>
    if c = '-' then (digitsOnly rest 0).map fun n => -(n : Int)
    else if c = '+' then (digitsOnly rest 0).map fun n => (n : Int)
    else (digitsOnly s 0).map fun n => (n : Int)
  | [] => some 0

/-- Comparison of two characters in the function `match`: equal, or equal letters after
both are switched to lower case. -/
def foldEq (c1 c2 : Char) : Bool :=
  c1 = c2 ||
  (decide ((c1.toNat ||| 32) = (c2.toNat ||| 32)) &&
   decide (97 ≤ (c1.toNat ||| 32)) && decide ((c1.toNat ||| 32) ≤ 122))

/-- The test `len(val) >= len(v) && match(val[0:len(v)], v)` of `lookup`: the value after
the name `v`, `none` when the value does not start with it (ignoring case). -/
def matchName : List Char → List Char → Option (List Char)
  | [], val => some val
  | _ :: _, [] => none
  | n :: ns, c :: cs => if foldEq c n then matchName ns cs else none

/-- The function `lookup`, from the index `i` on: the index of the first name of the table
that starts the value, and the value after it. -/
def lookup : List String → Nat → List Char → Option (Nat × List Char)
  | [], _, _ => none
  | v :: tab, i, val =>
    match matchName v.toList val with
    | some rest => some (i, rest)
    | none => lookup tab (i + 1) val

/-- The table `shortDayNames`. -/
def shortDayNames : List String := ["Sun", "Mon", "Tue", "Wed", "Thu", "Fri", "Sat"]

/-- The table `longDayNames`. -/
def longDayNames : List String :=
  ["Sunday", "Monday", "Tuesday", "Wednesday", "Thursday", "Friday", "Saturday"]

/-- The table `shortMonthNames`. -/
def shortMonthNames : List String :=
  ["Jan", "Feb", "Mar", "Apr", "May", "Jun", "Jul", "Aug", "Sep", "Oct", "Nov", "Dec"]

/-- The table `longMonthNames`. -/
def longMonthNames : List String :=
  ["January", "February", "March", "April", "May", "June", "July", "August", "September",
   "October", "November", "December"]

/-- The function `isLeap`. -/
def isLeap (year : Int) : Bool := year % 4 = 0 && (year % 100 ≠ 0 || year % 400 = 0)

/-- The function `daysIn`. -/
def daysIn (month : Nat) (year : Int) : Nat :=
  if month = 2 then (if isLeap year then 29 else 28)
  else if month = 4 ∨ month = 6 ∨ month = 9 ∨ month = 11 then 30
  else 31

/-- The parts of `time.ParseInLocation` that are parameters of the model. -/
structure TimeLib where
  /-- The function `parseTimeZone`: the length of the zone abbreviation at the head of the
  value, `none` when there is none. -/
  parseTimeZone : List Char → Option Nat
  /-- The function `parseNanoseconds(value, nbytes)`. -/
  parseNanoseconds : List Char → Nat → Parsed Nat
  /-- The end of `parse` for a value with a numeric zone offset or a zone abbreviation:
  from the location passed to `ParseInLocation`, the zone name, the zone offset (`-1` when
  the value has none) and the time read as UTC, the time in the location that the zone
  database yields. -/
  resolveZone : Location → String → Int → Time → Time
  /-- The function `time.Date(year, month, day, hour, min, sec, nsec, loc)` on a day of the
  calendar and a time of the day: the wall clock reading in the location `loc`, which the
  zone database shifts when that reading does not exist there (a change of clocks that
  skips it). -/
  date : Int → Nat → Nat → Nat → Nat → Nat → Nat → Location → Time

/-- The variables of `parse` that hold the time being constructed; `month`, `day` and
`zoneOffset` start at `-1`. -/
structure ParseState where
  year : Int
  month : Int
  day : Int
  hour : Nat
  min : Nat
  sec : Nat
  nsec : Nat
  amSet : Bool
  pmSet : Bool
  utc : Bool
  zoneOffset : Int
  zoneName : String
deriving DecidableEq, Repr

/-- The initial values of the variables of `parse`. -/
def ParseState.init : ParseState :=
  ⟨0, -1, -1, 0, 0, 0, 0, false, false, false, -1, ""⟩

/-- The case of the numeric zone elements in `parse`, after the test for `Z`: the sign and
the two-digit fields for hours, minutes and seconds, cut out of the value as the element
`std` prescribes, and the value after them. -/
def zoneFields (std : Std) (value : List Char) :
    Option (Char × List Char × List Char × List Char × List Char) :=
  match std, value with
  | .ISO8601ColonTZ, s :: h1 :: h2 :: c :: m1 :: m2 :: rest
  | .NumColonTZ, s :: h1 :: h2 :: c :: m1 :: m2 :: rest =>
    if c ≠ ':' then none else some (s, [h1, h2], [m1, m2], ['0', '0'], rest)
  | .NumShortTZ, s :: h1 :: h2 :: rest
  | .ISO8601ShortTZ, s :: h1 :: h2 :: rest => some (s, [h1, h2], ['0', '0'], ['0', '0'], rest)
  | .ISO8601ColonSecondsTZ, s :: h1 :: h2 :: c :: m1 :: m2 :: d :: s1 :: s2 :: rest
  | .NumColonSecondsTZ, s :: h1 :: h2 :: c :: m1 :: m2 :: d :: s1 :: s2 :: rest =>
    if c ≠ ':' ∨ d ≠ ':' then none else some (s, [h1, h2], [m1, m2], [s1, s2], rest)
  | .ISO8601SecondsTZ, s :: h1 :: h2 :: m1 :: m2 :: s1 :: s2 :: rest
  | .NumSecondsTz, s :: h1 :: h2 :: m1 :: m2 :: s1 :: s2 :: rest =>
    some (s, [h1, h2], [m1, m2], [s1, s2], rest)
  | .ISO8601TZ, s :: h1 :: h2 :: m1 :: m2 :: rest
  | .NumTZ, s :: h1 :: h2 :: m1 :: m2 :: rest => some (s, [h1, h2], [m1, m2], ['0', '0'], rest)
  | _, _ => none

/-- The range test on the fields of a numeric zone offset, `hr > 24`, `mm > 60` and
`ss > 60`, each of which overwrites `rangeErrString`: the text of the last test that
fails. -/
def zoneRangeError (hr mm ss : Nat) : Option String :=
  if 60 < ss then some "time zone offset second"
  else if 60 < mm then some "time zone offset minute"
  else if 24 < hr then some "time zone offset hour"
  else none

/-- The numeric zone elements in `parse`.  A field that `getnum` does not read is left at 0
and the fields after it are not read; a range error is reported before any other error. -/
def parseZone (std : Std) (st : ParseState) (value : List Char) :
    Parsed (ParseState × List Char) :=
  if (std = .ISO8601TZ ∨ std = .ISO8601ShortTZ ∨ std = .ISO8601ColonTZ) ∧
      value.head? = some 'Z' then
    .ok ({ st with utc := true }, value.tail)
  else
    match zoneFields std value with
    | none => .bad
    | some (sign, hour, min, seconds, rest) =>
      match getnum hour true with
      | none => .bad
      | some (hr, _) =>
        match getnum min true with
        | none =>
          match zoneRangeError hr 0 0 with
          | some what => .outOfRange what
          | none => .bad
        | some (mm, _) =>
          match getnum seconds true with
          | none =>
            match zoneRangeError hr mm 0 with
            | some what => .outOfRange what
            | none => .bad
          | some (ss, _) =>
            match zoneRangeError hr mm ss with
            | some what => .outOfRange what
            | none =>
              if sign = '+' then
                .ok ({ st with zoneOffset := (((hr * 60 + mm) * 60 + ss : Nat) : Int) }, rest)
              else if sign = '-' then
                .ok ({ st with zoneOffset := -(((hr * 60 + mm) * 60 + ss : Nat) : Int) }, rest)
              else .bad

/-- One case of the `switch std & stdMask` of `parse`, with the checks that follow the
switch: the variables and the value after the element `std` is read; `next` is the layout
element that comes after `std`, which the case of the seconds looks at. -/
def parseStd (L : TimeLib) (std : Std) (next : Option Std) (st : ParseState)
    (value : List Char) : Parsed (ParseState × List Char) :=
  match std with
  | .Year =>
    match value with
    | a :: b :: rest =>
      match timeAtoi [a, b] with
      | some y => .ok ({ st with year := if 69 ≤ y then y + 1900 else y + 2000 }, rest)
      | none => .bad
    | _ => .bad
  | .LongYear =>
    match value with
    | a :: b :: c :: d :: rest =>
      if ¬ a.isDigit then .bad
      else match timeAtoi [a, b, c, d] with
        | some y => .ok ({ st with year := y }, rest)
        | none => .bad
    | _ => .bad
  | .Month =>
    match lookup shortMonthNames 0 value with
    | some (i, rest) => .ok ({ st with month := (i : Int) + 1 }, rest)
    | none => .bad
  | .LongMonth =>
    match lookup longMonthNames 0 value with
    | some (i, rest) => .ok ({ st with month := (i : Int) + 1 }, rest)
    | none => .bad
  | .NumMonth | .ZeroMonth =>
    match getnum value (std = .ZeroMonth) with
    | some (m, rest) =>
      if m = 0 ∨ 12 < m then .outOfRange "month" else .ok ({ st with month := (m : Int) }, rest)
    | none => .bad
  | .WeekDay =>
    match lookup shortDayNames 0 value with
    | some (_, rest) => .ok (st, rest)
    | none => .bad
  | .LongWeekDay =>
    match lookup longDayNames 0 value with
    | some (_, rest) => .ok (st, rest)
    | none => .bad
  | .Day | .UnderDay | .ZeroDay =>
    let value1 :=
      match value with
      | c :: rest => if std = .UnderDay ∧ c = Char.ofNat 32 then rest else value
      | [] => value
    match getnum value1 (std = .ZeroDay) with
    | some (d, rest) => .ok ({ st with day := (d : Int) }, rest)
    | none => .bad
  | .UnderYearDay | .ZeroYearDay => .unsupported
  | .Hour =>
    match getnum value false with
    | some (h, rest) => if 24 ≤ h then .outOfRange "hour" else .ok ({ st with hour := h }, rest)
    | none => .bad
  | .Hour12 | .ZeroHour12 =>
    match getnum value (std = .ZeroHour12) with
    | some (h, rest) => if 12 < h then .outOfRange "hour" else .ok ({ st with hour := h }, rest)
    | none => .bad
  | .Minute | .ZeroMinute =>
    match getnum value (std = .ZeroMinute) with
    | some (m, rest) => if 60 ≤ m then .outOfRange "minute" else .ok ({ st with min := m }, rest)
    | none => .bad
  | .Second | .ZeroSecond =>
    match getnum value (std = .ZeroSecond) with
    | none => .bad
    | some (s, rest) =>
      if 60 ≤ s then .outOfRange "second"
      else
        match rest with
        | p :: d :: _ =>
          if (p = '.' ∨ p = ',') ∧ d.isDigit then
            match next with
            | some (.FracSecond0 _ _) | some (.FracSecond9 _ _) => .ok ({ st with sec := s }, rest)
            | _ =>
              let n := 2 + ((rest.drop 2).takeWhile Char.isDigit).length
              match L.parseNanoseconds rest n with
              | .ok ns => .ok ({ st with sec := s, nsec := ns }, rest.drop n)
              | .bad => .bad
              | .outOfRange what => .outOfRange what
              | .unsupported => .unsupported
          else .ok ({ st with sec := s }, rest)
        | _ => .ok ({ st with sec := s }, rest)
  | .PM =>
    match value with
    | a :: b :: rest =>
      if [a, b] = ['P', 'M'] then .ok ({ st with pmSet := true }, rest)
      else if [a, b] = ['A', 'M'] then .ok ({ st with amSet := true }, rest)
      else .bad
    | _ => .bad
  | .pm =>
    match value with
    | a :: b :: rest =>
      if [a, b] = ['p', 'm'] then .ok ({ st with pmSet := true }, rest)
      else if [a, b] = ['a', 'm'] then .ok ({ st with amSet := true }, rest)
      else .bad
    | _ => .bad
  | .ISO8601TZ | .ISO8601ColonTZ | .ISO8601SecondsTZ | .ISO8601ShortTZ
  | .ISO8601ColonSecondsTZ | .NumTZ | .NumShortTZ | .NumColonTZ | .NumSecondsTz
  | .NumColonSecondsTZ => parseZone std st value
  | .TZ =>
    if startsWith "UTC".toList value then .ok ({ st with utc := true }, value.drop 3)
    else
      match L.parseTimeZone value with
      | none => .bad
      | some n => .ok ({ st with zoneName := String.mk (value.take n) }, value.drop n)
  | .FracSecond0 digits _ =>
    if value.length < 1 + digits then .bad
    else
      match L.parseNanoseconds value (1 + digits) with
      | .ok ns => .ok ({ st with nsec := ns }, value.drop (1 + digits))
      | .bad => .bad
      | .outOfRange what => .outOfRange what
      | .unsupported => .unsupported
  | .FracSecond9 _ _ =>
    match value with
    | p :: d :: _ =>
      if (p = '.' ∨ p = ',') ∧ d.isDigit then
        let i := ((value.drop 1).takeWhile Char.isDigit).length
        match L.parseNanoseconds value (1 + i) with
        | .ok ns => .ok ({ st with nsec := ns }, value.drop (1 + i))
        | .bad => .bad
        | .outOfRange what => .outOfRange what
        | .unsupported => .unsupported
      else .ok (st, value)
    | _ => .ok (st, value)

/-- The loop of `parse` over the chunks of the layout: before each element the literal
text is skipped, then the element is read. -/
def parseChunks (L : TimeLib) : List (List Char × Std) → ParseState → List Char →
    Parsed (ParseState × List Char)
  | [], st, value => .ok (st, value)
  | (lit, std) :: rest, st, value =>
    match skip value lit with
    | none => .bad
    | some value1 =>
      match parseStd L std (rest.head?.map Prod.snd) st value1 with
      | .ok (st1, value2) => parseChunks L rest st1 value2
      | .bad => .bad
      | .outOfRange what => .outOfRange what
      | .unsupported => .unsupported

/-- The end of `parse`, after the loop: the hour of a twelve-hour clock is adjusted, the
month and the day default to January 1, the day is checked against the month, and the
time is built in the zone that the value names, or else by `time.Date` in the location
`loc`.  In UTC every wall clock reading exists, so that `time.Date` leaves it as it is. -/
def parseFinish (L : TimeLib) (loc : Location) (st : ParseState) : Parsed Time :=
  let hour := if st.pmSet ∧ st.hour < 12 then st.hour + 12
              else if st.amSet ∧ st.hour = 12 then 0 else st.hour
  let month := if st.month < 0 then 1 else st.month.toNat
  let day := if st.day < 0 then 1 else st.day.toNat
  if day < 1 ∨ daysIn month st.year < day then .outOfRange "day"
  else if st.utc then .ok ⟨st.year, month, day, hour, st.min, st.sec, st.nsec, .UTC⟩
  else if st.zoneOffset ≠ -1 ∨ st.zoneName ≠ "" then
    .ok (L.resolveZone loc st.zoneName st.zoneOffset
      ⟨st.year, month, day, hour, st.min, st.sec, st.nsec, .UTC⟩)
  else .ok (L.date st.year month day hour st.min st.sec st.nsec loc)

/-- The function `parse` of `time/format.go`. -/
def timeParse (L : TimeLib) (layout value : List Char) (loc : Location) : Parsed Time :=
  match layoutChunks (layout.length + 1) layout with
  | (chunks, last) =>
    match parseChunks L chunks ParseState.init value with
    | .ok (st, value1) =>
      match skip value1 last with
      | none => .bad
      | some [] => parseFinish L loc st
      | some (_ :: _) => .bad
    | .bad => .bad
    | .outOfRange what => .outOfRange what
    | .unsupported => .unsupported

/-- `time.ParseInLocation(layout, value, loc)`: a failed parse is reported as a
`*time.ParseError`. -/
def goParseInLocation (L : TimeLib) (layout value : String) (loc : Location) :
    Time × Option GoError :=
  match timeParse L layout.toList value.toList loc with
  | .ok t => (t, none)
  | .bad => (Time.zero, some (.library "time" ("parsing time " ++ value ++ " as " ++ layout)))
  | .outOfRange what =>
    (Time.zero, some (.library "time" ("parsing time " ++ value ++ ": " ++ what ++ " out of range")))
  | .unsupported => (Time.zero, some (.library "time" "layout element not modelled"))

/-- The character of a decimal digit. -/
def digitChar (a : Nat) : Char := Char.ofNat (48 + a)

/-- The date-only string `YYYY-MM-DD` of a year, a month and a day. -/
def dateOnly (y m d : Nat) : String :=
  String.mk [digitChar (y / 1000 % 10), digitChar (y / 100 % 10), digitChar (y / 10 % 10),
    digitChar (y % 10), '-', digitChar (m / 10 % 10), digitChar (m % 10), '-',
    digitChar (d / 10 % 10), digitChar (d % 10)]

/-- A sample of the parameters of the time parser: a zone abbreviation of three capital
letters that no capital letter follows is recognized (other abbreviations are not
tabulated), no fractional second is read, a parsed zone is kept as a fixed zone (the
zone database matches nothing), and the clocks of the local zone never change, so that
`time.Date` returns every wall clock reading as it is. -/
def sampleTimeLib : TimeLib :=
  { parseTimeZone := fun value =>
      match value with
      | a :: b :: c :: rest =>
        if a.isUpper && b.isUpper && c.isUpper &&
            (match rest with | d :: _ => !d.isUpper | [] => true) then some 3
        else none
      | _ => none
    parseNanoseconds := fun _ _ => .bad
    resolveZone := fun _ name offset t =>
      { t with loc := .fixed name (if offset = -1 then 0 else offset) }
    date := fun year month day hour min sec nsec loc =>
      ⟨year, month, day, hour, min, sec, nsec, loc⟩ }

/-- The sample parameters with the local zone `America/Havana`, in which the clocks went
from 00:00 to 01:00 on 10 March 2024: for a wall clock reading of that skipped hour in the
local zone `time.Date` returns the reading one hour earlier, of 9 March 2024 from 23:00
on; every other reading of the table is returned as it is. -/
def sampleHavanaLib : TimeLib :=
  { sampleTimeLib with
    date := fun year month day hour min sec nsec loc =>
      if loc = .Local ∧ year = 2024 ∧ month = 3 ∧ day = 10 ∧ hour = 0 then
        ⟨2024, 3, 9, 23, min, sec, nsec, loc⟩
      else ⟨year, month, day, hour, min, sec, nsec, loc⟩ }

/-- The sample environment with the modelled `time.ParseInLocation`. -/
def sampleTimeEnv : Env :=
  { sampleEnv with ParseInLocation := goParseInLocation sampleTimeLib }

/-- The layouts `RFC822`, `RFC822Z`, `RFC850`, `RFC1123` and `RFC1123Z` of package `time`. -/
def rfcLayouts : List String :=
  ["02 Jan 06 15:04 MST", "02 Jan 06 15:04 -0700", "Monday, 02-Jan-06 15:04:05 MST",
   "Mon, 02 Jan 2006 15:04:05 MST", "Mon, 02 Jan 2006 15:04:05 -0700"]

/-! ## Definitions for the claims on `Query`, unknown target types and repeated calls -/

/-- An extractor whose field `ExtractStrFn` holds a function that panics when it runs. -/
def panickingReceiver : Receiver BaseExtractor :=
  { base := fun x => x
    ExtractStrFn := fun _ => .panic .nilDereference }

/-- A query function that never returns. -/
def hangingQuery (T : Type) : Option T → String → Run (Option T × Option GoError) :=
  fun _ _ => .hang

/-- An inner function that never returns. -/
def hangingInner (T : Type) : T → Run String := fun _ => .hang

/-! ## Definitions for the claim on the `PrevSibling` links of the synthetic root -/

/-- The entry before `a` in a list without repetitions, `none` for the first entry and for
a value that is not in the list: the `PrevSibling` of a well-formed sibling list. -/
def predIn : List Nat → Nat → Option Nat
  | x :: y :: rest, a => if a = y then some x else predIn (y :: rest) a
  | _, _ => none

/-- A tree with three list items, as `html.Parse` builds it for
`<ul><li>a</li><li>b</li><li>c</li></ul>`: document 0, html 1, head 2, body 3, ul 4, li 5,
text 6, li 7, text 8, li 9, text 10. -/
def sampleThreeDoc : HHeap :=
  HHeap.ofList
    [ ⟨none, some 1, some 1, none, none, .DocumentNode, "", "", []⟩,
      .element "html" (some 0) (some 2) (some 3) none none,
      .element "head" (some 1) none none none (some 3),
      .element "body" (some 1) (some 4) (some 4) (some 2) none,
      .element "ul" (some 3) (some 5) (some 9) none none,
      .element "li" (some 4) (some 6) (some 6) none (some 7),
      .text "a" (some 5) none none,
      .element "li" (some 4) (some 8) (some 8) (some 5) (some 9),
      .text "b" (some 7) none none,
      .element "li" (some 4) (some 10) (some 10) (some 7) none,
      .text "c" (some 9) none none ]

/-! ## The package `metric` (`metric/prometheus.go`)

The functions of this package read a Go string byte by byte (`name[i]`, `len(name)`), so
a string is modelled here as the list of its bytes.  The locks and the log calls are
left out. -/

/-- The bytes of a string of ASCII characters. -/
def asciiBytes (s : String) : List Nat := s.toList.map Char.toNat

/-- The character class `[a-zA-Z_:]` of `validMetric`, on a byte. -/
def metricFirstChar (ch : Nat) : Bool :=
  (97 ≤ ch && ch ≤ 122) || (65 ≤ ch && ch ≤ 90) || ch = 95 || ch = 58

/-- The character class `[a-zA-Z0-9_:]` of `validMetric`, on a byte. -/
def metricRestChar (ch : Nat) : Bool :=
  (97 ≤ ch && ch ≤ 122) || (65 ≤ ch && ch ≤ 90) || (48 ≤ ch && ch ≤ 57) || ch = 95 || ch = 58

/-- The character class `[a-zA-Z_]` of `validLabel`, on a byte. -/
def labelFirstChar (ch : Nat) : Bool :=
  (97 ≤ ch && ch ≤ 122) || (65 ≤ ch && ch ≤ 90) || ch = 95

/-- The character class `[a-zA-Z0-9_]` of `validLabel`, on a byte. -/
def labelRestChar (ch : Nat) : Bool :=
  (97 ≤ ch && ch ≤ 122) || (65 ≤ ch && ch ≤ 90) || (48 ≤ ch && ch ≤ 57) || ch = 95

/-- `validMetric.MatchString`, for the expression `^[a-zA-Z_:][a-zA-Z0-9_:]*$`: the classes
hold ASCII characters only, so the string matches when it is not empty, its first byte is
in the first class and every later byte is in the second. -/
def validMetricMatchString : List Nat → Bool
  | [] => false
  | ch :: rest => metricFirstChar ch && rest.all metricRestChar

/-- `validLabel.MatchString`, for the expression `^[a-zA-Z_][a-zA-Z0-9_]*$`. -/
def validLabelMatchString : List Nat → Bool
  | [] => false
  | ch :: rest => labelFirstChar ch && rest.all labelRestChar

/-- `ValidMetricName`. -/
def ValidMetricName (name : List Nat) : Bool := validMetricMatchString name

/-- `ValidLabelName`. -/
def ValidLabelName (label : List Nat) : Bool := validLabelMatchString label

/-- `ValidMetricChar`: the bytes `a`-`z`, `A`-`Z`, `0`-`9`, `_` and `:`. -/
def ValidMetricChar (ch : Nat) : Bool :=
  (97 ≤ ch && ch ≤ 122) || (65 ≤ ch && ch ≤ 90) || (48 ≤ ch && ch ≤ 57) || ch = 95 || ch = 58

/-- The first loop of `RemoveInvalidChars`, which skips the bytes that are not letters: the
bytes `name[i:]` for the index `i` at which the loop ends. -/
def skipNonAlphabetic : List Nat → List Nat
  | [] => []
  | ch :: rest =>
    if (97 ≤ ch && ch ≤ 122) || (65 ≤ ch && ch ≤ 90) then ch :: rest else skipNonAlphabetic rest

/-- The second loop of `RemoveInvalidChars`, over the bytes `name[i:]`, with `result`. -/
def removeLoop : List Nat → List Nat → List Nat
  | [], result => result
  | ch :: rest, result =>
    if ValidMetricChar ch then removeLoop rest (result ++ [ch]) else removeLoop rest result

/-- `RemoveInvalidChars`. -/
def RemoveInvalidChars (name : List Nat) : List Nat :=
  removeLoop (skipNonAlphabetic name) []

/-- The loop of `GetName`, with the variable `name`. -/
def getNameLoop : List (List Nat) → List Nat → List Nat
  | [], name => name
  | v :: rest, name =>
    if 0 < (RemoveInvalidChars v).length then
      getNameLoop rest (name ++ (RemoveInvalidChars v ++ [95]))
    else getNameLoop rest name

/-- `GetName`. -/
def GetName (fields : List (List Nat)) : List Nat :=
  let name := getNameLoop fields []
  if 0 < name.length ∧ name[name.length - 1]? = some 95 then name.take (name.length - 1)
  else name

/-- The errors that `getAndValid` builds with `fmt.Errorf`: `invalid metric name: %s`,
`invalid label name: %s`, `invalid const label name: %s` and `label '%s' is duplicated`. -/
inductive MetricError where
  | invalidMetricName (metricName : List Nat)
  | invalidLabelName (l : List Nat)
  | invalidConstLabelName (l : List Nat)
  | duplicatedLabel (l : List Nat)
deriving DecidableEq, Repr

/-- The loop `for _, l := range labels` of `getAndValid` that checks the label names. -/
def labelNamesLoop : List (List Nat) → Option MetricError
  | [] => none
  | l :: rest => if ValidLabelName l = false then some (.invalidLabelName l) else labelNamesLoop rest

/-- The loop `for l := range constLabels` of `getAndValid`; a `prometheus.Labels` map is the
list of its entries in the order in which `range` visits them. -/
def constLabelNamesLoop : List (List Nat × List Nat) → Option MetricError
  | [] => none
  | (l, _) :: rest =>
    if !ValidLabelName l then some (.invalidConstLabelName l) else constLabelNamesLoop rest

/-- The loop `for _, l := range labels` of `getAndValid` that looks for a label among the
keys of `constLabels`. -/
def duplicatedLoop (constLabels : List (List Nat × List Nat)) : List (List Nat) → Option MetricError
  | [] => none
  | l :: rest =>
    if (constLabels.lookup l).isSome then some (.duplicatedLabel l)
    else duplicatedLoop constLabels rest

/-- `getAndValid`. -/
def getAndValid (nspace subsystem name metric : List Nat) (labels : List (List Nat))
    (constLabels : List (List Nat × List Nat)) : List Nat × Option MetricError :=
  let metricName := GetName [nspace, subsystem, name, metric]
  if ValidMetricName metricName = false then ([], some (.invalidMetricName metricName))
  else
    match labelNamesLoop labels with
    | some err => ([], some err)
    | none =>
      match constLabelNamesLoop constLabels with
      | some err => ([], some err)
      | none =>
        match duplicatedLoop constLabels labels with
        | some err => ([], some err)
        | none => (metricName, none)

/-- `mergeLabels`: the labels, then the keys of `constLabels` as `range` visits them. -/
def mergeLabels (labels : List (List Nat)) (constLabels : List (List Nat × List Nat)) :
    List (List Nat) :=
  labels ++ constLabels.map Prod.fst

/-- The two kinds of collectors that the package creates. -/
inductive CollectorKind where
  | counter
  | gauge
deriving DecidableEq, Repr

/-- A `*prometheus.CounterVec` or `*prometheus.GaugeVec`: the address of the collector,
which tells two collectors apart, and the options and label names it was created with. -/
structure Collector where
  address : Nat
  kind : CollectorKind
  Name : List Nat
  Help : List Nat
  labelNames : List (List Nat)
deriving DecidableEq, Repr

/-- The package variables `counterMap` and `gaugeMap` (a map is the list of its entries,
the newest first), the collectors registered in the default registry of the Prometheus
client, and the next free address. -/
structure MetricState where
  counterMap : List (List Nat × Collector)
  gaugeMap : List (List Nat × Collector)
  registered : List Collector
  nextAddress : Nat
deriving DecidableEq, Repr

/-- The state of the package after initialization: the maps and the registry are empty. -/
def MetricState.init : MetricState := ⟨[], [], [], 0⟩

/-- The Prometheus client, as far as the package depends on it: whether `Register` accepts a
collector, given the collectors registered so far.  `prometheus.MustRegister` panics when
`Register` does not accept the collector. -/
structure PromLib where
  accepts : List Collector → Collector → Bool

/-- The map assignment `m[key] = v`. -/
def mapSet (m : List (List Nat × Collector)) (key : List Nat) (v : Collector) :
    List (List Nat × Collector) :=
  (key, v) :: m.filter (fun e => e.1 ≠ key)

/-- `Counter`: `counterMap[key]`, nil when there is no entry. -/
def Counter (st : MetricState) (key : List Nat) : Option Collector := st.counterMap.lookup key

/-- `Gauge`: `gaugeMap[key]`, nil when there is no entry. -/
def Gauge (st : MetricState) (key : List Nat) : Option Collector := st.gaugeMap.lookup key

/-- `NewCounter`: the outcome of the call (nil, a collector, or the panic of
`prometheus.MustRegister`) and the state of the package after it.  The entry of `counterMap`
that is registered and returned is the collector stored on the line before. -/
def NewCounter (P : PromLib) (st : MetricState) (nspace subsystem name metric help : List Nat)
    (labels : List (List Nat)) (constLabels : List (List Nat × List Nat)) :
    Run (Option Collector) × MetricState :=
  match getAndValid nspace subsystem name metric labels constLabels with
  | (_, some _) => (.ret none, st)
  | (metricName, none) =>
    match st.counterMap.lookup metricName with
    | some m => (.ret (some m), st)
    | none =>
      let m : Collector :=
        ⟨st.nextAddress, .counter, metricName, help, mergeLabels labels constLabels⟩
      let st1 := { st with counterMap := mapSet st.counterMap metricName m,
                           nextAddress := st.nextAddress + 1 }
      if P.accepts st1.registered m then
        (.ret (some m), { st1 with registered := st1.registered ++ [m] })
      else (.panic .mustRegister, st1)

/-- `NewGauge`: as `NewCounter`, on `gaugeMap`. -/
def NewGauge (P : PromLib) (st : MetricState) (nspace subsystem name metric help : List Nat)
    (labels : List (List Nat)) (constLabels : List (List Nat × List Nat)) :
    Run (Option Collector) × MetricState :=
  match getAndValid nspace subsystem name metric labels constLabels with
  | (_, some _) => (.ret none, st)
  | (metricName, none) =>
    match st.gaugeMap.lookup metricName with
    | some m => (.ret (some m), st)
    | none =>
      let m : Collector :=
        ⟨st.nextAddress, .gauge, metricName, help, mergeLabels labels constLabels⟩
      let st1 := { st with gaugeMap := mapSet st.gaugeMap metricName m,
                           nextAddress := st.nextAddress + 1 }
      if P.accepts st1.registered m then
        (.ret (some m), { st1 with registered := st1.registered ++ [m] })
      else (.panic .mustRegister, st1)

/-- The arguments of a call of `NewCounter` or `NewGauge`. -/
structure MetricArgs where
  nspace : List Nat
  subsystem : List Nat
  name : List Nat
  metric : List Nat
  help : List Nat
  labels : List (List Nat)
  constLabels : List (List Nat × List Nat)
deriving DecidableEq, Repr

/-- A call that changes the state of the package. -/
inductive MetricCall where
  | newCounter (a : MetricArgs)
  | newGauge (a : MetricArgs)
deriving DecidableEq, Repr

/-- The state of the package after a call (after a recovered panic, when the call
panics). -/
def MetricCall.run (P : PromLib) (st : MetricState) : MetricCall → MetricState
  | .newCounter a =>
    (NewCounter P st a.nspace a.subsystem a.name a.metric a.help a.labels a.constLabels).2
  | .newGauge a =>
    (NewGauge P st a.nspace a.subsystem a.name a.metric a.help a.labels a.constLabels).2

/-- The state of the package after a sequence of calls. -/
def runCalls (P : PromLib) (st : MetricState) (calls : List MetricCall) : MetricState :=
  calls.foldl (MetricCall.run P) st

/-- The letters `a`-`z` and `A`-`Z`, the test of the first loop of `RemoveInvalidChars`. -/
def isLetter (ch : Nat) : Bool := (97 ≤ ch && ch ≤ 122) || (65 ≤ ch && ch ≤ 90)

/-- The first check of `getAndValid` that the arguments violate, in the order metric name,
labels, const labels, duplicates; `none` when they pass every check. -/
def firstViolation (metricName : List Nat) (labels : List (List Nat))
    (constLabels : List (List Nat × List Nat)) : Option MetricError :=
  if ValidMetricName metricName = false then some (.invalidMetricName metricName)
  else
    match labels.find? (fun l => !ValidLabelName l) with
    | some l => some (.invalidLabelName l)
    | none =>
      match (constLabels.map Prod.fst).find? (fun l => !ValidLabelName l) with
      | some l => some (.invalidConstLabelName l)
      | none =>
        match labels.find? (fun l => decide (l ∈ constLabels.map Prod.fst)) with
        | some l => some (.duplicatedLabel l)
        | none => none

/-- A sample of the Prometheus client: `Register` rejects a collector whose label names
hold a name twice or a name that starts with `__`, and a collector whose name is the name
of a collector registered before (the collectors of this package have no constant labels,
so that two of them with one name describe the same metric); it accepts every other
collector. -/
def samplePromLib : PromLib :=
  { accepts := fun registered c =>
      c.labelNames.Nodup && c.labelNames.all (fun l => !(l.take 2 == [95, 95])) &&
      registered.all (fun r => r.Name ≠ c.Name) }

/-! ## The command `easeprobe` (`cmd/easeprobe/metric.go`) -/

/-- The settings that `runMetric` reads from `conf.Get()`; the package `conf` is not among
the sources, so the type of `Mode` is left open. -/
structure PrometheusSettings (M : Type) where
  Name : String
  Mode : M
  Addr : String
  PushInterval : String

/-- The struct `PrometheusPushSink` without its pusher and channel; `pushInterval` is in
nanoseconds. -/
structure PrometheusPushSink where
  nspace : String
  address : String
  pushInterval : Int
deriving DecidableEq, Repr

/-- `time.NewTicker(d)`: it panics when `d` is not positive. -/
def newTicker (d : Int) : Run Int :=
  if d ≤ 0 then .panic .nonPositiveInterval else .ret d

/-- The start of the goroutine of `flushMetrics`: `ticker := time.NewTicker(p.pushInterval)`. -/
def PrometheusPushSink.flushMetrics (p : PrometheusPushSink) : Run Int :=
  newTicker p.pushInterval

/-- `NewPrometheusPushSink`: the sink, and the outcome of the goroutine that it starts. -/
def NewPrometheusPushSink (nspace address : String) (pushInterval : Int) :
    PrometheusPushSink × Run Int :=
  let sink : PrometheusPushSink := ⟨nspace, address, pushInterval⟩
  (sink, sink.flushMetrics)

/-- `runMetric`: `none` when it returns without creating a sink.  `parseDuration` is
`time.ParseDuration`, in nanoseconds, and `modePush` is `conf.PrometheusModePush`. -/
def runMetric {M : Type} [DecidableEq M] (parseDuration : String → Int × Option GoError)
    (modePush : M) (c : PrometheusSettings M) : Option (PrometheusPushSink × Run Int) :=
  if c.Mode ≠ modePush then none
  else
    let interval := (parseDuration c.PushInterval).1
    let interval := if interval = 0 then 30 * 1000000000 else interval
    some (NewPrometheusPushSink c.Name c.Addr interval)

/-- `time.ParseDuration` on sample strings: `1m`, `-5s` and `0s` are durations; every other
string of the table is reported as invalid, with the duration 0. -/
def sampleParseDuration (s : String) : Int × Option GoError :=
  if s = "1m" then (60000000000, none)
  else if s = "-5s" then (-5000000000, none)
  else if s = "0s" then (0, none)
  else (0, some (.library "time" ("invalid duration " ++ s)))

/-- The name that a call with the arguments `a` generates. -/
def MetricArgs.key (a : MetricArgs) : List Nat :=
  GetName [a.nspace, a.subsystem, a.name, a.metric]

/-- The check `getAndValid` on the arguments `a`. -/
def MetricArgs.check (a : MetricArgs) : List Nat × Option MetricError :=
  getAndValid a.nspace a.subsystem a.name a.metric a.labels a.constLabels

/-- `NewCounter` on the arguments `a`. -/
def MetricArgs.newCounter (P : PromLib) (st : MetricState) (a : MetricArgs) :
    Run (Option Collector) × MetricState :=
  NewCounter P st a.nspace a.subsystem a.name a.metric a.help a.labels a.constLabels

/-- `NewGauge` on the arguments `a`. -/
def MetricArgs.newGauge (P : PromLib) (st : MetricState) (a : MetricArgs) :
    Run (Option Collector) × MetricState :=
  NewGauge P st a.nspace a.subsystem a.name a.metric a.help a.labels a.constLabels

/-- Sample arguments: the name `requests` with the label `code` given twice. -/
def sampleRepeatedLabel : MetricArgs :=
  { nspace := [], subsystem := [], name := asciiBytes "requests", metric := [],
    help := asciiBytes "requests served", labels := [asciiBytes "code", asciiBytes "code"],
    constLabels := [] }

/-- Sample arguments: the name `up` without labels. -/
def sampleUp : MetricArgs :=
  { nspace := [], subsystem := [], name := asciiBytes "up", metric := [],
    help := asciiBytes "up", labels := [], constLabels := [] }

/-- Sample arguments that `getAndValid` rejects: the label `bad label`. -/
def sampleBadLabel : MetricArgs :=
  { nspace := [], subsystem := [], name := asciiBytes "up", metric := [],
    help := asciiBytes "up", labels := [asciiBytes "bad label"], constLabels := [] }

/-! # Theorems -/

@[simp] theorem Run.bind_ret {α β : Type} (a : α) (f : α → Run β) :
    (Run.ret a).bind f = f a := rfl

@[simp] theorem Run.bind_panic {α β : Type} (p : Panic) (f : α → Run β) :
    (Run.panic p : Run α).bind f = .panic p := rfl

@[simp] theorem Run.bind_hang {α β : Type} (f : α → Run β) :
    (Run.hang : Run α).bind f = .hang := rfl

/-! ## C1: the empty match -/

/-- C1 (HTML, where the claim fails): when `html.Parse` succeeds and the path expression
matches zero nodes, string extraction with the HTML extractor does not return the empty
string: the `Query` closure evaluates `nodes[0]` on the empty slice and the call ends in
an index-out-of-range panic. -/
theorem html_zero_match_panics (L : HtmlLib) (document xpath : String) (docType : DocType)
    (root : HRef) (hparse : L.parse document = (some root, none))
    (hquery : L.queryAll root xpath = ([], none)) :
    ((NewHTMLExtractor L document docType).SetQuery xpath).ExtractStr
      = .panic (.indexOutOfRange 0 0) := by
  simp [XPathExtractor.ExtractStr, XPathExtractor.SetQuery, NewHTMLExtractor, Query, hparse,
    htmlQuery, hquery]

/-- Witness for C1: `//p` over `<ul><li>a</li><li>b</li></ul>` matches no node, and the
extraction panics. -/
theorem html_zero_match_panics_witness :
    sampleHtmlLib.parse "<ul><li>a</li><li>b</li></ul>" = (some ⟨sampleListDoc, 0⟩, none) ∧
    sampleHtmlLib.queryAll ⟨sampleListDoc, 0⟩ "//p" = ([], none) ∧
    ((NewHTMLExtractor sampleHtmlLib "<ul><li>a</li><li>b</li></ul>" .HTML).SetQuery
        "//p").ExtractStr = .panic (.indexOutOfRange 0 0) :=
  ⟨rfl, rfl, html_zero_match_panics sampleHtmlLib _ _ _ ⟨sampleListDoc, 0⟩ rfl rfl⟩

/-- An XML query that matches no node yields the empty string and no error. -/
theorem xml_zero_match_empty (L : XmlLib) (document xpath : String) (docType : DocType)
    (root : XNode) (hparse : L.parse document = (some root, none))
    (hquery : L.query root xpath = (none, none)) :
    ((NewXMLExtractor L document docType).SetQuery xpath).ExtractStr = .ret ("", none) := by
  simp [XPathExtractor.ExtractStr, XPathExtractor.SetQuery, NewXMLExtractor, Query, hparse,
    hquery]

/-- A JSON query that matches no node yields the empty string and no error. -/
theorem json_zero_match_empty (L : JsonLib) (document xpath : String) (docType : DocType)
    (root : JNode) (hparse : L.parse document = (some root, none))
    (hquery : L.query root xpath = (none, none)) :
    ((NewJSONExtractor L document docType).SetQuery xpath).ExtractStr = .ret ("", none) := by
  simp [XPathExtractor.ExtractStr, XPathExtractor.SetQuery, NewJSONExtractor, Query, hparse,
    hquery]

/-! ## C2: capturing groups -/

/-- The loop of `MatchStr` skips index 0 and returns at index 1. -/
theorem matchLoop_first_group (m : List String) (r : RegexExtractor) (n0 n1 : String)
    (rest : List String) (s : String) (hm : m[1]? = some s) :
    matchLoop m r 0 (n0 :: n1 :: rest)
      = .ret ((s, none), if 0 < n1.length then { r with Name := n1 } else r) := by
  have hlen : 1 < m.length := by
    rcases Nat.lt_or_ge 1 m.length with h | h
    · exact h
    · rw [List.getElem?_eq_none h] at hm; cases hm
  have h1 : 1 ≤ m.length := by omega
  simp [matchLoop, hm, h1]

/-- C2, amended: for a pattern with at least one capturing group and a document it matches,
`MatchStr` returns the text of the first capturing group in declared order, empty or not
(and takes over that group's name if it has one); later groups are not looked at. -/
theorem matchStr_returns_first_group (compile : String → Option Regexp) (r : RegexExtractor)
    (re : Regexp) (m : List String) (s : String)
    (hcompile : compile r.Regex = some re)
    (hmatch : re.FindStringSubmatch r.Document = some m)
    (hgroups : 2 ≤ re.SubexpNames.length)
    (hfirst : m[1]? = some s) :
    r.MatchStr compile
      = .ret ((s, none),
          if 0 < (re.SubexpNames.getD 1 "").length
          then { r with Name := re.SubexpNames.getD 1 "" } else r) := by
  unfold RegexExtractor.MatchStr
  rw [hcompile]
  simp only [hmatch]
  match hn : re.SubexpNames, hgroups with
  | n0 :: n1 :: rest, _ =>
    rw [matchLoop_first_group m r n0 n1 rest s hfirst]
    simp

/-- Witness for C2: the pattern `(a*)(b)` on the document `b`. -/
theorem matchStr_returns_first_group_witness :
    (RegexExtractor.SetQuery (NewRegexExtractor "b" .TEXT) "(a*)(b)").MatchStr sampleCompile
      = .ret (("", none), RegexExtractor.SetQuery (NewRegexExtractor "b" .TEXT) "(a*)(b)") :=
  matchStr_returns_first_group sampleCompile
    (RegexExtractor.SetQuery (NewRegexExtractor "b" .TEXT) "(a*)(b)")
    { SubexpNames := ["", "", ""]
      FindStringSubmatch := fun doc => if doc = "b" then some ["b", "", "b"] else none }
    ["b", "", "b"] "" rfl rfl (by decide) rfl

/-- Counterexample to C2 as stated: the pattern `(a*)(b)` matches the document `b` with
the submatches `["b", "", "b"]`; the first non-empty group is `b`, but `MatchStr` returns
the empty first group. -/
theorem matchStr_first_group_may_be_empty :
    (sampleCompile "(a*)(b)").map (fun re => (re.SubexpNames, re.FindStringSubmatch "b"))
      = some (["", "", ""], some ["b", "", "b"]) ∧
    firstNonEmptyGroup ["b", "", "b"] = some "b" ∧
    (RegexExtractor.SetQuery (NewRegexExtractor "b" .TEXT) "(a*)(b)").MatchStr sampleCompile
      = .ret (("", none), RegexExtractor.SetQuery (NewRegexExtractor "b" .TEXT) "(a*)(b)") ∧
    some "" ≠ firstNonEmptyGroup ["b", "", "b"] :=
  ⟨rfl, by decide, rfl, by decide⟩

/-! ## Heap lemmas -/

@[simp] theorem HHeap.setNext_size (h : HHeap) (a : Nat) (v : Option Nat) :
    (h.setNext a v).size = h.size := rfl

@[simp] theorem HHeap.setPrev_size (h : HHeap) (a : Nat) (v : Option Nat) :
    (h.setPrev a v).size = h.size := rfl

@[simp] theorem HHeap.alloc_size (h : HHeap) (nd : HNode) : (h.alloc nd).size = h.size + 1 := rfl

@[simp] theorem HHeap.setNext_firstChild (h : HHeap) (a b : Nat) (v : Option Nat) :
    ((h.setNext a v).node b).FirstChild = (h.node b).FirstChild := by
  by_cases hb : b = a <;> simp [HHeap.setNext, Function.update, hb]

@[simp] theorem HHeap.setPrev_firstChild (h : HHeap) (a b : Nat) (v : Option Nat) :
    ((h.setPrev a v).node b).FirstChild = (h.node b).FirstChild := by
  by_cases hb : b = a <;> simp [HHeap.setPrev, Function.update, hb]

@[simp] theorem HHeap.setPrev_nextSibling (h : HHeap) (a b : Nat) (v : Option Nat) :
    ((h.setPrev a v).node b).NextSibling = (h.node b).NextSibling := by
  by_cases hb : b = a <;> simp [HHeap.setPrev, Function.update, hb]

theorem HHeap.setNext_nextSibling (h : HHeap) (a b : Nat) (v : Option Nat) :
    ((h.setNext a v).node b).NextSibling = if b = a then v else (h.node b).NextSibling := by
  by_cases hb : b = a <;> simp [HHeap.setNext, Function.update, hb]

theorem HHeap.alloc_node (h : HHeap) (nd : HNode) (b : Nat) :
    (h.alloc nd).node b = if b = h.size then nd else h.node b := by
  by_cases hb : b = h.size <;> simp [HHeap.alloc, Function.update, hb]

@[simp] theorem unlinkLoop_size (l : List Nat) (h : HHeap) : (unlinkLoop h l).size = h.size := by
  induction l generalizing h with
  | nil => rfl
  | cons n rest ih => simp [unlinkLoop, ih]

@[simp] theorem unlinkLoop_firstChild (l : List Nat) (h : HHeap) (a : Nat) :
    ((unlinkLoop h l).node a).FirstChild = (h.node a).FirstChild := by
  induction l generalizing h with
  | nil => rfl
  | cons n rest ih => simp [unlinkLoop, ih]

theorem unlinkLoop_nextSibling (l : List Nat) (h : HHeap) (a : Nat) :
    ((unlinkLoop h l).node a).NextSibling = if a ∈ l then none else (h.node a).NextSibling := by
  induction l generalizing h with
  | nil => simp [unlinkLoop]
  | cons n rest ih =>
    simp only [unlinkLoop, ih, HHeap.setNext_nextSibling, HHeap.setPrev_nextSibling,
      List.mem_cons]
    by_cases h1 : a = n <;> by_cases h2 : a ∈ rest <;> simp [h1, h2]

@[simp] theorem linkLoop_size (rest : List Nat) (h : HHeap) (child prev : Nat) :
    (linkLoop h child prev rest).size = h.size := by
  induction rest generalizing h child prev with
  | nil => rfl
  | cons n rest ih => simp [linkLoop, ih]

@[simp] theorem linkLoop_firstChild (rest : List Nat) (h : HHeap) (child prev a : Nat) :
    ((linkLoop h child prev rest).node a).FirstChild = (h.node a).FirstChild := by
  induction rest generalizing h child prev with
  | nil => rfl
  | cons n rest ih => simp [linkLoop, ih]

theorem succIn_eq_none_of_not_mem (l : List Nat) (a : Nat) (ha : a ∉ l) : succIn l a = none := by
  induction l with
  | nil => rfl
  | cons x rest ih =>
    cases rest with
    | nil => rfl
    | cons y r =>
      have hx : a ≠ x := fun e => ha (by simp [e])
      have hr : a ∉ y :: r := fun e => ha (List.mem_cons_of_mem _ e)
      simp [succIn, hx, ih hr]

theorem linkLoop_nextSibling (rest : List Nat) (h : HHeap) (child prev a : Nat)
    (hnd : (child :: rest).Nodup) :
    ((linkLoop h child prev rest).node a).NextSibling
      = (succIn (child :: rest) a).orElse (fun _ => (h.node a).NextSibling) := by
  induction rest generalizing h child prev with
  | nil => simp [linkLoop, succIn]
  | cons n rest ih =>
    have hnd2 : (n :: rest).Nodup := (List.nodup_cons.mp hnd).2
    have hc : child ∉ n :: rest := (List.nodup_cons.mp hnd).1
    simp only [linkLoop]
    rw [ih _ n n hnd2]
    simp only [HHeap.setPrev_nextSibling, HHeap.setNext_nextSibling, succIn]
    by_cases hac : a = child
    · subst hac
      simp [succIn_eq_none_of_not_mem _ _ hc]
    · simp [hac]

theorem succIn_pairwise (l : List Nat) (a y : Nat) (hs : l.Pairwise (· < ·))
    (h : succIn l a = some y) : a < y ∧ y ∈ l := by
  induction l with
  | nil => simp [succIn] at h
  | cons x rest ih =>
    cases rest with
    | nil => simp [succIn] at h
    | cons z r =>
      simp only [succIn] at h
      by_cases hax : a = x
      · simp only [hax, if_true, Option.some.injEq] at h
        subst h; subst hax
        exact ⟨(List.pairwise_cons.mp hs).1 _ (by simp), by simp⟩
      · simp only [hax, if_false] at h
        have := ih (List.pairwise_cons.mp hs).2 h
        exact ⟨this.1, List.mem_cons_of_mem _ this.2⟩

theorem pairwise_lt_nodup (l : List Nat) (hs : l.Pairwise (· < ·)) : l.Nodup :=
  hs.imp (fun h => Nat.ne_of_lt h)

theorem HHeap.setNext_node_of_ne (h : HHeap) (a b : Nat) (v : Option Nat) (hb : b ≠ a) :
    (h.setNext a v).node b = h.node b := by
  simp [HHeap.setNext, Function.update, hb]

theorem HHeap.setPrev_node_of_ne (h : HHeap) (a b : Nat) (v : Option Nat) (hb : b ≠ a) :
    (h.setPrev a v).node b = h.node b := by
  simp [HHeap.setPrev, Function.update, hb]

theorem linkLoop_node_of_not_mem (rest : List Nat) (h : HHeap) (child prev a : Nat)
    (ha : a ∉ child :: rest) : (linkLoop h child prev rest).node a = h.node a := by
  induction rest generalizing h child prev with
  | nil => rfl
  | cons n rest ih =>
    have h1 : a ≠ child := fun e => ha (by simp [e])
    have h2 : a ≠ n := fun e => ha (by simp [e])
    have h3 : a ∉ n :: rest := fun e => ha (List.mem_cons_of_mem _ e)
    simp only [linkLoop]
    rw [ih _ n n h3, HHeap.setPrev_node_of_ne _ _ _ _ h1, HHeap.setPrev_node_of_ne _ _ _ _ h2,
      HHeap.setNext_node_of_ne _ _ _ _ h1]

@[simp] theorem relink_size (h : HHeap) (n0 : Nat) (rest : List Nat) :
    (relink h n0 rest).size = h.size + 1 := by
  simp [relink]

theorem relink_root (h : HHeap) (n0 : Nat) (rest : List Nat)
    (hlt : ∀ n ∈ n0 :: rest, n < h.size) :
    (relink h n0 rest).node h.size
      = { HNode.zero with NodeType := .ElementNode, FirstChild := some n0,
                          LastChild := (n0 :: rest).getLast? } := by
  have hnot : h.size ∉ n0 :: rest := fun e => Nat.lt_irrefl _ (hlt _ e)
  simp only [relink]
  rw [linkLoop_node_of_not_mem _ _ _ _ _ hnot]
  simp [HHeap.alloc_node]

theorem relink_firstChild (h : HHeap) (n0 : Nat) (rest : List Nat) (a : Nat)
    (ha : a < h.size) :
    ((relink h n0 rest).node a).FirstChild = (h.node a).FirstChild := by
  have hne : a ≠ h.size := Nat.ne_of_lt ha
  simp [relink, HHeap.alloc_node, hne]

theorem relink_nextSibling (h : HHeap) (n0 : Nat) (rest : List Nat) (a : Nat)
    (ha : a < h.size) (hnd : (n0 :: rest).Nodup) :
    ((relink h n0 rest).node a).NextSibling
      = if a ∈ n0 :: rest then succIn (n0 :: rest) a else (h.node a).NextSibling := by
  have hne : a ≠ h.size := Nat.ne_of_lt ha
  simp only [relink]
  rw [linkLoop_nextSibling _ _ _ _ _ hnd]
  simp only [HHeap.alloc_node, unlinkLoop_size, hne, if_false, unlinkLoop_nextSibling]
  by_cases hmem : a ∈ n0 :: rest
  · simp only [hmem, if_true]
    cases succIn (n0 :: rest) a <;> rfl
  · simp only [hmem, if_false]
    rw [succIn_eq_none_of_not_mem _ _ hmem]; rfl

theorem linkForward_iff (a N : Nat) (p : Option Nat) :
    linkForward a N p = true ↔ ∀ c, p = some c → a < c ∧ c < N := by
  cases p with
  | none => simp [linkForward]
  | some c => simp [linkForward]

/-- Relinking the matches of a parsed tree, taken in document order, leaves the old nodes
laid out in document order. -/
theorem relink_forwardBelow (h : HHeap) (n0 : Nat) (rest : List Nat)
    (hwf : h.Forward) (hs : (n0 :: rest).Pairwise (· < ·))
    (hlt : ∀ n ∈ n0 :: rest, n < h.size) :
    (relink h n0 rest).ForwardBelow h.size := by
  intro a ha
  have hnd := pairwise_lt_nodup _ hs
  rw [relink_firstChild h n0 rest a ha, relink_nextSibling h n0 rest a ha hnd]
  refine ⟨(hwf a ha).1, ?_⟩
  by_cases hmem : a ∈ n0 :: rest
  · rw [if_pos hmem, linkForward_iff]
    intro c hc
    have := succIn_pairwise _ _ _ hs hc
    exact ⟨this.1, hlt _ this.2⟩
  · rw [if_neg hmem]; exact (hwf a ha).2

theorem siblingsGo_none (h : HHeap) (f : Nat) : siblingsGo h f none = some [] := by
  cases f <;> rfl

/-- A sibling chain whose links follow a list visits that list. -/
theorem siblingsGo_of_succIn (h : HHeap) (rest : List Nat) (x f : Nat)
    (hnd : (x :: rest).Nodup)
    (hnext : ∀ a ∈ x :: rest, (h.node a).NextSibling = succIn (x :: rest) a)
    (hf : (x :: rest).length ≤ f) :
    siblingsGo h f (some x) = some (x :: rest) := by
  induction rest generalizing x f with
  | nil =>
    cases f with
    | zero => simp at hf
    | succ f =>
      have := hnext x (by simp)
      simp [siblingsGo, this, succIn, siblingsGo_none]
  | cons y r ih =>
    cases f with
    | zero => simp at hf
    | succ f =>
      have hx := hnext x (by simp)
      simp only [succIn, if_true] at hx
      have hnd2 : (y :: r).Nodup := (List.nodup_cons.mp hnd).2
      have hxy : x ∉ y :: r := (List.nodup_cons.mp hnd).1
      have hnext2 : ∀ a ∈ y :: r, (h.node a).NextSibling = succIn (y :: r) a := by
        intro a ha
        have hax : a ≠ x := fun e => hxy (e ▸ ha)
        have := hnext a (List.mem_cons_of_mem _ ha)
        simpa [succIn, hax] using this
      have hf2 : (y :: r).length ≤ f := by simp at hf ⊢; omega
      simp [siblingsGo, hx, ih y f hnd2 hnext2 hf2]

/-- In a forest laid out in document order every sibling chain ends. -/
theorem siblingsGo_terminates (h : HHeap) (N : Nat) (hwf : h.ForwardBelow N) :
    ∀ (m c f : Nat), c < N → N - c ≤ m → N - c ≤ f →
      ∃ l, siblingsGo h f (some c) = some l ∧ ∀ x ∈ l, x < N := by
  intro m
  induction m with
  | zero => intro c f hc hm; omega
  | succ m ih =>
    intro c f hc hm hf
    cases f with
    | zero => omega
    | succ f =>
      simp only [siblingsGo]
      cases hnx : (h.node c).NextSibling with
      | none => exact ⟨[c], by simp [siblingsGo_none], by simpa using hc⟩
      | some c2 =>
        have := (linkForward_iff _ _ _).mp (hwf c hc).2 c2 hnx
        obtain ⟨l, hl, hlt⟩ := ih c2 f this.2 (by omega) (by omega)
        refine ⟨c :: l, by simp [hl], ?_⟩
        intro x hx
        rcases List.mem_cons.mp hx with e | e
        · exact e ▸ hc
        · exact hlt x e

theorem renderGo_loop_none (L : RenderLib) (h : HHeap) (f : Nat) (lit : Bool) :
    renderGo L h f (.loop lit none) = some ("", .ok) := by
  cases f <;> rfl

/-- In a forest laid out in document order `render1` returns: rendering the node at `c`
needs at most `2 * (N - c)` nested calls. -/
theorem renderGo_terminates (L : RenderLib) (h : HHeap) (N : Nat) (hwf : h.ForwardBelow N) :
    ∀ (m c : Nat), c < N → N - c ≤ m →
      (∀ f, 2 * (N - c) ≤ f → (renderGo L h f (.node c)).isSome = true) ∧
      (∀ f lit, 2 * (N - c) + 1 ≤ f → (renderGo L h f (.loop lit (some c))).isSome = true) := by
  intro m
  induction m with
  | zero => intro c hc hm; omega
  | succ m ih =>
    intro c hc hm
    have hloop : ∀ (p : Option Nat) (f : Nat) (lit : Bool), linkForward c N p = true →
        2 * (N - c) - 1 ≤ f → (renderGo L h f (.loop lit p)).isSome = true := by
      intro p f lit hp hf
      cases p with
      | none => simp [renderGo_loop_none]
      | some c2 =>
        have := (linkForward_iff _ _ _).mp hp c2 rfl
        exact (ih c2 this.2 (by omega)).2 f lit (by omega)
    have hnode : ∀ f, 2 * (N - c) ≤ f → (renderGo L h f (.node c)).isSome = true := by
      intro f hf
      cases f with
      | zero => omega
      | succ f =>
        have hfc := hloop (h.node c).FirstChild f false (hwf c hc).1 (by omega)
        have hfc2 := hloop (h.node c).FirstChild f (childTextNodesAreLiteral (h.node c))
          (hwf c hc).1 (by omega)
        simp only [renderGo]
        split <;> try simp
        · exact hfc
        · split
          · split <;> simp
          · obtain ⟨⟨body, st⟩, hb⟩ := Option.isSome_iff_exists.mp hfc2
            rw [hb]
            cases st <;> simp
            split <;> simp
    refine ⟨hnode, ?_⟩
    intro f lit hf
    cases f with
    | zero => omega
    | succ f =>
      have hn := hnode f (by omega)
      have hnx := hloop (h.node c).NextSibling f lit (hwf c hc).2 (by omega)
      obtain ⟨⟨b, st2⟩, hb⟩ := Option.isSome_iff_exists.mp hnx
      obtain ⟨⟨a, st1⟩, ha⟩ := Option.isSome_iff_exists.mp hn
      by_cases hlit : lit = true ∧ (h.node c).NodeType = .TextNode
      · obtain ⟨hl, ht⟩ := hlit
        subst hl
        simp only [renderGo, ht, and_self, if_true, hb]
        simp
      · simp only [renderGo, hlit, if_false, ha, hb]; cases st1 <;> simp

theorem htmlRender_eq_renderedText (L : RenderLib) (h : HHeap) (n : Nat)
    (hn : (renderGo L h h.fuel (.node n)).isSome = true) :
    htmlRender L h n = .ret (renderedText L h n) := by
  obtain ⟨⟨s, st⟩, hs⟩ := Option.isSome_iff_exists.mp hn
  simp [htmlRender, renderedText, hs]

/-- The loop of `OutputHTML` writes the rendered text of every node of the sibling chain. -/
theorem outputLoop_of_siblings (L : RenderLib) (h : HHeap) :
    ∀ (f : Nat) (p : Option Nat) (l : List Nat), siblingsGo h f p = some l →
      (∀ n ∈ l, (renderGo L h h.fuel (.node n)).isSome = true) →
      outputLoop L h f p = .ret (concatStrings (l.map (renderedText L h))) := by
  intro f
  induction f with
  | zero =>
    intro p l hl _
    cases p with
    | none => simp [siblingsGo] at hl; subst hl; rfl
    | some c => simp [siblingsGo] at hl
  | succ f ih =>
    intro p l hl hr
    cases p with
    | none => simp [siblingsGo] at hl; subst hl; rfl
    | some c =>
      simp only [siblingsGo, Option.map_eq_some'] at hl
      obtain ⟨l2, hl2, rfl⟩ := hl
      have h1 := htmlRender_eq_renderedText L h c (hr c (by simp))
      have h2 := ih _ l2 hl2 (fun n hn => hr n (List.mem_cons_of_mem _ hn))
      simp [outputLoop, h1, h2, concatStrings]

theorem length_le_of_pairwise_lt (l : List Nat) (N : Nat) (hs : l.Pairwise (· < ·))
    (hlt : ∀ n ∈ l, n < N) : l.length ≤ N := by
  have hnd := pairwise_lt_nodup l hs
  have h1 : l.toFinset.card = l.length := List.toFinset_card_of_nodup hnd
  have h2 : l.toFinset ⊆ Finset.range N := by
    intro x hx
    simp only [List.mem_toFinset] at hx
    simpa using hlt x hx
  have h3 := Finset.card_le_card h2
  rw [h1, Finset.card_range] at h3
  exact h3

/-- String extraction over two or more HTML matches: the rendered matches, concatenated. -/
theorem extractStr_multi_match (L : HtmlLib) (document xpath : String) (docType : DocType)
    (h : HHeap) (root n0 n1 : Nat) (rest : List Nat)
    (hparse : L.parse document = (some ⟨h, root⟩, none))
    (hquery : L.queryAll ⟨h, root⟩ xpath = (n0 :: n1 :: rest, none))
    (hwf : h.Forward)
    (hsorted : (n0 :: n1 :: rest).Pairwise (· < ·))
    (hlt : ∀ n ∈ n0 :: n1 :: rest, n < h.size) :
    ((NewHTMLExtractor L document docType).SetQuery xpath).ExtractStr
      = .ret (concatStrings ((n0 :: n1 :: rest).map
          (renderedText L.render (relink h n0 (n1 :: rest)))), none) ∧
    ∀ n ∈ n0 :: n1 :: rest,
      htmlRender L.render (relink h n0 (n1 :: rest)) n
        = .ret (renderedText L.render (relink h n0 (n1 :: rest)) n) := by
  have hnd := pairwise_lt_nodup _ hsorted
  have hfw := relink_forwardBelow h n0 (n1 :: rest) hwf hsorted hlt
  have hrender : ∀ n ∈ n0 :: n1 :: rest,
      (renderGo L.render (relink h n0 (n1 :: rest)) (relink h n0 (n1 :: rest)).fuel
        (.node n)).isSome = true := by
    intro n hn
    have hn2 := hlt n hn
    refine (renderGo_terminates L.render _ h.size hfw (h.size - n) n hn2 (Nat.le_refl _)).1 _ ?_
    simp only [HHeap.fuel, relink_size]; omega
  have hnext : ∀ a ∈ n0 :: n1 :: rest,
      ((relink h n0 (n1 :: rest)).node a).NextSibling = succIn (n0 :: n1 :: rest) a := by
    intro a ha
    rw [relink_nextSibling h n0 (n1 :: rest) a (hlt a ha) hnd, if_pos ha]
  have hchain : siblingsGo (relink h n0 (n1 :: rest)) (relink h n0 (n1 :: rest)).fuel (some n0)
      = some (n0 :: n1 :: rest) := by
    apply siblingsGo_of_succIn _ _ _ _ hnd hnext
    have := length_le_of_pairwise_lt _ _ hsorted hlt
    simp only [HHeap.fuel, relink_size]; omega
  have hroot := relink_root h n0 (n1 :: rest) hlt
  have hn0 : ((relink h n0 (n1 :: rest)).node n0).NextSibling = some n1 := by
    rw [hnext n0 (by simp)]; simp [succIn]
  refine ⟨?_, fun n hn => htmlRender_eq_renderedText _ _ _ (hrender n hn)⟩
  have hout := outputLoop_of_siblings L.render _ _ _ _ hchain hrender
  simp [XPathExtractor.ExtractStr, XPathExtractor.SetQuery, NewHTMLExtractor, Query, hparse,
    htmlQuery, hquery, htmlInnerWith, hroot, hn0, hqOutputHTML, hout, HNode.zero]


/-! ## C3: several matches, extracted as a string -/

/-- C3, amended: when an HTML path expression matches two or more nodes of a parsed tree
(given in document order), string extraction returns, with no error, the concatenation in
match order of what `html.Render` writes for each matched node in the relinked tree, that
is their markup with the tags kept; and each of these renderings returns. -/
theorem html_multi_match_string (L : HtmlLib) (document xpath : String) (docType : DocType)
    (h : HHeap) (root n0 n1 : Nat) (rest : List Nat)
    (hparse : L.parse document = (some ⟨h, root⟩, none))
    (hquery : L.queryAll ⟨h, root⟩ xpath = (n0 :: n1 :: rest, none))
    (hwf : h.Forward)
    (hsorted : (n0 :: n1 :: rest).Pairwise (· < ·))
    (hlt : ∀ n ∈ n0 :: n1 :: rest, n < h.size) :
    ((NewHTMLExtractor L document docType).SetQuery xpath).ExtractStr
      = .ret (concatStrings ((n0 :: n1 :: rest).map
          (renderedText L.render (relink h n0 (n1 :: rest)))), none) ∧
    ∀ n ∈ n0 :: n1 :: rest,
      htmlRender L.render (relink h n0 (n1 :: rest)) n
        = .ret (renderedText L.render (relink h n0 (n1 :: rest)) n) :=
  extractStr_multi_match L document xpath docType h root n0 n1 rest hparse hquery hwf hsorted hlt

/-- Witness for C3, amended: `//li` over `<ul><li>a</li><li>b</li></ul>` matches the two
`li` elements (at the addresses 5 and 7) and yields `<li>a</li><li>b</li>`. -/
theorem html_multi_match_string_witness :
    ((NewHTMLExtractor sampleHtmlLib "<ul><li>a</li><li>b</li></ul>" .HTML).SetQuery
        "//li").ExtractStr
      = .ret (concatStrings ([5, 7].map
          (renderedText sampleHtmlLib.render (relink sampleListDoc 5 [7]))), none) ∧
    concatStrings ([5, 7].map (renderedText sampleHtmlLib.render (relink sampleListDoc 5 [7])))
      = "<li>a</li><li>b</li>" :=
  ⟨(html_multi_match_string sampleHtmlLib "<ul><li>a</li><li>b</li></ul>" "//li" .HTML
      sampleListDoc 0 5 7 [] rfl rfl (by decide) (by decide) (by decide)).1, by rfl⟩

/-- Counterexample to C3 as stated: `//li` over `<ul><li>a</li><li>b</li></ul>` matches two
nodes whose text contents are `a` and `b`, but string extraction yields
`<li>a</li><li>b</li>` and not `ab`. -/
theorem html_multi_match_keeps_tags :
    sampleHtmlLib.queryAll ⟨sampleListDoc, 0⟩ "//li" = ([5, 7], none) ∧
    hqInnerText ⟨sampleListDoc, 5⟩ = .ret "a" ∧
    hqInnerText ⟨sampleListDoc, 7⟩ = .ret "b" ∧
    ((NewHTMLExtractor sampleHtmlLib "<ul><li>a</li><li>b</li></ul>" .HTML).SetQuery
        "//li").ExtractStr = .ret ("<li>a</li><li>b</li>", none) ∧
    ((NewHTMLExtractor sampleHtmlLib "<ul><li>a</li><li>b</li></ul>" .HTML).SetQuery
        "//li").ExtractStr ≠ .ret ("ab", none) :=
  ⟨rfl, rfl, rfl, rfl, by decide⟩

/-! ## The list extraction on HTML -/

theorem HHeap.fuel_eq (h : HHeap) : h.fuel = (2 * h.size + 1) + 1 := rfl

theorem hqInnerText_text (h : HHeap) (g : Nat) (ht : (h.node g).NodeType = .TextNode) :
    hqInnerText ⟨h, g⟩ = .ret (h.node g).Data := by
  simp [hqInnerText, HHeap.fuel_eq, innerTextGo, ht]

/-- In a parsed tree the loop over the children of a node ends, and stays in the tree. -/
theorem childNodes_eq (h : HHeap) (hwf : h.Forward) (n : Nat) (hn : n < h.size) :
    h.childNodes n = .ret (h.children n) ∧ ∀ c ∈ h.children n, c < h.size := by
  unfold HHeap.childNodes HHeap.children
  cases hfc : (h.node n).FirstChild with
  | none => simp [siblingsGo_none]
  | some c =>
    have hc := (linkForward_iff _ _ _).mp (hwf n hn).1 c hfc
    obtain ⟨l, hl, hlt⟩ := siblingsGo_terminates h h.size hwf (h.size - c) c h.fuel hc.2
      (Nat.le_refl _) (by simp only [HHeap.fuel]; omega)
    simp [hl]
    exact hlt

theorem htmlGrandChildren_eq (h : HHeap) (gs : List Nat) :
    htmlGrandChildren h gs
      = .ret ((gs.filter (fun g => (h.node g).NodeType = .TextNode)).map
          (fun g => Elem.string (h.node g).Data)) := by
  induction gs with
  | nil => rfl
  | cons g rest ih =>
    by_cases ht : (h.node g).NodeType = .TextNode
    · simp [htmlGrandChildren, ht, hqInnerText_text, ih]
    · simp [htmlGrandChildren, ht, ih]

theorem htmlChildren_eq (h : HHeap) (hwf : h.Forward) (cs : List Nat)
    (hcs : ∀ c ∈ cs, c < h.size) :
    htmlChildren h cs = .ret (cs.flatMap (htmlChildTexts h)) := by
  induction cs with
  | nil => rfl
  | cons c rest ih =>
    have ih2 := ih (fun x hx => hcs x (List.mem_cons_of_mem _ hx))
    have hc := hcs c (by simp)
    cases ht : (h.node c).NodeType <;>
      simp [htmlChildren, ht, ih2, htmlChildTexts, hqInnerText_text, (childNodes_eq h hwf c hc).1,
        htmlGrandChildren_eq]

theorem htmlLengthValues_eq (h : HHeap) (hwf : h.Forward) (nodes : List Nat)
    (hlt : ∀ n ∈ nodes, n < h.size) :
    htmlLengthValues h nodes
      = .ret (nodes.flatMap (fun n => (h.children n).flatMap (htmlChildTexts h))) := by
  induction nodes with
  | nil => rfl
  | cons n rest ih =>
    have ih2 := ih (fun x hx => hlt x (List.mem_cons_of_mem _ hx))
    have hn := childNodes_eq h hwf n (hlt n (by simp))
    simp [htmlLengthValues, hn.1, htmlChildren_eq h hwf _ hn.2, ih2]

/-- The HTML case of `ExtractLengthVariable`: the extracted string is parsed again, the path
expression is run on the new tree, and the children of the nodes matched there are
enumerated. -/
theorem extractLength_html {σ : Type} (E : Env) (R : Receiver σ) (x x1 : σ) (s : String)
    (h2 : HHeap) (r2 : Nat) (nodes : List Nat)
    (hstr : R.ExtractStrFn x = .ret ((s, none), x1))
    (hdoc : (R.base x1).DocType = .HTML)
    (hparse : E.html.parse s = (some ⟨h2, r2⟩, none))
    (hquery : E.html.queryAll ⟨h2, r2⟩ (R.base x1).XPath = (nodes, none))
    (hwf : h2.Forward) (hlt : ∀ n ∈ nodes, n < h2.size) :
    BaseExtractor.ExtractLengthVariable E R x
      = .ret ((.slice (nodes.flatMap (fun n => (h2.children n).flatMap (htmlChildTexts h2))),
          none), x1) := by
  simp [BaseExtractor.ExtractLengthVariable, hstr, hdoc, hparse, hquery,
    htmlLengthValues_eq h2 hwf nodes hlt]

theorem innerTextGo_loop_none (h : HHeap) (f : Nat) : innerTextGo h f (.loop none) = some "" := by
  cases f <;> rfl

/-- In a forest laid out in document order the closure of `InnerText` returns. -/
theorem innerTextGo_terminates (h : HHeap) (N : Nat) (hwf : h.ForwardBelow N) :
    ∀ (m c : Nat), c < N → N - c ≤ m →
      (∀ f, 2 * (N - c) ≤ f → (innerTextGo h f (.node c)).isSome = true) ∧
      (∀ f, 2 * (N - c) + 1 ≤ f → (innerTextGo h f (.loop (some c))).isSome = true) := by
  intro m
  induction m with
  | zero => intro c hc hm; omega
  | succ m ih =>
    intro c hc hm
    have hloop : ∀ (p : Option Nat) (f : Nat), linkForward c N p = true →
        2 * (N - c) - 1 ≤ f → (innerTextGo h f (.loop p)).isSome = true := by
      intro p f hp hf
      cases p with
      | none => simp [innerTextGo_loop_none]
      | some c2 =>
        have := (linkForward_iff _ _ _).mp hp c2 rfl
        exact (ih c2 this.2 (by omega)).2 f (by omega)
    have hnode : ∀ f, 2 * (N - c) ≤ f → (innerTextGo h f (.node c)).isSome = true := by
      intro f hf
      cases f with
      | zero => omega
      | succ f =>
        have hfc := hloop (h.node c).FirstChild f (hwf c hc).1 (by omega)
        simp only [innerTextGo]
        split <;> first | rfl | exact hfc
    refine ⟨hnode, ?_⟩
    intro f hf
    cases f with
    | zero => omega
    | succ f =>
      obtain ⟨a, ha⟩ := Option.isSome_iff_exists.mp (hnode f (by omega))
      obtain ⟨b, hb⟩ := Option.isSome_iff_exists.mp
        (hloop (h.node c).NextSibling f (hwf c hc).2 (by omega))
      simp only [innerTextGo, ha, hb]
      rfl

/-- On a node of a parsed tree the `Inner` closure of `NewHTMLExtractor` returns. -/
theorem htmlInner_returns (L : RenderLib) (h : HHeap) (hwf : h.Forward) (e : Nat)
    (he : e < h.size) :
    htmlInnerWith hqInnerText (hqOutputHTML L) ⟨h, e⟩ = .ret (htmlInnerString L ⟨h, e⟩) := by
  have h1 : ∃ s, hqInnerText ⟨h, e⟩ = .ret s := by
    have := (innerTextGo_terminates h h.size hwf (h.size - e) e he (Nat.le_refl _)).1 h.fuel
      (by simp only [HHeap.fuel]; omega)
    obtain ⟨s, hs⟩ := Option.isSome_iff_exists.mp this
    exact ⟨s, by simp [hqInnerText, hs]⟩
  have h2 : ∃ s, hqOutputHTML L ⟨h, e⟩ false = .ret s := by
    simp only [hqOutputHTML, Bool.false_eq_true, if_false]
    obtain ⟨hc, hlt⟩ := childNodes_eq h hwf e he
    have hsib : siblingsGo h h.fuel (h.node e).FirstChild = some (h.children e) := by
      unfold HHeap.childNodes at hc
      cases hcs : siblingsGo h h.fuel (h.node e).FirstChild with
      | none => simp [hcs] at hc
      | some l => simp [HHeap.children, hcs]
    refine ⟨_, outputLoop_of_siblings L h _ _ _ hsib ?_⟩
    intro n hn
    exact (renderGo_terminates L h h.size hwf (h.size - n) n (hlt n hn) (Nat.le_refl _)).1 _
      (by simp only [HHeap.fuel]; omega)
  obtain ⟨s1, hs1⟩ := h1
  obtain ⟨s2, hs2⟩ := h2
  have hcases : htmlInnerWith hqInnerText (hqOutputHTML L) ⟨h, e⟩ = .ret s1 ∨
      htmlInnerWith hqInnerText (hqOutputHTML L) ⟨h, e⟩ = .ret s2 := by
    unfold htmlInnerWith
    split <;> first
      | exact Or.inl hs1
      | (split <;> first
          | exact Or.inl hs1
          | (split <;> first | exact Or.inl hs1 | exact Or.inr hs2))
  unfold htmlInnerString
  rcases hcases with hc | hc <;> rw [hc]

/-- String extraction over a single HTML match: what the `Inner` closure returns for it. -/
theorem extractStr_single_match (L : HtmlLib) (document xpath : String) (docType : DocType)
    (h : HHeap) (root e : Nat)
    (hparse : L.parse document = (some ⟨h, root⟩, none))
    (hquery : L.queryAll ⟨h, root⟩ xpath = ([e], none))
    (hwf : h.Forward) (he : e < h.size) :
    ((NewHTMLExtractor L document docType).SetQuery xpath).ExtractStr
      = .ret (htmlInnerString L.render ⟨h, e⟩, none) := by
  simp [XPathExtractor.ExtractStr, XPathExtractor.SetQuery, NewHTMLExtractor, Query, hparse,
    htmlQuery, hquery, htmlInner_returns L.render h hwf e he]

/-- Children that are all text nodes contribute their texts. -/
theorem flatMap_htmlChildTexts_of_text (h : HHeap) (cs : List Nat)
    (ht : ∀ c ∈ cs, (h.node c).NodeType = .TextNode) :
    cs.flatMap (htmlChildTexts h) = cs.map (fun c => Elem.string (h.node c).Data) := by
  induction cs with
  | nil => rfl
  | cons c rest ih =>
    have h1 := ht c (by simp)
    have h2 := ih (fun x hx => ht x (List.mem_cons_of_mem _ hx))
    simp [htmlChildTexts, h1, h2]

theorem flatMap_congr_mem {α β : Type} (l : List α) (f g : α → List β)
    (hfg : ∀ a ∈ l, f a = g a) : l.flatMap f = l.flatMap g := by
  induction l with
  | nil => rfl
  | cons a rest ih =>
    simp [hfg a (by simp), ih (fun x hx => hfg x (List.mem_cons_of_mem _ hx))]

/-! ## C4 and C5: the list of children -/

/-- C4, amended: when an HTML path expression matches two or more nodes, extraction with
`LengthVariable` parses the extracted string (the markup of the matches) again and runs the
path expression on the new tree; when the nodes matched there have only text children, it
returns, with no error, the ordered list of those texts, one entry per text child. -/
theorem html_length_multi_match (E : Env) (document xpath : String)
    (h : HHeap) (root n0 n1 : Nat) (rest : List Nat) (h2 : HHeap) (r2 : Nat) (ms : List Nat)
    (hparse : E.html.parse document = (some ⟨h, root⟩, none))
    (hquery : E.html.queryAll ⟨h, root⟩ xpath = (n0 :: n1 :: rest, none))
    (hwf : h.Forward)
    (hsorted : (n0 :: n1 :: rest).Pairwise (· < ·))
    (hlt : ∀ n ∈ n0 :: n1 :: rest, n < h.size)
    (hparse2 : E.html.parse (concatStrings ((n0 :: n1 :: rest).map
        (renderedText E.html.render (relink h n0 (n1 :: rest))))) = (some ⟨h2, r2⟩, none))
    (hquery2 : E.html.queryAll ⟨h2, r2⟩ xpath = (ms, none))
    (hwf2 : h2.Forward) (hlt2 : ∀ m ∈ ms, m < h2.size)
    (htext : ∀ m ∈ ms, ∀ c ∈ h2.children m, (h2.node c).NodeType = .TextNode) :
    (((NewHTMLExtractor E.html document .HTML).SetQuery xpath).SetVarType
        .LengthVariable).Extract E
      = .ret ((.slice (ms.flatMap fun m =>
            (h2.children m).map fun c => Elem.string (h2.node c).Data), none),
          ((NewHTMLExtractor E.html document .HTML).SetQuery xpath).SetVarType
            .LengthVariable) := by
  have hstr := (extractStr_multi_match E.html document xpath .HTML h root n0 n1 rest hparse
    hquery hwf hsorted hlt).1
  have hlen := extractLength_html E (XPathExtractor.receiver HRef)
    (((NewHTMLExtractor E.html document .HTML).SetQuery xpath).SetVarType .LengthVariable)
    (((NewHTMLExtractor E.html document .HTML).SetQuery xpath).SetVarType .LengthVariable)
    _ h2 r2 ms
    (by
      simp only [XPathExtractor.receiver]
      have : (((NewHTMLExtractor E.html document .HTML).SetQuery xpath).SetVarType
          .LengthVariable).ExtractStr
          = ((NewHTMLExtractor E.html document .HTML).SetQuery xpath).ExtractStr := rfl
      rw [this, hstr]; rfl)
    rfl hparse2 hquery2 hwf2 hlt2
  have hflat : (ms.flatMap fun m => (h2.children m).flatMap (htmlChildTexts h2))
      = ms.flatMap fun m => (h2.children m).map fun c => Elem.string (h2.node c).Data :=
    flatMap_congr_mem ms _ _ (fun m hm => flatMap_htmlChildTexts_of_text h2 _ (htext m hm))
  rw [← hflat, ← hlen]
  rfl

/-- C5, amended: when an HTML path expression resolves to exactly one node `e`, extraction
with `LengthVariable` parses the string extracted for `e` again and runs the path expression
on the new tree; it enumerates the children not of `e` but of the nodes matched there, in
order, contributing for an element child the text of each of its text children and for a
text child its own text. -/
theorem html_length_single_match (E : Env) (document xpath : String)
    (h : HHeap) (root e : Nat) (h2 : HHeap) (r2 : Nat) (ms : List Nat)
    (hparse : E.html.parse document = (some ⟨h, root⟩, none))
    (hquery : E.html.queryAll ⟨h, root⟩ xpath = ([e], none))
    (hwf : h.Forward) (he : e < h.size)
    (hparse2 : E.html.parse (htmlInnerString E.html.render ⟨h, e⟩) = (some ⟨h2, r2⟩, none))
    (hquery2 : E.html.queryAll ⟨h2, r2⟩ xpath = (ms, none))
    (hwf2 : h2.Forward) (hlt2 : ∀ m ∈ ms, m < h2.size) :
    (((NewHTMLExtractor E.html document .HTML).SetQuery xpath).SetVarType
        .LengthVariable).Extract E
      = .ret ((.slice (ms.flatMap fun m => (h2.children m).flatMap (htmlChildTexts h2)), none),
          ((NewHTMLExtractor E.html document .HTML).SetQuery xpath).SetVarType
            .LengthVariable) := by
  have hstr := extractStr_single_match E.html document xpath .HTML h root e hparse hquery hwf he
  have hlen := extractLength_html E (XPathExtractor.receiver HRef)
    (((NewHTMLExtractor E.html document .HTML).SetQuery xpath).SetVarType .LengthVariable)
    (((NewHTMLExtractor E.html document .HTML).SetQuery xpath).SetVarType .LengthVariable)
    _ h2 r2 ms
    (by
      simp only [XPathExtractor.receiver]
      have : (((NewHTMLExtractor E.html document .HTML).SetQuery xpath).SetVarType
          .LengthVariable).ExtractStr
          = ((NewHTMLExtractor E.html document .HTML).SetQuery xpath).ExtractStr := rfl
      rw [this, hstr]; rfl)
    rfl hparse2 hquery2 hwf2 hlt2
  rw [← hlen]
  rfl

/-- Witness for C4, amended: `//li` over `<ul><li>a</li><li>b</li></ul>` yields the list
`["a", "b"]`: the extracted string `<li>a</li><li>b</li>` parses to a tree in which `//li`
matches the nodes 4 and 6. -/
theorem html_length_multi_match_witness :
    (((NewHTMLExtractor sampleEnv.html "<ul><li>a</li><li>b</li></ul>" .HTML).SetQuery
        "//li").SetVarType .LengthVariable).Extract sampleEnv
      = .ret ((.slice [.string "a", .string "b"], none),
          ((NewHTMLExtractor sampleEnv.html "<ul><li>a</li><li>b</li></ul>" .HTML).SetQuery
            "//li").SetVarType .LengthVariable) :=
  html_length_multi_match sampleEnv "<ul><li>a</li><li>b</li></ul>" "//li" sampleListDoc 0 5 7 []
    sampleItemsDoc 0 [4, 6] rfl rfl (by decide) (by decide) (by decide) rfl rfl (by decide)
    (by decide) (by decide)

/-- Counterexample to C4 as stated: `//ul/li` over `<ul><li>a</li><li>b</li></ul>` matches
the two `li` elements, whose only children are the text nodes `a` and `b`, but extraction
with `LengthVariable` yields the empty list: the extracted string `<li>a</li><li>b</li>`
holds no `ul`. -/
theorem html_length_multi_match_reparsed :
    sampleEnv.html.queryAll ⟨sampleListDoc, 0⟩ "//ul/li" = ([5, 7], none) ∧
    ([5, 7].flatMap fun m => (sampleListDoc.children m).map fun c =>
        ((sampleListDoc.node c).NodeType, (sampleListDoc.node c).Data))
      = [(.TextNode, "a"), (.TextNode, "b")] ∧
    (((NewHTMLExtractor sampleEnv.html "<ul><li>a</li><li>b</li></ul>" .HTML).SetQuery
        "//ul/li").SetVarType .LengthVariable).Extract sampleEnv
      = .ret ((.slice [], none),
          ((NewHTMLExtractor sampleEnv.html "<ul><li>a</li><li>b</li></ul>" .HTML).SetQuery
            "//ul/li").SetVarType .LengthVariable) ∧
    Value.slice [] ≠ Value.slice [.string "a", .string "b"] :=
  ⟨rfl, rfl, rfl, by simp⟩

/-- Witness for C5, amended: `//ul` over `<ul><li>a</li><li>b</li></ul>` resolves to the
node 4; the string extracted for it, `<li>a</li><li>b</li>`, parses to a tree in which `//ul`
matches nothing, and the list is empty. -/
theorem html_length_single_match_witness :
    (((NewHTMLExtractor sampleEnv.html "<ul><li>a</li><li>b</li></ul>" .HTML).SetQuery
        "//ul").SetVarType .LengthVariable).Extract sampleEnv
      = .ret ((.slice [], none),
          ((NewHTMLExtractor sampleEnv.html "<ul><li>a</li><li>b</li></ul>" .HTML).SetQuery
            "//ul").SetVarType .LengthVariable) :=
  html_length_single_match sampleEnv "<ul><li>a</li><li>b</li></ul>" "//ul" sampleListDoc 0 4
    sampleItemsDoc 0 [] rfl rfl (by decide) (by decide) rfl rfl (by decide) (by decide)

/-- Counterexample to C5 as stated: `//ul` over `<ul><li>a</li><li>b</li></ul>` resolves to
exactly one element, the node 4, whose children contribute `["a", "b"]`; but the string
extracted for it is `<li>a</li><li>b</li>` and extraction with `LengthVariable` yields the
empty list. -/
theorem html_length_single_match_reparsed :
    sampleEnv.html.queryAll ⟨sampleListDoc, 0⟩ "//ul" = ([4], none) ∧
    (sampleListDoc.children 4).flatMap (htmlChildTexts sampleListDoc)
      = [.string "a", .string "b"] ∧
    ((NewHTMLExtractor sampleEnv.html "<ul><li>a</li><li>b</li></ul>" .HTML).SetQuery
        "//ul").ExtractStr = .ret ("<li>a</li><li>b</li>", none) ∧
    (((NewHTMLExtractor sampleEnv.html "<ul><li>a</li><li>b</li></ul>" .HTML).SetQuery
        "//ul").SetVarType .LengthVariable).Extract sampleEnv
      = .ret ((.slice [], none),
          ((NewHTMLExtractor sampleEnv.html "<ul><li>a</li><li>b</li></ul>" .HTML).SetQuery
            "//ul").SetVarType .LengthVariable) ∧
    Value.slice [] ≠ Value.slice [.string "a", .string "b"] :=
  ⟨rfl, rfl, rfl, rfl, by simp⟩

/-! ## C6 and C7: the serialization policy -/

/-- C6: on an HTML node and on an XML node alike, the serialization policy returns the
flattened inner text exactly when the node's kind is one of document, text, comment,
declaration, char-data, attribute, error, doctype, or the node has no children, or its only
child is a text node; in every other case it returns the re-serialization
(`OutputHTML(n, false)`, `OutputXML(true)`).  The choice is stated for arbitrary
serializers, so it does not depend on what the two serializers write. -/
theorem inner_flattens_iff :
    (∀ (β : Type) (innerText : HRef → β) (outputHTML : HRef → Bool → β) (n : HRef),
      htmlInnerWith innerText outputHTML n
        = if htmlFlattens n then innerText n else outputHTML n false) ∧
    (∀ (β : Type) (innerText : XNode → β) (outputXML : XNode → Bool → β) (n : XNode),
      xmlInnerWith innerText outputXML n
        = if xmlFlattens n then innerText n else outputXML n true) ∧
    (∀ (L : HtmlLib) (document : String) (docType : DocType) (n : HRef),
      (NewHTMLExtractor L document docType).Inner n
        = if htmlFlattens n then hqInnerText n else hqOutputHTML L.render n false) ∧
    (∀ (L : XmlLib) (document : String) (docType : DocType) (n : XNode),
      (NewXMLExtractor L document docType).Inner n
        = .ret (if xmlFlattens n then L.innerText n else L.outputXML n true)) := by
  have hH : ∀ (β : Type) (innerText : HRef → β) (outputHTML : HRef → Bool → β) (n : HRef),
      htmlInnerWith innerText outputHTML n
        = if htmlFlattens n then innerText n else outputHTML n false := by
    intro β it out n
    unfold htmlInnerWith htmlFlattens
    cases ht : (n.heap.node n.addr).NodeType <;>
      cases hc : (n.heap.node n.addr).FirstChild <;>
        simp [HNodeType.kind, flattenedKinds]
  have hX : ∀ (β : Type) (innerText : XNode → β) (outputXML : XNode → Bool → β) (n : XNode),
      xmlInnerWith innerText outputXML n
        = if xmlFlattens n then innerText n else outputXML n true := by
    intro β it out n
    unfold xmlInnerWith xmlFlattens
    cases ht : n.NodeType <;>
      rcases hc : n.children with _ | ⟨c, _ | ⟨d, r⟩⟩ <;>
        simp [XNodeType.kind, flattenedKinds]
  refine ⟨hH, hX, ?_, ?_⟩
  · intro L document docType n
    exact hH _ _ _ n
  · intro L document docType n
    simp only [NewXMLExtractor]
    rw [hX]

/-- C7: on a JSON node the serialization policy returns the inner text of a document or
text node; otherwise the decoded value re-encoded by `json.Marshal` when it is a list or a
mapping, and the inner text when it is not.  The node for the field `x` of
`\x7b"x":\x7b"a":1\x7d\x7d`, whose decoded value is `\x7b"a":1\x7d`, yields exactly that text. -/
theorem json_inner_policy :
    (∀ (L : JsonLib) (document : String) (docType : DocType) (n : JNode),
      (NewJSONExtractor L document docType).Inner n
        = .ret (if n.NodeType = .DocumentNode ∨ n.NodeType = .TextNode then L.innerText n
                else if n.Value.isComposite then (L.marshal n.Value).1
                else L.innerText n)) ∧
    sampleJsonField.Value = .object [("a", .number (.finite 1 0))] ∧
    ((NewJSONExtractor sampleJsonLib "\x7b\"x\":\x7b\"a\":1\x7d\x7d" .JSON).SetQuery
        "//x").ExtractStr = .ret ("\x7b\"a\":1\x7d", none) := by
  refine ⟨?_, rfl, rfl⟩
  intro L document docType n
  simp only [NewJSONExtractor, jsonInnerWith]
  cases ht : n.NodeType <;> cases hv : n.Value <;> simp [JValue.isComposite]

/-! ## C8, C9 and C10: type coercion -/

/-- C8: for each of the target types Int, Float, Bool, Time, Duration and LengthVariable,
when the string extraction returns an error `e`, `Extract` returns exactly `e` (next to the
zero value of the target type), whatever the coercion and parsing functions of the
environment are: none of them is consulted. -/
theorem extract_propagates_extraction_error {σ : Type} (E : Env) (R : Receiver σ) (x x1 : σ)
    (s : String) (e : GoError)
    (hvt : (R.base x).VarType ∈
      [VarType.Int, VarType.Float, VarType.Bool, VarType.Time, VarType.Duration,
       VarType.LengthVariable])
    (hstr : R.ExtractStrFn x = .ret ((s, some e), x1)) :
    BaseExtractor.Extract E R x = .ret ((zeroValue (R.base x).VarType, some e), x1) := by
  simp only [List.mem_cons, List.mem_singleton, List.not_mem_nil, or_false] at hvt
  rcases hvt with h | h | h | h | h | h <;>
    simp [BaseExtractor.Extract, h, BaseExtractor.ExtractInt, BaseExtractor.ExtractFloat,
      BaseExtractor.ExtractBool, BaseExtractor.ExtractTime, BaseExtractor.ExtractDuration,
      BaseExtractor.ExtractLengthVariable, hstr, zeroValue]

/-- Witness for C8: the pattern `(a*)(b)` matches nowhere in `zzz`; with the target type Int
`Extract` returns the error of `MatchStr`. -/
theorem extract_propagates_extraction_error_witness :
    ((RegexExtractor.SetQuery (NewRegexExtractor "zzz" .TEXT) "(a*)(b)").SetVarType
        .Int).Extract sampleEnv
      = .ret ((.int 0, some (.errorf "no match found for - (a*)(b)")),
          (RegexExtractor.SetQuery (NewRegexExtractor "zzz" .TEXT) "(a*)(b)").SetVarType .Int) :=
  extract_propagates_extraction_error sampleEnv (RegexExtractor.receiver sampleEnv)
    ((RegexExtractor.SetQuery (NewRegexExtractor "zzz" .TEXT) "(a*)(b)").SetVarType .Int)
    ((RegexExtractor.SetQuery (NewRegexExtractor "zzz" .TEXT) "(a*)(b)").SetVarType .Int)
    "" (.errorf "no match found for - (a*)(b)") (by decide) rfl

/-- The loop of `tryParseTime` over any list of formats: the first format that parses the
string wins, and the loop fails when none does. -/
theorem tryParseTimeLoop_eq
    (parse : String → String → Location → Time × Option GoError) (str : String)
    (formats : List String) :
    tryParseTimeLoop parse str formats
      = match formats.find? (fun l => (parse l str .Local).2.isNone) with
        | some l => ((parse l str .Local).1, none)
        | none => (Time.zero, some (.errorf ("Cannot parse the time: " ++ str))) := by
  induction formats with
  | nil => rfl
  | cons l rest ih =>
    simp only [tryParseTimeLoop, tryParseExactTime, List.find?_cons]
    rcases hp : parse l str .Local with ⟨t, _ | err⟩
    · simp [hp]
    · simp [hp, ih]

theorem tryParseTimeLoop_fails_iff
    (parse : String → String → Location → Time × Option GoError) (str : String)
    (formats : List String) :
    (tryParseTimeLoop parse str formats).2 ≠ none
      ↔ ∀ l ∈ formats, (parse l str .Local).2 ≠ none := by
  induction formats with
  | nil => simp [tryParseTimeLoop]
  | cons l rest ih =>
    simp only [tryParseTimeLoop, tryParseExactTime, List.mem_cons, forall_eq_or_imp]
    rcases hp : parse l str .Local with ⟨t, _ | err⟩
    · simp
    · simpa using ih

/-- C10: `tryParseTime` tries the 14 layouts of its list in order, each in the local time
zone; it returns the result of the earliest layout that parses the string, and it fails,
with an error carrying the original string, exactly when no layout of the list parses it. -/
theorem tryParseTime_first_layout_wins
    (parse : String → String → Location → Time × Option GoError) (str : String) :
    timeFormats.length = 14 ∧
    tryParseTime parse str
      = (match timeFormats.find? (fun l => (parse l str .Local).2.isNone) with
         | some l => ((parse l str .Local).1, none)
         | none => (Time.zero, some (.errorf ("Cannot parse the time: " ++ str)))) ∧
    ((tryParseTime parse str).2 ≠ none ↔ ∀ l ∈ timeFormats, (parse l str .Local).2 ≠ none) ∧
    ((tryParseTime parse str).2 ≠ none →
      tryParseTime parse str = (Time.zero, some (.errorf ("Cannot parse the time: " ++ str)))) := by
  refine ⟨rfl, tryParseTimeLoop_eq parse str timeFormats,
    tryParseTimeLoop_fails_iff parse str timeFormats, ?_⟩
  intro hfail
  unfold tryParseTime at hfail ⊢
  rw [tryParseTimeLoop_eq] at hfail ⊢
  cases hf : timeFormats.find? (fun l => (parse l str .Local).2.isNone) with
  | none => rfl
  | some l => rw [hf] at hfail; simp at hfail

/-- With the target type Int, `Extract` passes the extracted string to `strconv.Atoi`. -/
theorem extract_int_of_str {σ : Type} (E : Env) (R : Receiver σ) (x x1 : σ) (s : String)
    (hstr : R.ExtractStrFn x = .ret ((s, none), x1)) (hvt : (R.base x).VarType = .Int) :
    BaseExtractor.Extract E R x
      = .ret ((.int (strconvAtoi s).1, (strconvAtoi s).2), x1) := by
  simp [BaseExtractor.Extract, hvt, BaseExtractor.ExtractInt, hstr]

/-- C9: for each of the target types Int, Float, Bool, Time and Duration, when the extracted
string is empty `Extract` returns an error, given that the library parsers reject the empty
string; and a zero-match XML or JSON query with the target type Int fails with the
number-format error of `strconv.Atoi` on the empty string. -/
theorem extract_empty_string_fails {σ : Type} (E : Env) (R : Receiver σ) (x x1 : σ)
    (hvt : (R.base x).VarType ∈
      [VarType.Int, VarType.Float, VarType.Bool, VarType.Time, VarType.Duration])
    (hlib : E.RejectsEmpty)
    (hstr : R.ExtractStrFn x = .ret (("", none), x1)) :
    (∃ v e, BaseExtractor.Extract E R x = .ret ((v, some e), x1)) ∧
    (∀ (document xpath : String) (root : XNode),
      E.xml.parse document = (some root, none) → E.xml.query root xpath = (none, none) →
      (((NewXMLExtractor E.xml document .XML).SetQuery xpath).SetVarType .Int).Extract E
        = .ret ((.int 0, some (.numError "Atoi" "" .invalid)),
            ((NewXMLExtractor E.xml document .XML).SetQuery xpath).SetVarType .Int)) ∧
    (∀ (document xpath : String) (root : JNode),
      E.json.parse document = (some root, none) → E.json.query root xpath = (none, none) →
      (((NewJSONExtractor E.json document .JSON).SetQuery xpath).SetVarType .Int).Extract E
        = .ret ((.int 0, some (.numError "Atoi" "" .invalid)),
            ((NewJSONExtractor E.json document .JSON).SetQuery xpath).SetVarType .Int)) := by
  obtain ⟨hfloat, hdur, htime⟩ := hlib
  refine ⟨?_, ?_, ?_⟩
  · simp only [List.mem_cons, List.mem_singleton, List.not_mem_nil, or_false] at hvt
    rcases hvt with h | h | h | h | h
    · exact ⟨_, _, by
        simp [BaseExtractor.Extract, h, BaseExtractor.ExtractInt, hstr]
        exact ⟨rfl, rfl⟩⟩
    · obtain ⟨e, he⟩ := Option.ne_none_iff_exists'.mp hfloat
      refine ⟨.float (E.ParseFloat "").1, e, ?_⟩
      simp [BaseExtractor.Extract, h, BaseExtractor.ExtractFloat, hstr, he]
    · exact ⟨_, _, by
        simp [BaseExtractor.Extract, h, BaseExtractor.ExtractBool, hstr]
        exact ⟨rfl, rfl⟩⟩
    · have hne := (tryParseTimeLoop_fails_iff E.ParseInLocation "" timeFormats).mpr htime
      obtain ⟨e, he⟩ := Option.ne_none_iff_exists'.mp hne
      refine ⟨.time (tryParseTime E.ParseInLocation "").1, e, ?_⟩
      simp [BaseExtractor.Extract, h, BaseExtractor.ExtractTime, hstr, tryParseTime, he]
    · obtain ⟨e, he⟩ := Option.ne_none_iff_exists'.mp hdur
      refine ⟨.duration (E.ParseDuration "").1, e, ?_⟩
      simp [BaseExtractor.Extract, h, BaseExtractor.ExtractDuration, hstr, he]
  · intro document xpath root hparse hquery
    have hz := xml_zero_match_empty E.xml document xpath .XML root hparse hquery
    have hz2 : (((NewXMLExtractor E.xml document .XML).SetQuery xpath).SetVarType
        .Int).ExtractStr = .ret ("", none) := hz
    exact extract_int_of_str E (XPathExtractor.receiver _) _ _ ""
      (by simp only [XPathExtractor.receiver, hz2]; rfl) rfl
  · intro document xpath root hparse hquery
    have hz := json_zero_match_empty E.json document xpath .JSON root hparse hquery
    have hz2 : (((NewJSONExtractor E.json document .JSON).SetQuery xpath).SetVarType
        .Int).ExtractStr = .ret ("", none) := hz
    exact extract_int_of_str E (XPathExtractor.receiver _) _ _ ""
      (by simp only [XPathExtractor.receiver, hz2]; rfl) rfl

/-- Witness for C9: `//c` matches no node of `<a><b>1</b></a>`; the extracted string is empty
and, with the target type Int, `Extract` fails with the error of `strconv.Atoi`. -/
theorem extract_empty_string_fails_witness :
    sampleEnv.RejectsEmpty ∧
    (∃ v e, (((NewXMLExtractor sampleEnv.xml "<a><b>1</b></a>" .XML).SetQuery "//c").SetVarType
        .Int).Extract sampleEnv
      = .ret ((v, some e),
          ((NewXMLExtractor sampleEnv.xml "<a><b>1</b></a>" .XML).SetQuery "//c").SetVarType
            .Int)) ∧
    (((NewXMLExtractor sampleEnv.xml "<a><b>1</b></a>" .XML).SetQuery "//c").SetVarType
        .Int).Extract sampleEnv
      = .ret ((.int 0, some (.numError "Atoi" "" .invalid)),
          ((NewXMLExtractor sampleEnv.xml "<a><b>1</b></a>" .XML).SetQuery "//c").SetVarType
            .Int) :=
  ⟨by decide,
   (extract_empty_string_fails sampleEnv (XPathExtractor.receiver XNode)
      (((NewXMLExtractor sampleEnv.xml "<a><b>1</b></a>" .XML).SetQuery "//c").SetVarType .Int)
      (((NewXMLExtractor sampleEnv.xml "<a><b>1</b></a>" .XML).SetQuery "//c").SetVarType .Int)
      (by decide) (by decide) rfl).1,
   (extract_empty_string_fails sampleEnv (XPathExtractor.receiver XNode)
      (((NewXMLExtractor sampleEnv.xml "<a><b>1</b></a>" .XML).SetQuery "//c").SetVarType .Int)
      (((NewXMLExtractor sampleEnv.xml "<a><b>1</b></a>" .XML).SetQuery "//c").SetVarType .Int)
      (by decide) (by decide) rfl).2.1 "<a><b>1</b></a>" "//c" sampleXmlDoc rfl rfl⟩

/-! ## C11: booleans -/

/-- C11, amended: with the target type Bool the coercion succeeds exactly on the twelve
tokens of `strconv.ParseBool`, `1 t T true TRUE True` giving `true` and
`0 f F false FALSE False` giving `false`; every other extracted string fails with the
bool-format error of `strconv.ParseBool`. -/
theorem extract_bool_tokens {σ : Type} (E : Env) (R : Receiver σ) (x x1 : σ) (s : String)
    (hvt : (R.base x).VarType = .Bool)
    (hstr : R.ExtractStrFn x = .ret ((s, none), x1)) :
    BaseExtractor.Extract E R x
      = .ret ((.bool (decide (s ∈ boolTrueTokens)),
          if s ∈ boolTrueTokens ∨ s ∈ boolFalseTokens then none
          else some (.numError "ParseBool" s .invalid)), x1) := by
  simp only [BaseExtractor.Extract, hvt, BaseExtractor.ExtractBool, hstr, Run.bind_ret,
    strconvParseBool]
  by_cases h1 : s ∈ boolTrueTokens
  · have h1' : s ∈ ["1", "t", "T", "true", "TRUE", "True"] := h1
    simp [h1, h1']
  · have h1' : s ∉ ["1", "t", "T", "true", "TRUE", "True"] := h1
    by_cases h2 : s ∈ boolFalseTokens
    · have h2' : s ∈ ["0", "f", "F", "false", "FALSE", "False"] := h2
      simp [h1, h1', h2, h2']
    · have h2' : s ∉ ["0", "f", "F", "false", "FALSE", "False"] := h2
      simp [h1, h1', h2, h2']

/-- Witness for C11, amended: the token `T` is accepted. -/
theorem extract_bool_tokens_witness :
    BaseExtractor.Extract sampleEnv (stringReceiver "T") (sampleBase .Bool)
      = .ret ((.bool true, none), sampleBase .Bool) :=
  extract_bool_tokens sampleEnv (stringReceiver "T") (sampleBase .Bool) (sampleBase .Bool) "T"
    rfl rfl

/-- Counterexample to C11 as stated: `tRUE` is the word true in some letter case, but the
coercion fails on it; `t` is neither a word true or false nor a digit, but the coercion
succeeds on it. -/
theorem extract_bool_not_case_insensitive :
    canonicalBoolToken "tRUE" = some true ∧
    BaseExtractor.Extract sampleEnv (stringReceiver "tRUE") (sampleBase .Bool)
      = .ret ((.bool false, some (.numError "ParseBool" "tRUE" .invalid)), sampleBase .Bool) ∧
    canonicalBoolToken "t" = none ∧
    BaseExtractor.Extract sampleEnv (stringReceiver "t") (sampleBase .Bool)
      = .ret ((.bool true, none), sampleBase .Bool) :=
  ⟨by decide, rfl, by decide, rfl⟩

/-! ## C12 to C15: the regular-expression extractor -/

theorem matchLoop_no_group (m : List String) (r : RegexExtractor) (n0 s : String)
    (hm : m[0]? = some s) :
    matchLoop m r 0 [n0] = .ret ((s, none), r) := by
  simp [matchLoop, hm]

/-- Whatever the loop of `MatchStr` returns, the extractor differs from the one before the
call in `Name` at most. -/
theorem matchLoop_frame (m : List String) (r : RegexExtractor) (names : List String) :
    ∀ (i : Nat) (v : String × Option GoError) (r1 : RegexExtractor),
      matchLoop m r i names = .ret (v, r1) → ∃ name, r1 = { r with Name := name } := by
  induction names with
  | nil =>
    intro i v r1 hret
    simp only [matchLoop] at hret
    cases h0 : m[0]? with
    | none => simp [h0] at hret
    | some s =>
      simp only [h0, Run.ret.injEq, Prod.mk.injEq] at hret
      exact ⟨r.Name, hret.2 ▸ rfl⟩
  | cons name rest ih =>
    intro i v r1 hret
    simp only [matchLoop] at hret
    by_cases hi : 0 < i ∧ i ≤ m.length
    · simp only [hi, and_self, if_true] at hret
      cases h1 : m[i]? with
      | none => simp [h1] at hret
      | some s =>
        simp only [h1, Run.ret.injEq, Prod.mk.injEq] at hret
        by_cases hg : 0 < name.length
        · simp only [hg, if_true] at hret
          exact ⟨name, hret.2 ▸ rfl⟩
        · simp only [hg, if_false] at hret
          exact ⟨r.Name, hret.2 ▸ rfl⟩
    · simp only [hi, if_false] at hret
      exact ih (i + 1) v r1 hret

/-- C12: for a pattern whose first capturing group is named `g` and a document it matches,
`MatchStr` returns the text of that group and sets `Name` to `g`; when the match fails, or
the pattern has no capturing group, or the first group is unnamed, the extractor is left as
it was; in every case the extractor after the call differs from the one before in `Name` at
most. -/
theorem matchStr_name_override (compile : String → Option Regexp) (r : RegexExtractor)
    (re : Regexp) (hcompile : compile r.Regex = some re) :
    (re.FindStringSubmatch r.Document = none →
      r.MatchStr compile
        = .ret (("", some (.errorf ("no match found for - " ++ r.Regex))), r)) ∧
    (∀ m n0 s, re.FindStringSubmatch r.Document = some m → re.SubexpNames = [n0] →
      m[0]? = some s → r.MatchStr compile = .ret ((s, none), r)) ∧
    (∀ m n0 g rest s, re.FindStringSubmatch r.Document = some m →
      re.SubexpNames = n0 :: g :: rest → m[1]? = some s →
      (0 < g.length → r.MatchStr compile = .ret ((s, none), { r with Name := g })) ∧
      (g.length = 0 → r.MatchStr compile = .ret ((s, none), r))) ∧
    (∀ v r1, r.MatchStr compile = .ret (v, r1) → ∃ name, r1 = { r with Name := name }) := by
  refine ⟨?_, ?_, ?_, ?_⟩
  · intro hnone
    simp [RegexExtractor.MatchStr, hcompile, hnone]
  · intro m n0 s hm hn h0
    simp [RegexExtractor.MatchStr, hcompile, hm, hn, matchLoop_no_group m r n0 s h0]
  · intro m n0 g rest s hm hn h1
    have := matchLoop_first_group m r n0 g rest s h1
    refine ⟨fun hg => ?_, fun hg => ?_⟩
    · simp [RegexExtractor.MatchStr, hcompile, hm, hn, this, hg]
    · simp [RegexExtractor.MatchStr, hcompile, hm, hn, this, hg]
  · intro v r1 hret
    simp only [RegexExtractor.MatchStr, hcompile] at hret
    cases hm : re.FindStringSubmatch r.Document with
    | none =>
      simp only [hm, Run.ret.injEq, Prod.mk.injEq] at hret
      exact ⟨r.Name, hret.2 ▸ rfl⟩
    | some m =>
      simp only [hm] at hret
      exact matchLoop_frame m r re.SubexpNames 0 v r1 hret

/-- Witness for C12: the pattern `(?P<code>\d+)` on `status=42` yields `42` and renames the
variable to `code`. -/
theorem matchStr_name_override_witness :
    (RegexExtractor.SetQuery (NewRegexExtractor "status=42" .TEXT) "(?P<code>\\d+)").MatchStr
        sampleCompile
      = .ret (("42", none),
          { RegexExtractor.SetQuery (NewRegexExtractor "status=42" .TEXT) "(?P<code>\\d+)"
            with Name := "code" }) :=
  ((matchStr_name_override sampleCompile
      (RegexExtractor.SetQuery (NewRegexExtractor "status=42" .TEXT) "(?P<code>\\d+)")
      { SubexpNames := ["", "code"]
        FindStringSubmatch := fun doc =>
          if doc = "status=42" then some ["42", "42"] else none }
      rfl).2.2.1 ["42", "42"] "" "code" [] "42" rfl rfl rfl).1 (by decide)

/-- C13: for a pattern that compiles, `MatchStr` returns an error exactly when the pattern
matches nowhere in the document, and the error then names the pattern; otherwise the value
it returns is an entry of the submatches of the first match, group 1 when the pattern has a
capturing group and the whole match when it has none. -/
theorem matchStr_fails_iff_no_match (compile : String → Option Regexp) (r : RegexExtractor)
    (re : Regexp) (hcompile : compile r.Regex = some re)
    (hnames : re.SubexpNames ≠ [])
    (hlen : ∀ m, re.FindStringSubmatch r.Document = some m →
      m.length = re.SubexpNames.length) :
    ((∃ v e r1, r.MatchStr compile = .ret ((v, some e), r1))
      ↔ re.FindStringSubmatch r.Document = none) ∧
    (re.FindStringSubmatch r.Document = none →
      r.MatchStr compile
        = .ret (("", some (.errorf ("no match found for - " ++ r.Regex))), r)) ∧
    (∀ m, re.FindStringSubmatch r.Document = some m →
      ∃ s r1, r.MatchStr compile = .ret ((s, none), r1) ∧
        m[if 2 ≤ re.SubexpNames.length then 1 else 0]? = some s) := by
  have hsome : ∀ m, re.FindStringSubmatch r.Document = some m →
      ∃ s r1, r.MatchStr compile = .ret ((s, none), r1) ∧
        m[if 2 ≤ re.SubexpNames.length then 1 else 0]? = some s := by
    intro m hm
    have hl := hlen m hm
    rcases hn : re.SubexpNames with _ | ⟨n0, _ | ⟨g, rest⟩⟩
    · exact absurd hn hnames
    · rw [hn] at hl
      obtain ⟨s, hs⟩ : ∃ s, m[0]? = some s := by
        cases m with
        | nil => simp at hl
        | cons a t => exact ⟨a, by simp⟩
      refine ⟨s, r, ?_, by simpa using hs⟩
      simp [RegexExtractor.MatchStr, hcompile, hm, hn, matchLoop_no_group m r n0 s hs]
    · rw [hn] at hl
      obtain ⟨s, hs⟩ : ∃ s, m[1]? = some s := by
        rcases m with _ | ⟨a, _ | ⟨b, t⟩⟩
        · simp at hl
        · simp at hl
        · exact ⟨b, by simp⟩
      refine ⟨s, if 0 < g.length then { r with Name := g } else r, ?_, by simpa using hs⟩
      simp only [RegexExtractor.MatchStr, hcompile, hm, hn]
      exact matchLoop_first_group m r n0 g rest s hs
  have hnone : re.FindStringSubmatch r.Document = none →
      r.MatchStr compile
        = .ret (("", some (.errorf ("no match found for - " ++ r.Regex))), r) := by
    intro h
    simp [RegexExtractor.MatchStr, hcompile, h]
  refine ⟨⟨?_, fun h => ⟨_, _, _, hnone h⟩⟩, hnone, hsome⟩
  rintro ⟨v, e, r1, hret⟩
  cases hm : re.FindStringSubmatch r.Document with
  | none => rfl
  | some m =>
    obtain ⟨s, r2, h2, _⟩ := hsome m hm
    rw [h2] at hret
    simp at hret

/-- Witness for C13: the pattern `(a*)(b)` matches nowhere in `zzz`. -/
theorem matchStr_fails_iff_no_match_witness :
    (RegexExtractor.SetQuery (NewRegexExtractor "zzz" .TEXT) "(a*)(b)").MatchStr sampleCompile
      = .ret (("", some (.errorf "no match found for - (a*)(b)")),
          RegexExtractor.SetQuery (NewRegexExtractor "zzz" .TEXT) "(a*)(b)") :=
  (matchStr_fails_iff_no_match sampleCompile
      (RegexExtractor.SetQuery (NewRegexExtractor "zzz" .TEXT) "(a*)(b)")
      { SubexpNames := ["", "", ""]
        FindStringSubmatch := fun doc => if doc = "b" then some ["b", "", "b"] else none }
      rfl (by decide) (by intro m hm; simp at hm; rw [← hm.2]; rfl)).2.1 rfl

/-- C14: for a pattern without capturing groups and a document it matches, `MatchStr`
returns the entire text of the first match, and leaves the extractor as it was. -/
theorem matchStr_whole_match (compile : String → Option Regexp) (r : RegexExtractor)
    (re : Regexp) (m : List String) (s : String)
    (hcompile : compile r.Regex = some re)
    (hgroups : re.SubexpNames.length = 1)
    (hmatch : re.FindStringSubmatch r.Document = some m)
    (hwhole : m[0]? = some s) :
    r.MatchStr compile = .ret ((s, none), r) := by
  rcases hn : re.SubexpNames with _ | ⟨n0, _ | ⟨g, rest⟩⟩
  · rw [hn] at hgroups; simp at hgroups
  · simp [RegexExtractor.MatchStr, hcompile, hmatch, hn, matchLoop_no_group m r n0 s hwhole]
  · rw [hn] at hgroups; simp at hgroups

/-- Witness for C14: the pattern `\d+` on `status=42 code=7` yields `42`, the first match. -/
theorem matchStr_whole_match_witness :
    (RegexExtractor.SetQuery (NewRegexExtractor "status=42 code=7" .TEXT) "\\d+").MatchStr
        sampleCompilePlain
      = .ret (("42", none),
          RegexExtractor.SetQuery (NewRegexExtractor "status=42 code=7" .TEXT) "\\d+") :=
  matchStr_whole_match sampleCompilePlain
    (RegexExtractor.SetQuery (NewRegexExtractor "status=42 code=7" .TEXT) "\\d+")
    { SubexpNames := [""]
      FindStringSubmatch := fun doc => if doc = "status=42 code=7" then some ["42"] else none }
    ["42"] "42" rfl rfl rfl rfl

/-- C15, amended: `NewRegexExtractor` and `SetQuery` store the pattern without compiling
it, so an invalid pattern is accepted when the extractor is constructed and configured; the
pattern is compiled by `regexp.MustCompile` in every call of `MatchStr`, which panics on an
invalid pattern, and so does `Extract` for every target type it knows. -/
theorem invalid_pattern_panics_per_call (E : Env) (document q : String) (docType : DocType)
    (vt : VarType) (hvt : vt ∈ knownVarTypes) (hinvalid : E.regexpCompile q = none) :
    ((NewRegexExtractor document docType).SetQuery q).Regex = q ∧
    ((NewRegexExtractor document docType).SetQuery q).MatchStr E.regexpCompile
      = .panic (.mustCompile q) ∧
    (((NewRegexExtractor document docType).SetQuery q).SetVarType vt).Extract E
      = .panic (.mustCompile q) := by
  have hm : ∀ r : RegexExtractor, r.Regex = q →
      r.MatchStr E.regexpCompile = .panic (.mustCompile q) := by
    intro r hr
    simp [RegexExtractor.MatchStr, hr, hinvalid]
  refine ⟨rfl, hm _ rfl, ?_⟩
  have hx := hm (((NewRegexExtractor document docType).SetQuery q).SetVarType vt) rfl
  simp only [knownVarTypes, List.mem_cons, List.mem_singleton, List.not_mem_nil,
    or_false] at hvt
  rcases hvt with h | h | h | h | h | h | h <;> subst h <;>
    simp [RegexExtractor.Extract, BaseExtractor.Extract, RegexExtractor.receiver,
      RegexExtractor.SetVarType, RegexExtractor.SetQuery, NewRegexExtractor,
      BaseExtractor.ExtractInt, BaseExtractor.ExtractFloat, BaseExtractor.ExtractBool,
      BaseExtractor.ExtractTime, BaseExtractor.ExtractDuration,
      BaseExtractor.ExtractLengthVariable, RegexExtractor.MatchStr, hinvalid]

/-- Witness for C15, amended: the pattern `(` does not compile. -/
theorem invalid_pattern_panics_per_call_witness :
    ((NewRegexExtractor "status=42" .TEXT).SetQuery "(").Regex = "(" ∧
    ((NewRegexExtractor "status=42" .TEXT).SetQuery "(").MatchStr sampleEnv.regexpCompile
      = .panic (.mustCompile "(") ∧
    (((NewRegexExtractor "status=42" .TEXT).SetQuery "(").SetVarType .String).Extract sampleEnv
      = .panic (.mustCompile "(") :=
  invalid_pattern_panics_per_call sampleEnv "status=42" "(" .TEXT .String (by decide) rfl

/-- Counterexample to C15 as stated: the invalid pattern `(` is accepted by
`NewRegexExtractor` and `SetQuery`, which return an extractor holding it, and the
extractor so constructed aborts in `MatchStr` and in `Extract` because of the pattern. -/
theorem invalid_pattern_accepted_at_construction :
    sampleCompile "(" = none ∧
    (NewRegexExtractor "status=42" .TEXT).SetQuery "("
      = { Name := "", VarType := .String, Document := "status=42", DocType := .TEXT,
          XPath := "", Regex := "(" } ∧
    ((NewRegexExtractor "status=42" .TEXT).SetQuery "(").MatchStr sampleCompile
      = .panic (.mustCompile "(") ∧
    ((NewRegexExtractor "status=42" .TEXT).SetQuery "(").Extract sampleEnv
      = .panic (.mustCompile "(") :=
  ⟨rfl, rfl, rfl, rfl⟩

/-! ## C19: the synthetic root of several matches -/

theorem length_le_of_nodup_lt (l : List Nat) (N : Nat) (hnd : l.Nodup)
    (hlt : ∀ n ∈ l, n < N) : l.length ≤ N := by
  have h1 : l.toFinset.card = l.length := List.toFinset_card_of_nodup hnd
  have h2 : l.toFinset ⊆ Finset.range N := by
    intro x hx
    simp only [List.mem_toFinset] at hx
    simpa using hlt x hx
  have h3 := Finset.card_le_card h2
  rw [h1, Finset.card_range] at h3
  exact h3

/-- The child chain of the synthetic root is the list of matches. -/
theorem relink_chain (h : HHeap) (n0 : Nat) (rest : List Nat)
    (hnd : (n0 :: rest).Nodup) (hlt : ∀ n ∈ n0 :: rest, n < h.size) :
    siblingsGo (relink h n0 rest) (relink h n0 rest).fuel
      ((relink h n0 rest).node h.size).FirstChild = some (n0 :: rest) := by
  rw [relink_root h n0 rest hlt]
  apply siblingsGo_of_succIn _ _ _ _ hnd
  · intro a ha
    rw [relink_nextSibling h n0 rest a (hlt a ha) hnd, if_pos ha]
  · have := length_le_of_nodup_lt _ _ hnd hlt
    simp only [HHeap.fuel, relink_size]; omega

/-- C19: when an HTML query matches two or more distinct nodes, the query step returns a
new element node whose child sequence (`FirstChild`, then the `NextSibling` links until
nil) is exactly the matched nodes in match order, with `LastChild` the last matched node;
when it matches exactly one node, that node is returned in the unchanged tree. -/
theorem html_query_synthetic_root (queryAll : HRef → String → List Nat × Option GoError)
    (h : HHeap) (root : Nat) (xpath : String) (n0 n1 : Nat) (rest : List Nat)
    (hquery : queryAll ⟨h, root⟩ xpath = (n0 :: n1 :: rest, none))
    (hdistinct : (n0 :: n1 :: rest).Nodup)
    (hlt : ∀ n ∈ n0 :: n1 :: rest, n < h.size) :
    (htmlQuery queryAll (some ⟨h, root⟩) xpath
      = .ret (some ⟨relink h n0 (n1 :: rest), h.size⟩, none) ∧
     ((relink h n0 (n1 :: rest)).node h.size).NodeType = .ElementNode ∧
     siblingsGo (relink h n0 (n1 :: rest)) (relink h n0 (n1 :: rest)).fuel
        ((relink h n0 (n1 :: rest)).node h.size).FirstChild = some (n0 :: n1 :: rest) ∧
     ((relink h n0 (n1 :: rest)).node h.size).LastChild = (n0 :: n1 :: rest).getLast?) ∧
    (∀ (xpath1 : String) (n : Nat), queryAll ⟨h, root⟩ xpath1 = ([n], none) →
      htmlQuery queryAll (some ⟨h, root⟩) xpath1 = .ret (some ⟨h, n⟩, none)) := by
  have hroot := relink_root h n0 (n1 :: rest) hlt
  refine ⟨⟨?_, ?_, relink_chain h n0 (n1 :: rest) hdistinct hlt, ?_⟩, ?_⟩
  · simp [htmlQuery, hquery]
  · rw [hroot]
  · rw [hroot]
  · intro xpath1 n hq
    simp [htmlQuery, hq]

/-- Witness for C19: `//li` over `<ul><li>a</li><li>b</li></ul>` matches the nodes 5 and 7;
the new root is stored at the address 9. -/
theorem html_query_synthetic_root_witness :
    htmlQuery sampleQueryAll (some ⟨sampleListDoc, 0⟩) "//li"
      = .ret (some ⟨relink sampleListDoc 5 [7], 9⟩, none) ∧
    siblingsGo (relink sampleListDoc 5 [7]) (relink sampleListDoc 5 [7]).fuel
        ((relink sampleListDoc 5 [7]).node 9).FirstChild = some [5, 7] ∧
    ((relink sampleListDoc 5 [7]).node 9).LastChild = some 7 :=
  ⟨(html_query_synthetic_root sampleQueryAll sampleListDoc 0 "//li" 5 7 [] rfl (by decide)
      (by decide)).1.1,
   (html_query_synthetic_root sampleQueryAll sampleListDoc 0 "//li" 5 7 [] rfl (by decide)
      (by decide)).1.2.2.1,
   (html_query_synthetic_root sampleQueryAll sampleListDoc 0 "//li" 5 7 [] rfl (by decide)
      (by decide)).1.2.2.2⟩

/-! ## C18: composite nodes -/

/-- In a parsed tree the list of children starts with `FirstChild`, and has a second entry
exactly when the first child has a next sibling. -/
theorem children_shape (h : HHeap) (hwf : h.Forward) (a : Nat) (ha : a < h.size) :
    ((h.node a).FirstChild = none → h.children a = []) ∧
    (∀ c, (h.node a).FirstChild = some c →
      ((h.node c).NextSibling = none → h.children a = [c]) ∧
      ((h.node c).NextSibling ≠ none → ∃ d l, h.children a = c :: d :: l)) := by
  have hc := (childNodes_eq h hwf a ha).1
  unfold HHeap.childNodes at hc
  have hsib : siblingsGo h h.fuel (h.node a).FirstChild = some (h.children a) := by
    cases hcs : siblingsGo h h.fuel (h.node a).FirstChild with
    | none => simp [hcs] at hc
    | some l => simp [HHeap.children, hcs]
  refine ⟨fun hnone => ?_, fun c hfc => ?_⟩
  · rw [hnone, siblingsGo_none] at hsib
    exact (Option.some.inj hsib).symm
  · rw [hfc, HHeap.fuel_eq] at hsib
    simp only [siblingsGo, Option.map_eq_some'] at hsib
    obtain ⟨l, hl, hcl⟩ := hsib
    refine ⟨fun hnx => ?_, fun hnx => ?_⟩
    · rw [hnx, siblingsGo_none] at hl
      rw [← hcl, ← Option.some.inj hl]
    · obtain ⟨d, hd⟩ := Option.ne_none_iff_exists'.mp hnx
      rw [hd] at hl
      have h2 : 2 * h.size + 1 = (2 * h.size) + 1 := rfl
      rw [h2] at hl
      simp only [siblingsGo, Option.map_eq_some'] at hl
      obtain ⟨l2, _, hl2⟩ := hl
      exact ⟨d, l2, by rw [← hcl, ← hl2]⟩

/-- On a node of a parsed tree `OutputHTML(n, false)` returns the rendered children. -/
theorem hqOutputHTML_children (L : RenderLib) (h : HHeap) (hwf : h.Forward) (a : Nat)
    (ha : a < h.size) :
    hqOutputHTML L ⟨h, a⟩ false
      = .ret (concatStrings ((h.children a).map (renderedText L h))) := by
  simp only [hqOutputHTML, Bool.false_eq_true, if_false]
  obtain ⟨hc, hlt⟩ := childNodes_eq h hwf a ha
  have hsib : siblingsGo h h.fuel (h.node a).FirstChild = some (h.children a) := by
    unfold HHeap.childNodes at hc
    cases hcs : siblingsGo h h.fuel (h.node a).FirstChild with
    | none => simp [hcs] at hc
    | some l => simp [HHeap.children, hcs]
  refine outputLoop_of_siblings L h _ _ _ hsib ?_
  intro n hn
  exact (renderGo_terminates L h h.size hwf (h.size - n) n (hlt n hn) (Nat.le_refl _)).1 _
    (by simp only [HHeap.fuel]; omega)

/-- C18, amended: for a composite element node of an XML tree the serialization policy
returns `OutputXML(true)`, the serialization of the whole subtree with the node's own tags;
for a composite element node of a parsed HTML tree it returns `OutputHTML(n, false)`, the
concatenation of what `html.Render` writes for each child of the node, in order, without
the node's own start and end tags. -/
theorem composite_node_serialization :
    (∀ (L : XmlLib) (document : String) (docType : DocType) (n : XNode),
      xmlComposite n = true →
      (NewXMLExtractor L document docType).Inner n = .ret (L.outputXML n true)) ∧
    (∀ (L : HtmlLib) (document : String) (docType : DocType) (h : HHeap) (a : Nat),
      h.Forward → a < h.size → htmlComposite ⟨h, a⟩ = true →
      (NewHTMLExtractor L document docType).Inner ⟨h, a⟩ = hqOutputHTML L.render ⟨h, a⟩ false ∧
      hqOutputHTML L.render ⟨h, a⟩ false
        = .ret (concatStrings ((h.children a).map (renderedText L.render h)))) := by
  refine ⟨?_, ?_⟩
  · intro L document docType n hcomp
    simp only [xmlComposite, Bool.and_eq_true, Bool.or_eq_true, decide_eq_true_eq,
      List.any_eq_true] at hcomp
    obtain ⟨hel, hch⟩ := hcomp
    simp only [NewXMLExtractor, xmlInnerWith, hel]
    rcases hcs : n.children with _ | ⟨c, _ | ⟨d, r⟩⟩
    · rw [hcs] at hch; simp at hch
    · rw [hcs] at hch
      have hce : c.NodeType = .ElementNode := by simpa using hch
      simp [hce]
    · simp
  · intro L document docType h a hwf ha hcomp
    refine ⟨?_, hqOutputHTML_children L.render h hwf a ha⟩
    simp only [htmlComposite, Bool.and_eq_true, Bool.or_eq_true, decide_eq_true_eq,
      List.any_eq_true] at hcomp
    obtain ⟨hel, hch⟩ := hcomp
    obtain ⟨hnone, hsome⟩ := children_shape h hwf a ha
    simp only [NewHTMLExtractor, htmlInnerWith, hel]
    cases hfc : (h.node a).FirstChild with
    | none =>
      rw [hnone hfc] at hch; simp at hch
    | some c =>
      by_cases hnx : (h.node c).NextSibling = none
      · rw [(hsome c hfc).1 hnx] at hch
        have hce : (h.node c).NodeType = .ElementNode := by simpa using hch
        simp [hce]
      · simp [hnx]

/-- Counterexample to C18 as stated: the `ul` element of `<ul><li>a</li><li>b</li></ul>`
(the node 4) is composite; its subtree with its own tags renders as
`<ul><li>a</li><li>b</li></ul>`, but the serialization policy returns
`<li>a</li><li>b</li>`. -/
theorem html_composite_without_own_tags :
    htmlComposite ⟨sampleListDoc, 4⟩ = true ∧
    htmlRender sampleHtmlLib.render sampleListDoc 4 = .ret "<ul><li>a</li><li>b</li></ul>" ∧
    (NewHTMLExtractor sampleHtmlLib "<ul><li>a</li><li>b</li></ul>" .HTML).Inner
        ⟨sampleListDoc, 4⟩ = .ret "<li>a</li><li>b</li>" ∧
    (NewHTMLExtractor sampleHtmlLib "<ul><li>a</li><li>b</li></ul>" .HTML).Inner
        ⟨sampleListDoc, 4⟩ ≠ htmlRender sampleHtmlLib.render sampleListDoc 4 :=
  ⟨rfl, rfl, rfl, by decide⟩

/-! ## C20: the list extraction on XML -/

/-- C20 (where the claim fails): with the document type XML, when the string extraction
succeeds, its text parses as XML but the path expression selects no node in that text,
`ExtractLengthVariable` dereferences the nil node that `SelectElement` returned and panics;
when a node is selected, the list holds, for each child in order, the serialized XML of each
of its children if it is an element and its text if it is a text node. -/
theorem xml_length_no_node_panics {σ : Type} (E : Env) (R : Receiver σ) (x x1 : σ)
    (s : String) (root : XNode)
    (hstr : R.ExtractStrFn x = .ret ((s, none), x1))
    (hdoc : (R.base x1).DocType = .XML)
    (hparse : E.xml.parse s = (some root, none)) :
    (E.xml.selectElement root (R.base x1).XPath = .ret none →
      BaseExtractor.ExtractLengthVariable E R x = .panic .nilDereference) ∧
    (∀ node, E.xml.selectElement root (R.base x1).XPath = .ret (some node) →
      BaseExtractor.ExtractLengthVariable E R x
        = .ret ((.slice (xmlLengthValues E.xml node.children), none), x1)) := by
  refine ⟨fun hsel => ?_, fun node hsel => ?_⟩
  · simp [BaseExtractor.ExtractLengthVariable, hstr, hdoc, hparse, hsel]
  · simp [BaseExtractor.ExtractLengthVariable, hstr, hdoc, hparse, hsel]

/-- Witness for C20: `/a/b` over `<a><b><c>1</c><c>2</c></b></a>` selects the element `b`,
the extracted string is `<b><c>1</c><c>2</c></b>`, in which `/a/b` selects no node, and the
extraction with `LengthVariable` panics. -/
theorem xml_length_no_node_panics_witness :
    ((NewXMLExtractor samplePathEnv.xml "<a><b><c>1</c><c>2</c></b></a>" .XML).SetQuery
        "/a/b").ExtractStr = .ret ("<b><c>1</c><c>2</c></b>", none) ∧
    samplePathEnv.xml.parse "<b><c>1</c><c>2</c></b>" = (some sampleInnerXml, none) ∧
    samplePathEnv.xml.selectElement sampleInnerXml "/a/b" = .ret none ∧
    (((NewXMLExtractor samplePathEnv.xml "<a><b><c>1</c><c>2</c></b></a>" .XML).SetQuery
        "/a/b").SetVarType .LengthVariable).Extract samplePathEnv = .panic .nilDereference :=
  ⟨rfl, rfl, rfl,
   (xml_length_no_node_panics samplePathEnv (XPathExtractor.receiver XNode)
      (((NewXMLExtractor samplePathEnv.xml "<a><b><c>1</c><c>2</c></b></a>" .XML).SetQuery
        "/a/b").SetVarType .LengthVariable)
      (((NewXMLExtractor samplePathEnv.xml "<a><b><c>1</c><c>2</c></b></a>" .XML).SetQuery
        "/a/b").SetVarType .LengthVariable)
      "<b><c>1</c><c>2</c></b>" sampleInnerXml rfl rfl rfl).1 rfl⟩

/-- Witness for C18, amended: the `ul` element of `<ul><li>a</li><li>b</li></ul>` (the node
4) is composite, and the policy returns the rendered `li` children. -/
theorem composite_node_serialization_witness :
    (NewHTMLExtractor sampleHtmlLib "<ul><li>a</li><li>b</li></ul>" .HTML).Inner
        ⟨sampleListDoc, 4⟩ = hqOutputHTML sampleHtmlLib.render ⟨sampleListDoc, 4⟩ false ∧
    hqOutputHTML sampleHtmlLib.render ⟨sampleListDoc, 4⟩ false
      = .ret (concatStrings ((sampleListDoc.children 4).map
          (renderedText sampleHtmlLib.render sampleListDoc))) :=
  composite_node_serialization.2 sampleHtmlLib "<ul><li>a</li><li>b</li></ul>" .HTML
    sampleListDoc 4 (by decide) (by decide) rfl

/-! ## The time parser on date-only strings -/

theorem digitChar_isDigit : ∀ a, a < 10 → (digitChar a).isDigit = true := by decide

theorem digitValue_digitChar : ∀ a, a < 10 → digitValue (digitChar a) = a := by decide

theorem foldEq_digitChar : ∀ a, a < 10 → ∀ n ∈ ['S', 'M', 'T', 'W', 'F'],
    foldEq (digitChar a) n = false := by decide

theorem digitChar_ne_punct : ∀ a, a < 10 →
    digitChar a ≠ ':' ∧ digitChar a ≠ '-' ∧ digitChar a ≠ '+' ∧ digitChar a ≠ 'T' ∧
    digitChar a ≠ Char.ofNat 32 := by decide

theorem getnum_two_digits (a b : Nat) (ha : a < 10) (hb : b < 10) (rest : List Char)
    (fixed : Bool) :
    getnum (digitChar a :: digitChar b :: rest) fixed = some (a * 10 + b, rest) := by
  simp [getnum, digitChar_isDigit a ha, digitChar_isDigit b hb, digitValue_digitChar a ha,
    digitValue_digitChar b hb]

theorem timeAtoi_four_digits (a b c d : Nat) (ha : a < 10) (hb : b < 10) (hc : c < 10)
    (hd : d < 10) :
    timeAtoi [digitChar a, digitChar b, digitChar c, digitChar d]
      = some ((((a * 10 + b) * 10 + c) * 10 + d : Nat) : Int) := by
  have h1 := digitChar_ne_punct a ha
  simp [timeAtoi, h1.2.1, h1.2.2.1, digitsOnly, digitChar_isDigit a ha, digitChar_isDigit b hb,
    digitChar_isDigit c hc, digitChar_isDigit d hd, digitValue_digitChar a ha,
    digitValue_digitChar b hb, digitValue_digitChar c hc, digitValue_digitChar d hd]

/-- A value that starts with a digit has no weekday name at its head. -/
theorem lookup_shortDayNames_digit (a : Nat) (ha : a < 10) (rest : List Char) :
    lookup shortDayNames 0 (digitChar a :: rest) = none := by
  have h := foldEq_digitChar a ha
  simp [lookup, shortDayNames, matchName, h]

/-- The layouts that start with a weekday name do not parse a value that starts with a
digit. -/
theorem timeParse_weekday_first_digit (L : TimeLib) (layout : List Char)
    (chunks : List (List Char × Std)) (last : List Char)
    (hch : layoutChunks (layout.length + 1) layout = (([], .WeekDay) :: chunks, last))
    (a : Nat) (ha : a < 10) (rest : List Char) (loc : Location) :
    timeParse L layout (digitChar a :: rest) loc = .bad := by
  simp [timeParse, hch, parseChunks, skip, skipGo, parseStd, lookup_shortDayNames_digit a ha]

/-- The characters of a date-only string. -/
theorem dateOnly_toList (y m d : Nat) :
    (dateOnly y m d).toList
      = [digitChar (y / 1000 % 10), digitChar (y / 100 % 10), digitChar (y / 10 % 10),
         digitChar (y % 10), '-', digitChar (m / 10 % 10), digitChar (m % 10), '-',
         digitChar (d / 10 % 10), digitChar (d % 10)] := rfl

/-- The first three elements of the layouts that start with `2006-01-02` read the year, the
month and the day of a date-only string and leave nothing of it. -/
theorem parseChunks_date (L : TimeLib) (more : List (List Char × Std)) (y m d : Nat)
    (hy : y ≤ 9999) (hm1 : 1 ≤ m) (hm2 : m ≤ 12) (hd : d ≤ 99) :
    parseChunks L (([], .LongYear) :: (['-'], .ZeroMonth) :: (['-'], .ZeroDay) :: more)
        ParseState.init (dateOnly y m d).toList
      = parseChunks L more
          { ParseState.init with year := (y : Int), month := (m : Int), day := (d : Int) } [] := by
  have a1 : y / 1000 % 10 < 10 := Nat.mod_lt _ (by decide)
  have a2 : y / 100 % 10 < 10 := Nat.mod_lt _ (by decide)
  have a3 : y / 10 % 10 < 10 := Nat.mod_lt _ (by decide)
  have a4 : y % 10 < 10 := Nat.mod_lt _ (by decide)
  have a5 : m / 10 % 10 < 10 := Nat.mod_lt _ (by decide)
  have a6 : m % 10 < 10 := Nat.mod_lt _ (by decide)
  have a7 : d / 10 % 10 < 10 := Nat.mod_lt _ (by decide)
  have a8 : d % 10 < 10 := Nat.mod_lt _ (by decide)
  have hyear : (((y / 1000 % 10 * 10 + y / 100 % 10) * 10 + y / 10 % 10) * 10 + y % 10) = y := by
    omega
  have hmonth : m / 10 % 10 * 10 + m % 10 = m := by omega
  have hday : d / 10 % 10 * 10 + d % 10 = d := by omega
  have hm0 : ¬ (m = 0 ∨ 12 < m) := by omega
  rw [dateOnly_toList]
  simp [parseChunks, skip, skipGo, parseStd,
    digitChar_isDigit _ a1, timeAtoi_four_digits _ _ _ _ a1 a2 a3 a4, hyear,
    getnum_two_digits _ _ a5 a6, getnum_two_digits _ _ a7 a8, hmonth, hday, hm0]

theorem goParse_fails_of_bad (L : TimeLib) (layout value : String) (loc : Location)
    (h : timeParse L layout.toList value.toList loc = .bad) :
    (goParseInLocation L layout value loc).2 ≠ none := by
  unfold goParseInLocation
  rw [h]
  simp

/-- The kitchen layout does not parse a date-only string: the third character is a digit
where a colon is required. -/
theorem goParse_kitchen_date (L : TimeLib) (y m d : Nat) (loc : Location) :
    (goParseInLocation L "3:04PM" (dateOnly y m d) loc).2 ≠ none := by
  have a1 : y / 1000 % 10 < 10 := Nat.mod_lt _ (by decide)
  have a2 : y / 100 % 10 < 10 := Nat.mod_lt _ (by decide)
  have a3 : y / 10 % 10 < 10 := Nat.mod_lt _ (by decide)
  have hch : layoutChunks ("3:04PM".toList.length + 1) "3:04PM".toList
      = ([([], .Hour12), ([':'], .ZeroMinute), ([], .PM)], []) := by rfl
  have hne := (digitChar_ne_punct _ a3).1
  simp only [goParseInLocation, timeParse, hch, dateOnly_toList]
  by_cases hh : 12 < y / 1000 % 10 * 10 + y / 100 % 10
  · simp [parseChunks, skip, skipGo, parseStd, getnum_two_digits _ _ a1 a2, hh]
  · simp [parseChunks, skip, skipGo, parseStd, getnum_two_digits _ _ a1 a2, hh, hne]

/-- The layouts `RFC3339` and `RFC3339Nano` do not parse a date-only string: the value ends
where the `T` is required. -/
theorem timeParse_dateTime_date (L : TimeLib) (layout : List Char) (std : Std)
    (more : List (List Char × Std)) (last : List Char)
    (hch : layoutChunks (layout.length + 1) layout
      = (([], .LongYear) :: (['-'], .ZeroMonth) :: (['-'], .ZeroDay) :: (['T'], std) :: more,
          last))
    (y m d : Nat) (hy : y ≤ 9999) (hm1 : 1 ≤ m) (hm2 : m ≤ 12) (hd : d ≤ 99)
    (loc : Location) :
    timeParse L layout (dateOnly y m d).toList loc = .bad := by
  simp only [timeParse, hch]
  rw [parseChunks_date L _ y m d hy hm1 hm2 hd]
  simp [parseChunks, skip, skipGo]

/-- The layout `2006-01-02` parses a date-only string that names a day of the calendar, as
what `time.Date` returns for midnight of that day in the location passed. -/
theorem goParse_date_only (L : TimeLib) (y m d : Nat) (hy : y ≤ 9999) (hm1 : 1 ≤ m)
    (hm2 : m ≤ 12) (hd1 : 1 ≤ d) (hd2 : d ≤ daysIn m (y : Int)) (loc : Location) :
    goParseInLocation L "2006-01-02" (dateOnly y m d) loc
      = (L.date (y : Int) m d 0 0 0 0 loc, none) := by
  have hch : layoutChunks ("2006-01-02".toList.length + 1) "2006-01-02".toList
      = ([([], .LongYear), (['-'], .ZeroMonth), (['-'], .ZeroDay)], []) := by rfl
  have hd99 : d ≤ 99 := by
    have : daysIn m (y : Int) ≤ 31 := by
      unfold daysIn; split <;> (try split) <;> omega
    omega
  have hfin : ¬ (d = 0 ∨ daysIn m (y : Int) < d) := by omega
  have hdn : ¬ ((d : Int) < 0) := by omega
  have hmn : ¬ ((m : Int) < 0) := by omega
  simp only [goParseInLocation, timeParse, hch]
  rw [parseChunks_date L _ y m d hy hm1 hm2 hd99]
  simp [parseChunks, skip, skipGo, parseFinish, ParseState.init, hfin, hdn, hmn]

/-! ## C17: date-only strings -/

/-- For a date-only string that names a day of the calendar, none of the six layouts before
`2006-01-02` parses the string, and `tryParseTime` returns what `time.Date` returns for
midnight of that day in the local zone. -/
theorem date_only_seventh_layout (L : TimeLib) (y m d : Nat) (hy : y ≤ 9999)
    (hm : 1 ≤ m ∧ m ≤ 12) (hd : 1 ≤ d ∧ d ≤ daysIn m (y : Int)) :
    (∀ layout ∈ timeFormats.take 6,
      (goParseInLocation L layout (dateOnly y m d) .Local).2 ≠ none) ∧
    tryParseTime (goParseInLocation L) (dateOnly y m d)
      = (L.date (y : Int) m d 0 0 0 0 .Local, none) := by
  have a1 : y / 1000 % 10 < 10 := Nat.mod_lt _ (by decide)
  have hd99 : d ≤ 99 := by
    have : daysIn m (y : Int) ≤ 31 := by
      unfold daysIn; split <;> (try split) <;> omega
    omega
  have h1 : (goParseInLocation L "Mon Jan _2 15:04:05 2006" (dateOnly y m d) .Local).2 ≠ none :=
    goParse_fails_of_bad L _ _ _
      (timeParse_weekday_first_digit L _ _ _ (by rfl) _ a1 _ _)
  have h2 : (goParseInLocation L "Mon Jan _2 15:04:05 MST 2006" (dateOnly y m d) .Local).2
      ≠ none :=
    goParse_fails_of_bad L _ _ _
      (timeParse_weekday_first_digit L _ _ _ (by rfl) _ a1 _ _)
  have h3 : (goParseInLocation L "Mon Jan 02 15:04:05 -0700 2006" (dateOnly y m d) .Local).2
      ≠ none :=
    goParse_fails_of_bad L _ _ _
      (timeParse_weekday_first_digit L _ _ _ (by rfl) _ a1 _ _)
  have h4 := goParse_kitchen_date L y m d .Local
  have h5 : (goParseInLocation L "2006-01-02T15:04:05Z07:00" (dateOnly y m d) .Local).2
      ≠ none :=
    goParse_fails_of_bad L _ _ _
      (timeParse_dateTime_date L _ _ _ _ (by rfl) y m d hy hm.1 hm.2 hd99 _)
  have h6 : (goParseInLocation L "2006-01-02T15:04:05.999999999Z07:00" (dateOnly y m d)
      .Local).2 ≠ none :=
    goParse_fails_of_bad L _ _ _
      (timeParse_dateTime_date L _ _ _ _ (by rfl) y m d hy hm.1 hm.2 hd99 _)
  have h7 := goParse_date_only L y m d hy hm.1 hm.2 hd.1 hd.2 .Local
  have h8 : tryParseTime (goParseInLocation L) (dateOnly y m d)
      = (L.date (y : Int) m d 0 0 0 0 .Local, none) := by
    obtain ⟨e1, he1⟩ := Option.ne_none_iff_exists'.mp h1
    obtain ⟨e2, he2⟩ := Option.ne_none_iff_exists'.mp h2
    obtain ⟨e3, he3⟩ := Option.ne_none_iff_exists'.mp h3
    obtain ⟨e4, he4⟩ := Option.ne_none_iff_exists'.mp h4
    obtain ⟨e5, he5⟩ := Option.ne_none_iff_exists'.mp h5
    obtain ⟨e6, he6⟩ := Option.ne_none_iff_exists'.mp h6
    rw [tryParseTime, tryParseTimeLoop_eq]
    simp [timeFormats, List.find?_cons, he1, he2, he3, he4, he5, he6, h7]
  refine ⟨?_, h8⟩
  · intro layout hl
    simp only [timeFormats, List.take, List.mem_cons, List.mem_singleton, List.not_mem_nil,
      or_false] at hl
    rcases hl with h | h | h | h | h | h
    · rw [h]; exact h1
    · rw [h]; exact h2
    · rw [h]; exact h3
    · rw [h]; exact h4
    · rw [h]; exact h5
    · rw [h]; exact h6

/-- C17, amended: for every date-only string `YYYY-MM-DD` that names a day of the calendar,
`tryParseTime` succeeds through the layout `2006-01-02`, the seventh of its list: none of the
six layouts before it parses the string, and the result is what `time.Date` returns for
midnight of that day in the local zone, which is midnight of that day in the local zone
whenever that reading of the wall clock exists there. -/
theorem tryParseTime_date_only (L : TimeLib) (y m d : Nat) (hy : y ≤ 9999)
    (hm : 1 ≤ m ∧ m ≤ 12) (hd : 1 ≤ d ∧ d ≤ daysIn m (y : Int)) :
    (∀ layout ∈ timeFormats.take 6,
      (goParseInLocation L layout (dateOnly y m d) .Local).2 ≠ none) ∧
    timeFormats[6]? = some "2006-01-02" ∧
    goParseInLocation L "2006-01-02" (dateOnly y m d) .Local
      = (L.date (y : Int) m d 0 0 0 0 .Local, none) ∧
    tryParseTime (goParseInLocation L) (dateOnly y m d)
      = (L.date (y : Int) m d 0 0 0 0 .Local, none) ∧
    (L.date (y : Int) m d 0 0 0 0 .Local = ⟨(y : Int), m, d, 0, 0, 0, 0, .Local⟩ →
      tryParseTime (goParseInLocation L) (dateOnly y m d)
        = (⟨(y : Int), m, d, 0, 0, 0, 0, .Local⟩, none)) := by
  obtain ⟨h6, h8⟩ := date_only_seventh_layout L y m d hy hm hd
  exact ⟨h6, rfl, goParse_date_only L y m d hy hm.1 hm.2 hd.1 hd.2 .Local, h8,
    fun hdate => by rw [h8, hdate]⟩

/-! ## The time parser on RFC 822, RFC 850 and RFC 1123 timestamps -/

theorem isDigit_eq_digitChar (c : Char) (h : c.isDigit = true) :
    ∃ a, a < 10 ∧ c = digitChar a := by
  have h1 : 48 ≤ c.toNat ∧ c.toNat ≤ 57 := by
    simp only [Char.isDigit, Bool.and_eq_true, decide_eq_true_eq] at h
    exact ⟨h.1, h.2⟩
  refine ⟨c.toNat - 48, by omega, ?_⟩
  unfold digitChar
  have : 48 + (c.toNat - 48) = c.toNat := by omega
  rw [this]
  exact (Char.ofNat_toNat c).symm

theorem goParse_fails_of_not_ok (L : TimeLib) (layout value : String) (loc : Location)
    (h : ∀ t, timeParse L layout.toList value.toList loc ≠ .ok t) :
    (goParseInLocation L layout value loc).2 ≠ none := by
  unfold goParseInLocation
  cases hp : timeParse L layout.toList value.toList loc with
  | ok t => exact absurd hp (h t)
  | bad => simp
  | outOfRange what => simp
  | unsupported => simp

theorem skipGo_nil (f : Nat) (value : List Char) : skipGo f value [] = some value := by
  cases f <;> rfl

/-- If the chunks of a layout are not parsed, the layout does not parse the value. -/
theorem timeParse_not_ok_of_chunks (L : TimeLib) (layout : List Char)
    (chunks : List (List Char × Std)) (last : List Char)
    (hch : layoutChunks (layout.length + 1) layout = (chunks, last))
    (value : List Char) (loc : Location)
    (h : ∀ p, parseChunks L chunks ParseState.init value ≠ .ok p) :
    ∀ t, timeParse L layout value loc ≠ .ok t := by
  intro t
  unfold timeParse
  rw [hch]
  cases hp : parseChunks L chunks ParseState.init value with
  | ok p => exact absurd hp (h p)
  | bad => simp [hp]
  | outOfRange what => simp [hp]
  | unsupported => simp [hp]

/-- The chunks are not parsed when the first element fails. -/
theorem parseChunks_not_ok_of_first (L : TimeLib) (std1 : Std)
    (more : List (List Char × Std)) (st : ParseState) (value : List Char)
    (h : ∀ p, parseStd L std1 (more.head?.map Prod.snd) st value ≠ .ok p) :
    ∀ p, parseChunks L (([], std1) :: more) st value ≠ .ok p := by
  intro p
  rw [parseChunks]
  simp only [skip, skipGo_nil]
  cases hp : parseStd L std1 (more.head?.map Prod.snd) st value with
  | ok q => exact absurd hp (h q)
  | bad => simp
  | outOfRange what => simp
  | unsupported => simp

/-- The chunks are not parsed when the literal text after the first element is not found
in what the first element leaves of the value. -/
theorem parseChunks_not_ok_of_second (L : TimeLib) (std1 std2 : Std) (lit2 : List Char)
    (more : List (List Char × Std)) (st : ParseState) (value : List Char)
    (h : ∀ st1 v2, parseStd L std1 (some std2) st value = .ok (st1, v2) →
      skip v2 lit2 = none) :
    ∀ p, parseChunks L (([], std1) :: (lit2, std2) :: more) st value ≠ .ok p := by
  intro p
  rw [parseChunks]
  simp only [skip, skipGo_nil, List.head?_cons, Option.map_some']
  cases hp : parseStd L std1 (some std2) st value with
  | ok q =>
    obtain ⟨st1, v2⟩ := q
    have hs := h st1 v2 hp
    simp only [skip] at hs
    simp only []
    rw [parseChunks]
    simp only [skip, hs]
    simp
  | bad => simp
  | outOfRange what => simp
  | unsupported => simp

/-- A layout that starts with a weekday name and a space does not parse a value in which
something other than a space follows the weekday name. -/
theorem timeParse_weekday_first_fails (L : TimeLib) (layout : List Char) (std2 : Std)
    (more : List (List Char × Std)) (last : List Char)
    (hch : layoutChunks (layout.length + 1) layout
      = (([], .WeekDay) :: ([Char.ofNat 32], std2) :: more, last))
    (value : List Char) (loc : Location)
    (hW : ∀ i r, lookup shortDayNames 0 value = some (i, r) →
      ∃ v vs, r = v :: vs ∧ v ≠ Char.ofNat 32) :
    ∀ t, timeParse L layout value loc ≠ .ok t := by
  refine timeParse_not_ok_of_chunks L layout _ last hch value loc ?_
  refine parseChunks_not_ok_of_second L _ _ _ _ _ _ ?_
  intro st1 v2 hp
  simp only [parseStd] at hp
  cases hl : lookup shortDayNames 0 value with
  | none => simp [hl] at hp
  | some q =>
    obtain ⟨i, r⟩ := q
    obtain ⟨v, vs, hr, hv⟩ := hW i r hl
    simp only [hl, Parsed.ok.injEq, Prod.mk.injEq] at hp
    rw [← hp.2, hr]
    simp [skip, skipGo, hv]

/-- The kitchen layout does not parse a value in which something other than a colon
follows the hour. -/
theorem timeParse_hour12_first_fails (L : TimeLib) (layout : List Char) (std2 : Std)
    (more : List (List Char × Std)) (last : List Char)
    (hch : layoutChunks (layout.length + 1) layout
      = (([], .Hour12) :: ([':'], std2) :: more, last))
    (value : List Char) (loc : Location)
    (hK : ∀ h r, getnum value false = some (h, r) → skip r [':'] = none) :
    ∀ t, timeParse L layout value loc ≠ .ok t := by
  refine timeParse_not_ok_of_chunks L layout _ last hch value loc ?_
  refine parseChunks_not_ok_of_second L _ _ _ _ _ _ ?_
  intro st1 v2 hp
  cases hg : getnum value false with
  | none => simp [parseStd, hg] at hp
  | some q =>
    obtain ⟨h, r⟩ := q
    have hs := hK h r hg
    by_cases hh : 12 < h
    · simp [parseStd, hg, if_pos hh] at hp
    · simp [parseStd, hg, if_neg hh] at hp
      rw [← hp.2]
      exact hs

/-- A layout that starts with the four-digit year does not parse a value that does not start
with four digits. -/
theorem timeParse_longYear_first_fails (L : TimeLib) (layout : List Char)
    (more : List (List Char × Std)) (last : List Char)
    (hch : layoutChunks (layout.length + 1) layout = (([], .LongYear) :: more, last))
    (value : List Char) (loc : Location)
    (hY : ∀ a b c d rest, value = a :: b :: c :: d :: rest →
      a.isDigit = false ∨ timeAtoi [a, b, c, d] = none) :
    ∀ t, timeParse L layout value loc ≠ .ok t := by
  refine timeParse_not_ok_of_chunks L layout _ last hch value loc ?_
  refine parseChunks_not_ok_of_first L _ _ _ _ ?_
  intro p
  simp only [parseStd]
  rcases value with _ | ⟨a, _ | ⟨b, _ | ⟨c, _ | ⟨d, rest⟩⟩⟩⟩
  · simp
  · simp
  · simp
  · simp
  · rcases hY a b c d rest rfl with h | h
    · simp [h]
    · by_cases ha : a.isDigit = true
      · simp [ha, h]
      · simp [ha]

/-- A value that fails the first element or the literal text after it of every layout
family of `timeFormats` is parsed by none of the 14 layouts. -/
theorem timeFormats_fail_of_shape (L : TimeLib) (value : String)
    (hW : ∀ i r, lookup shortDayNames 0 value.toList = some (i, r) →
      ∃ v vs, r = v :: vs ∧ v ≠ Char.ofNat 32)
    (hK : ∀ h r, getnum value.toList false = some (h, r) → skip r [':'] = none)
    (hY : ∀ a b c d rest, value.toList = a :: b :: c :: d :: rest →
      a.isDigit = false ∨ timeAtoi [a, b, c, d] = none) :
    ∀ layout ∈ timeFormats, (goParseInLocation L layout value .Local).2 ≠ none := by
  intro layout hl
  simp only [timeFormats, List.mem_cons, List.mem_singleton, List.not_mem_nil, or_false] at hl
  rcases hl with h | h | h | h | h | h | h | h | h | h | h | h | h | h
  · rw [h]
    exact goParse_fails_of_not_ok L _ _ _
      (timeParse_weekday_first_fails L _ _ _ _ (by rfl) _ _ hW)
  · rw [h]
    exact goParse_fails_of_not_ok L _ _ _
      (timeParse_weekday_first_fails L _ _ _ _ (by rfl) _ _ hW)
  · rw [h]
    exact goParse_fails_of_not_ok L _ _ _
      (timeParse_weekday_first_fails L _ _ _ _ (by rfl) _ _ hW)
  · rw [h]
    exact goParse_fails_of_not_ok L _ _ _
      (timeParse_hour12_first_fails L _ _ _ _ (by rfl) _ _ hK)
  all_goals
    rw [h]
    exact goParse_fails_of_not_ok L _ _ _
      (timeParse_longYear_first_fails L _ _ _ (by rfl) _ _ hY)


theorem tryParseTimeLoop_all_fail
    (parse : String → String → Location → Time × Option GoError) (str : String)
    (formats : List String) (h : ∀ l ∈ formats, (parse l str .Local).2 ≠ none) :
    tryParseTimeLoop parse str formats
      = (Time.zero, some (.errorf ("Cannot parse the time: " ++ str))) := by
  induction formats with
  | nil => rfl
  | cons l rest ih =>
    have h1 := h l (List.mem_cons_self _ _)
    simp only [tryParseTimeLoop, tryParseExactTime]
    rcases hp : parse l str .Local with ⟨t, _ | err⟩
    · rw [hp] at h1
      exact absurd rfl h1
    · exact ih (fun l hl => h l (List.mem_cons_of_mem _ hl))

theorem goParse_ok (L : TimeLib) (layout value : String) (loc : Location)
    (h : (goParseInLocation L layout value loc).2 = none) :
    ∃ t, timeParse L layout.toList value.toList loc = .ok t := by
  unfold goParseInLocation at h
  cases hp : timeParse L layout.toList value.toList loc with
  | ok t => exact ⟨t, rfl⟩
  | bad => rw [hp] at h; simp at h
  | outOfRange what => rw [hp] at h; simp at h
  | unsupported => rw [hp] at h; simp at h

/-- A layout that parses a value parses it up to the literal text after its first
element. -/
theorem timeParse_ok_second (L : TimeLib) (layout : List Char) (std1 std2 : Std)
    (lit2 : List Char) (more : List (List Char × Std)) (last : List Char)
    (hch : layoutChunks (layout.length + 1) layout
      = (([], std1) :: (lit2, std2) :: more, last))
    (value : List Char) (loc : Location) (t : Time)
    (h : timeParse L layout value loc = .ok t) :
    ∃ st1 v2 v3, parseStd L std1 (some std2) ParseState.init value = .ok (st1, v2) ∧
      skip v2 lit2 = some v3 := by
  by_contra hne
  refine timeParse_not_ok_of_chunks L layout _ last hch value loc ?_ t h
  refine parseChunks_not_ok_of_second L _ _ _ _ _ _ ?_
  intro st1 v2 hp
  cases hs : skip v2 lit2 with
  | none => rfl
  | some v3 => exact absurd ⟨st1, v2, v3, hp, hs⟩ hne

theorem skip_comma (v2 v3 : List Char) (h : skip v2 [',', Char.ofNat 32] = some v3) :
    ∃ r, v2 = ',' :: r := by
  rcases v2 with _ | ⟨v, vs⟩
  · simp [skip, skipGo] at h
  · by_cases hv : v = ','
    · exact ⟨vs, by rw [hv]⟩
    · simp [skip, skipGo, hv] at h

theorem skip_space (v2 v3 : List Char) (h : skip v2 [Char.ofNat 32] = some v3) :
    v2 = [] ∨ ∃ r, v2 = Char.ofNat 32 :: r := by
  rcases v2 with _ | ⟨v, vs⟩
  · exact Or.inl rfl
  · by_cases hv : v = Char.ofNat 32
    · exact Or.inr ⟨vs, by rw [hv]⟩
    · simp [skip, skipGo, hv] at h

theorem matchName_cons_some (n : Char) (ns val rest : List Char)
    (h : matchName (n :: ns) val = some rest) :
    ∃ c cs, val = c :: cs ∧ foldEq c n = true ∧ matchName ns cs = some rest := by
  rcases val with _ | ⟨c, cs⟩
  · simp [matchName] at h
  · by_cases hf : foldEq c n = true
    · refine ⟨c, cs, rfl, hf, ?_⟩
      simpa [matchName, hf] using h
    · simp [matchName, hf] at h

theorem lookup_some_mem (tab : List String) (i j : Nat) (val rest : List Char)
    (h : lookup tab i val = some (j, rest)) :
    ∃ v ∈ tab, matchName v.toList val = some rest := by
  induction tab generalizing i with
  | nil => simp [lookup] at h
  | cons v tab ih =>
    rw [lookup] at h
    cases hm : matchName v.toList val with
    | some r =>
      simp only [hm, Option.some.injEq, Prod.mk.injEq] at h
      exact ⟨v, List.mem_cons_self _ _, by rw [hm, h.2]⟩
    | none =>
      simp only [hm] at h
      obtain ⟨w, hw, hr⟩ := ih (i + 1) h
      exact ⟨w, List.mem_cons_of_mem _ hw, hr⟩

theorem foldEq_not_digit (c n : Char) (hn : n ∈ ['S', 'M', 'T', 'W', 'F'])
    (h : foldEq c n = true) : c.isDigit = false := by
  by_contra hd
  have hd1 : c.isDigit = true := by simpa using hd
  obtain ⟨a, ha, hc⟩ := isDigit_eq_digitChar c hd1
  rw [hc, foldEq_digitChar a ha n hn] at h
  exact Bool.false_ne_true h

theorem foldEq_space (n : Char) (h : foldEq (Char.ofNat 32) n = true) :
    n = Char.ofNat 32 := by
  unfold foldEq at h
  simp only [Bool.or_eq_true, Bool.and_eq_true, decide_eq_true_eq] at h
  rcases h with h | h
  · exact h.symm
  · exact absurd h.1.2 (by decide)

/-- A value that starts with a short weekday name: the name has three characters, and the
first is not a digit. -/
theorem lookup_shortDayNames_shape (val rest : List Char) (i : Nat)
    (h : lookup shortDayNames 0 val = some (i, rest)) :
    ∃ c1 c2 c3, val = c1 :: c2 :: c3 :: rest ∧ c1.isDigit = false := by
  obtain ⟨v, hv, hm⟩ := lookup_some_mem _ _ _ _ _ h
  have key : ∀ n1 n2 n3 : Char, n1 ∈ ['S', 'M', 'T', 'W', 'F'] →
      matchName [n1, n2, n3] val = some rest →
      ∃ c1 c2 c3, val = c1 :: c2 :: c3 :: rest ∧ c1.isDigit = false := by
    intro n1 n2 n3 hn1 hmm
    obtain ⟨c1, cs1, hv1, hf1, hm1⟩ := matchName_cons_some _ _ _ _ hmm
    obtain ⟨c2, cs2, hv2, _, hm2⟩ := matchName_cons_some _ _ _ _ hm1
    obtain ⟨c3, cs3, hv3, _, hm3⟩ := matchName_cons_some _ _ _ _ hm2
    simp only [matchName, Option.some.injEq] at hm3
    refine ⟨c1, c2, c3, ?_, foldEq_not_digit c1 n1 hn1 hf1⟩
    rw [hv1, hv2, hv3, hm3]
  simp only [shortDayNames, List.mem_cons, List.mem_singleton, List.not_mem_nil, or_false] at hv
  rcases hv with h1 | h1 | h1 | h1 | h1 | h1 | h1 <;> subst h1 <;>
    exact key _ _ _ (by decide) hm

/-- A value that starts with a long weekday name: its first character is not a digit and
its fourth is not a space. -/
theorem lookup_longDayNames_shape (val rest : List Char) (i : Nat)
    (h : lookup longDayNames 0 val = some (i, rest)) :
    ∃ c1 c2 c3 c4 tl, val = c1 :: c2 :: c3 :: c4 :: tl ∧ c1.isDigit = false ∧
      c4 ≠ Char.ofNat 32 := by
  obtain ⟨v, hv, hm⟩ := lookup_some_mem _ _ _ _ _ h
  have key : ∀ (n1 n2 n3 n4 : Char) (ns : List Char), n1 ∈ ['S', 'M', 'T', 'W', 'F'] →
      n4 ≠ Char.ofNat 32 → matchName (n1 :: n2 :: n3 :: n4 :: ns) val = some rest →
      ∃ c1 c2 c3 c4 tl, val = c1 :: c2 :: c3 :: c4 :: tl ∧ c1.isDigit = false ∧
        c4 ≠ Char.ofNat 32 := by
    intro n1 n2 n3 n4 ns hn1 hn4 hmm
    obtain ⟨c1, cs1, hv1, hf1, hm1⟩ := matchName_cons_some _ _ _ _ hmm
    obtain ⟨c2, cs2, hv2, _, hm2⟩ := matchName_cons_some _ _ _ _ hm1
    obtain ⟨c3, cs3, hv3, _, hm3⟩ := matchName_cons_some _ _ _ _ hm2
    obtain ⟨c4, cs4, hv4, hf4, _⟩ := matchName_cons_some _ _ _ _ hm3
    refine ⟨c1, c2, c3, c4, cs4, ?_, foldEq_not_digit c1 n1 hn1 hf1, ?_⟩
    · rw [hv1, hv2, hv3, hv4]
    · intro hc
      rw [hc] at hf4
      exact hn4 (foldEq_space n4 hf4)
  simp only [longDayNames, List.mem_cons, List.mem_singleton, List.not_mem_nil, or_false] at hv
  rcases hv with h1 | h1 | h1 | h1 | h1 | h1 | h1 <;> subst h1 <;>
    exact key _ _ _ _ _ (by decide) (by decide) hm

theorem getnum_some_head (value : List Char) (fixed : Bool) (p : Nat × List Char)
    (h : getnum value fixed = some p) :
    ∃ c rest, value = c :: rest ∧ c.isDigit = true := by
  rcases value with _ | ⟨c, _ | ⟨d, rest⟩⟩
  · simp [getnum] at h
  · by_cases hc : c.isDigit = true
    · exact ⟨c, [], rfl, hc⟩
    · simp [getnum, hc] at h
  · by_cases hc : c.isDigit = true
    · exact ⟨c, d :: rest, rfl, hc⟩
    · simp [getnum, hc] at h

theorem getnum_fixed_shape (value r : List Char) (d : Nat)
    (h : getnum value true = some (d, r)) :
    ∃ c1 c2, value = c1 :: c2 :: r ∧ c1.isDigit = true ∧ c2.isDigit = true := by
  rcases value with _ | ⟨c1, _ | ⟨c2, rest⟩⟩
  · simp [getnum] at h
  · by_cases hc : c1.isDigit = true <;> simp [getnum, hc] at h
  · by_cases hc : c1.isDigit = true
    · by_cases hd : c2.isDigit = true
      · simp [getnum, hc, hd] at h
        exact ⟨c1, c2, by rw [h.2], hc, hd⟩
      · simp [getnum, hc, hd] at h
    · simp [getnum, hc] at h

/-- A value that starts with a short weekday name and a comma is parsed by none of the 14
layouts of `timeFormats`. -/
theorem timeFormats_fail_weekday_comma (L : TimeLib) (value : String) (i : Nat)
    (r : List Char) (h : lookup shortDayNames 0 value.toList = some (i, ',' :: r)) :
    ∀ layout ∈ timeFormats, (goParseInLocation L layout value .Local).2 ≠ none := by
  obtain ⟨c1, c2, c3, hv, hc1⟩ := lookup_shortDayNames_shape _ _ _ h
  refine timeFormats_fail_of_shape L value ?_ ?_ ?_
  · intro i1 r1 h1
    rw [h] at h1
    simp only [Option.some.injEq, Prod.mk.injEq] at h1
    exact ⟨',', r, h1.2.symm, by decide⟩
  · intro hh rr hg
    obtain ⟨c, rest, hv1, hc⟩ := getnum_some_head _ _ _ hg
    rw [hv] at hv1
    simp only [List.cons.injEq] at hv1
    rw [hv1.1, hc] at hc1
    exact absurd hc1 (by decide)
  · intro a b c d rest hv1
    rw [hv] at hv1
    simp only [List.cons.injEq] at hv1
    rw [← hv1.1]
    exact Or.inl hc1

/-- A value that starts with a long weekday name is parsed by none of the 14 layouts of
`timeFormats`. -/
theorem timeFormats_fail_long_weekday (L : TimeLib) (value : String) (i : Nat)
    (r : List Char) (h : lookup longDayNames 0 value.toList = some (i, r)) :
    ∀ layout ∈ timeFormats, (goParseInLocation L layout value .Local).2 ≠ none := by
  obtain ⟨c1, c2, c3, c4, tl, hv, hc1, hc4⟩ := lookup_longDayNames_shape _ _ _ h
  refine timeFormats_fail_of_shape L value ?_ ?_ ?_
  · intro i1 r1 h1
    obtain ⟨b1, b2, b3, hv1, _⟩ := lookup_shortDayNames_shape _ _ _ h1
    rw [hv] at hv1
    simp only [List.cons.injEq] at hv1
    exact ⟨c4, tl, hv1.2.2.2.symm, hc4⟩
  · intro hh rr hg
    obtain ⟨c, rest, hv1, hc⟩ := getnum_some_head _ _ _ hg
    rw [hv] at hv1
    simp only [List.cons.injEq] at hv1
    rw [hv1.1, hc] at hc1
    exact absurd hc1 (by decide)
  · intro a b c d rest hv1
    rw [hv] at hv1
    simp only [List.cons.injEq] at hv1
    rw [← hv1.1]
    exact Or.inl hc1

/-- A value of two digits followed by a space, or by nothing, is parsed by none of the 14
layouts of `timeFormats`. -/
theorem timeFormats_fail_two_digits (L : TimeLib) (value : String) (c1 c2 : Char)
    (r : List Char) (hv : value.toList = c1 :: c2 :: r) (hc1 : c1.isDigit = true)
    (hc2 : c2.isDigit = true) (hr : r = [] ∨ ∃ r1, r = Char.ofNat 32 :: r1) :
    ∀ layout ∈ timeFormats, (goParseInLocation L layout value .Local).2 ≠ none := by
  obtain ⟨a1, ha1, he1⟩ := isDigit_eq_digitChar c1 hc1
  refine timeFormats_fail_of_shape L value ?_ ?_ ?_
  · intro i1 r1 h1
    rw [hv, he1, lookup_shortDayNames_digit a1 ha1] at h1
    exact absurd h1 (by simp)
  · intro hh rr hg
    rw [hv] at hg
    simp only [getnum, hc1, hc2, if_true, Option.some.injEq, Prod.mk.injEq] at hg
    rw [← hg.2]
    rcases hr with hr | ⟨r1, hr⟩
    · rw [hr]
      simp [skip, skipGo]
    · rw [hr]
      simp [skip, skipGo]
  · intro a b c d rest hv1
    rw [hv] at hv1
    simp only [List.cons.injEq] at hv1
    rcases hr with hr | ⟨r1, hr⟩
    · rw [hr] at hv1
      exact absurd hv1.2.2 (by simp)
    · rw [hr] at hv1
      simp only [List.cons.injEq] at hv1
      refine Or.inr ?_
      rw [← hv1.1, ← hv1.2.1, ← hv1.2.2.1, he1]
      have hne := digitChar_ne_punct a1 ha1
      simp [timeAtoi, digitsOnly, hne, digitChar_isDigit a1 ha1, hc2]

theorem parseStd_zeroDay_ok (L : TimeLib) (next : Option Std) (st st1 : ParseState)
    (value v2 : List Char) (h : parseStd L .ZeroDay next st value = .ok (st1, v2)) :
    ∃ d, getnum value true = some (d, v2) := by
  have hv : parseStd L .ZeroDay next st value
      = match getnum value true with
        | some (d, rest) => .ok ({ st with day := (d : Int) }, rest)
        | none => .bad := by
    rcases value with _ | ⟨c, rest⟩ <;> simp [parseStd]
  rw [hv] at h
  cases hg : getnum value true with
  | none => rw [hg] at h; simp at h
  | some q =>
    obtain ⟨d, r⟩ := q
    rw [hg] at h
    simp only [Parsed.ok.injEq, Prod.mk.injEq] at h
    exact ⟨d, by rw [h.2]⟩

theorem parseStd_weekDay_ok (L : TimeLib) (next : Option Std) (st st1 : ParseState)
    (value v2 : List Char) (h : parseStd L .WeekDay next st value = .ok (st1, v2)) :
    ∃ i, lookup shortDayNames 0 value = some (i, v2) := by
  simp only [parseStd] at h
  cases hg : lookup shortDayNames 0 value with
  | none => rw [hg] at h; simp at h
  | some q =>
    obtain ⟨i, r⟩ := q
    rw [hg] at h
    simp only [Parsed.ok.injEq, Prod.mk.injEq] at h
    exact ⟨i, by rw [h.2]⟩

theorem parseStd_longWeekDay_ok (L : TimeLib) (next : Option Std) (st st1 : ParseState)
    (value v2 : List Char) (h : parseStd L .LongWeekDay next st value = .ok (st1, v2)) :
    ∃ i, lookup longDayNames 0 value = some (i, v2) := by
  simp only [parseStd] at h
  cases hg : lookup longDayNames 0 value with
  | none => rw [hg] at h; simp at h
  | some q =>
    obtain ⟨i, r⟩ := q
    rw [hg] at h
    simp only [Parsed.ok.injEq, Prod.mk.injEq] at h
    exact ⟨i, by rw [h.2]⟩

/-- A value that one of the layouts RFC 822, RFC 850 or RFC 1123 of package `time` parses
is parsed by none of the 14 layouts of `timeFormats`. -/
theorem timeFormats_fail_of_rfc (L : TimeLib) (value : String)
    (hrfc : ∃ layout ∈ rfcLayouts, (goParseInLocation L layout value .Local).2 = none) :
    ∀ layout ∈ timeFormats, (goParseInLocation L layout value .Local).2 ≠ none := by
  obtain ⟨layout, hl, hp⟩ := hrfc
  obtain ⟨t, ht⟩ := goParse_ok L layout value .Local hp
  simp only [rfcLayouts, List.mem_cons, List.mem_singleton, List.not_mem_nil, or_false] at hl
  rcases hl with h | h | h | h | h
  · rw [h] at ht
    obtain ⟨st1, v2, v3, hs1, hs2⟩ :=
      timeParse_ok_second L _ _ _ _ _ _ (by rfl) _ _ t ht
    obtain ⟨d, hg⟩ := parseStd_zeroDay_ok L _ _ _ _ _ hs1
    obtain ⟨c1, c2, hv, hc1, hc2⟩ := getnum_fixed_shape _ _ _ hg
    exact timeFormats_fail_two_digits L value c1 c2 v2 hv hc1 hc2 (skip_space _ _ hs2)
  · rw [h] at ht
    obtain ⟨st1, v2, v3, hs1, hs2⟩ :=
      timeParse_ok_second L _ _ _ _ _ _ (by rfl) _ _ t ht
    obtain ⟨d, hg⟩ := parseStd_zeroDay_ok L _ _ _ _ _ hs1
    obtain ⟨c1, c2, hv, hc1, hc2⟩ := getnum_fixed_shape _ _ _ hg
    exact timeFormats_fail_two_digits L value c1 c2 v2 hv hc1 hc2 (skip_space _ _ hs2)
  · rw [h] at ht
    obtain ⟨st1, v2, v3, hs1, hs2⟩ :=
      timeParse_ok_second L _ _ _ _ _ _ (by rfl) _ _ t ht
    obtain ⟨i, hg⟩ := parseStd_longWeekDay_ok L _ _ _ _ _ hs1
    exact timeFormats_fail_long_weekday L value i v2 hg
  · rw [h] at ht
    obtain ⟨st1, v2, v3, hs1, hs2⟩ :=
      timeParse_ok_second L _ _ _ _ _ _ (by rfl) _ _ t ht
    obtain ⟨i, hg⟩ := parseStd_weekDay_ok L _ _ _ _ _ hs1
    obtain ⟨r1, hr1⟩ := skip_comma _ _ hs2
    rw [hr1] at hg
    exact timeFormats_fail_weekday_comma L value i r1 hg
  · rw [h] at ht
    obtain ⟨st1, v2, v3, hs1, hs2⟩ :=
      timeParse_ok_second L _ _ _ _ _ _ (by rfl) _ _ t ht
    obtain ⟨i, hg⟩ := parseStd_weekDay_ok L _ _ _ _ _ hs1
    obtain ⟨r1, hr1⟩ := skip_comma _ _ hs2
    rw [hr1] at hg
    exact timeFormats_fail_weekday_comma L value i r1 hg

/-- C17, witness: in a local zone whose clocks never change, `2023-05-01` is parsed by the
date-only layout, the seventh of the list, as midnight of 1 May 2023 in the local zone. -/
theorem tryParseTime_date_only_witness :
    dateOnly 2023 5 1 = "2023-05-01" ∧
    (∀ layout ∈ timeFormats.take 6,
      (goParseInLocation sampleTimeLib layout (dateOnly 2023 5 1) .Local).2 ≠ none) ∧
    timeFormats[6]? = some "2006-01-02" ∧
    tryParseTime (goParseInLocation sampleTimeLib) (dateOnly 2023 5 1)
      = (⟨2023, 5, 1, 0, 0, 0, 0, .Local⟩, none) :=
  ⟨by decide,
   (tryParseTime_date_only sampleTimeLib 2023 5 1 (by decide) (by decide) (by decide)).1,
   (tryParseTime_date_only sampleTimeLib 2023 5 1 (by decide) (by decide) (by decide)).2.1,
   (tryParseTime_date_only sampleTimeLib 2023 5 1 (by decide) (by decide)
      (by decide)).2.2.2.2 rfl⟩

/-- Counterexample to C17 as stated: with the local zone `America/Havana`, the date-only
string `2024-03-10` is parsed by the date-only layout, but the result is not midnight of
10 March 2024 in the local zone, a reading of the wall clock that the change of clocks
skipped: it is 23:00 of 9 March 2024. -/
theorem tryParseTime_skipped_midnight :
    dateOnly 2024 3 10 = "2024-03-10" ∧
    tryParseTime (goParseInLocation sampleHavanaLib) "2024-03-10"
      = (⟨2024, 3, 9, 23, 0, 0, 0, .Local⟩, none) ∧
    tryParseTime (goParseInLocation sampleHavanaLib) "2024-03-10"
      ≠ (⟨2024, 3, 10, 0, 0, 0, 0, .Local⟩, none) := by
  refine ⟨by decide, ?_, ?_⟩
  · have h : tryParseTime (goParseInLocation sampleHavanaLib) (dateOnly 2024 3 10)
        = (sampleHavanaLib.date 2024 3 10 0 0 0 0 .Local, none) :=
      (date_only_seventh_layout sampleHavanaLib 2024 3 10 (by decide) (by decide)
        (by decide)).2
    exact h
  · have h : tryParseTime (goParseInLocation sampleHavanaLib) (dateOnly 2024 3 10)
        = (sampleHavanaLib.date 2024 3 10 0 0 0 0 .Local, none) :=
      (date_only_seventh_layout sampleHavanaLib 2024 3 10 (by decide) (by decide)
        (by decide)).2
    rw [show ("2024-03-10" : String) = dateOnly 2024 3 10 from by decide, h]
    decide

/-- C16, amended: the timestamp candidate list holds none of the layouts RFC 822, RFC 850
and RFC 1123 (with or without a numeric zone), and for every string that one of those
layouts parses, `tryParseTime` fails with `Cannot parse the time: ...`, and so does the
coercion with `VarType = Time`. -/
theorem rfc_timestamps_not_parsed {σ : Type} (L : TimeLib) (value : String)
    (hrfc : ∃ layout ∈ rfcLayouts, (goParseInLocation L layout value .Local).2 = none) :
    (∀ layout ∈ rfcLayouts, layout ∉ timeFormats) ∧
    tryParseTime (goParseInLocation L) value
      = (Time.zero, some (.errorf ("Cannot parse the time: " ++ value))) ∧
    ∀ (E : Env) (R : Receiver σ) (x x1 : σ), E.ParseInLocation = goParseInLocation L →
      R.ExtractStrFn x = .ret ((value, none), x1) → (R.base x).VarType = .Time →
      BaseExtractor.Extract E R x
        = .ret ((.time Time.zero, some (.errorf ("Cannot parse the time: " ++ value))), x1) := by
  have hfail : tryParseTime (goParseInLocation L) value
      = (Time.zero, some (.errorf ("Cannot parse the time: " ++ value))) :=
    tryParseTimeLoop_all_fail _ _ _ (timeFormats_fail_of_rfc L value hrfc)
  refine ⟨by decide, hfail, ?_⟩
  intro E R x x1 hE hstr hvt
  simp [BaseExtractor.Extract, hvt, BaseExtractor.ExtractTime, hstr, hE, hfail]

/-- C16, witness: with a zone table that knows `MST`, the layout RFC 1123 parses
`Mon, 02 Jan 2006 15:04:05 MST`, and the coercion to a time fails on it. -/
theorem rfc_timestamps_not_parsed_witness :
    (∃ layout ∈ rfcLayouts,
      (goParseInLocation sampleTimeLib layout "Mon, 02 Jan 2006 15:04:05 MST" .Local).2
        = none) ∧
    BaseExtractor.Extract sampleTimeEnv (stringReceiver "Mon, 02 Jan 2006 15:04:05 MST")
        (sampleBase .Time)
      = .ret ((.time Time.zero,
          some (.errorf "Cannot parse the time: Mon, 02 Jan 2006 15:04:05 MST")),
          sampleBase .Time) :=
  ⟨⟨"Mon, 02 Jan 2006 15:04:05 MST", by decide, by rfl⟩,
   (rfc_timestamps_not_parsed sampleTimeLib "Mon, 02 Jan 2006 15:04:05 MST"
      ⟨"Mon, 02 Jan 2006 15:04:05 MST", by decide, by rfl⟩).2.2
      sampleTimeEnv (stringReceiver "Mon, 02 Jan 2006 15:04:05 MST") (sampleBase .Time)
      (sampleBase .Time) rfl rfl rfl⟩

/-- Counterexample to C16 as stated: `Mon, 02 Jan 2006 15:04:05 MST` is a timestamp of
RFC 1123 (the layout RFC 1123 reads it as 2 January 2006, 15:04:05 MST), every one of the
14 candidate layouts rejects it, and `tryParseTime` fails on it; the named layouts at the
head of the list are ANSIC, the Unix date, the Ruby date and the kitchen time, and the
ANSIC timestamp of the same instant is parsed. -/
theorem rfc1123_example_rejected :
    goParseInLocation sampleTimeLib "Mon, 02 Jan 2006 15:04:05 MST"
        "Mon, 02 Jan 2006 15:04:05 MST" .Local
      = (⟨2006, 1, 2, 15, 4, 5, 0, .fixed "MST" 0⟩, none) ∧
    (∀ layout ∈ timeFormats,
      (goParseInLocation sampleTimeLib layout "Mon, 02 Jan 2006 15:04:05 MST" .Local).2
        ≠ none) ∧
    tryParseTime (goParseInLocation sampleTimeLib) "Mon, 02 Jan 2006 15:04:05 MST"
      = (Time.zero, some (.errorf "Cannot parse the time: Mon, 02 Jan 2006 15:04:05 MST")) ∧
    tryParseTime (goParseInLocation sampleTimeLib) "Mon Jan  2 15:04:05 2006"
      = (⟨2006, 1, 2, 15, 4, 5, 0, .Local⟩, none) :=
  ⟨by rfl,
   timeFormats_fail_of_rfc sampleTimeLib _ ⟨"Mon, 02 Jan 2006 15:04:05 MST", by decide, by rfl⟩,
   tryParseTimeLoop_all_fail _ _ _
     (timeFormats_fail_of_rfc sampleTimeLib _
       ⟨"Mon, 02 Jan 2006 15:04:05 MST", by decide, by rfl⟩),
   by rfl⟩


/-! ## C21: the generic function `Query` -/

/-- C21: when the parser fails with `e`, `Query` returns `("", e)` whatever the query and the
inner function are (they are not run); when the parser succeeds and the query fails with `e`,
`Query` returns `("", e)` whatever the inner function is; and when the query finds a node
`n`, `Query` runs the inner function on `n` and returns its string with no error. -/
theorem query_short_circuits {T : Type} (document xpath : String)
    (parser : String → Run (Option T × Option GoError)) :
    (∀ doc e, parser document = .ret (doc, some e) →
      ∀ query inner, Query document xpath parser query inner = .ret ("", some e)) ∧
    (∀ doc query n e, parser document = .ret (doc, none) →
      query doc xpath = .ret (n, some e) →
      ∀ inner, Query document xpath parser query inner = .ret ("", some e)) ∧
    (∀ doc query n inner, parser document = .ret (doc, none) →
      query doc xpath = .ret (some n, none) →
      Query document xpath parser query inner = (inner n).bind fun s => .ret (s, none)) := by
  refine ⟨?_, ?_, ?_⟩
  · intro doc e hp query inner
    simp [Query, hp, Run.bind]
  · intro doc query n e hp hq inner
    simp [Query, hp, hq, Run.bind]
  · intro doc query n inner hp hq
    simp [Query, hp, hq, Run.bind]

/-- Witness for C21, on the sample XML library: a document that does not parse gives the
parse error although the query and the inner function never return; an expression that the
query rejects gives its error although the inner function never returns; and `//b` over
`<a><b>1</b></a>` gives `1`. -/
theorem query_short_circuits_witness :
    Query "<a>" "//b" (NewXMLExtractor sampleXmlLib "<a>" .XML).Parser
        (hangingQuery XNode) (hangingInner XNode)
      = .ret ("", some (.library "xml" "document not tabulated")) ∧
    Query "<a><b>1</b></a>" "b[" (NewXMLExtractor sampleXmlLib "<a><b>1</b></a>" .XML).Parser
        (NewXMLExtractor sampleXmlLib "<a><b>1</b></a>" .XML).Query (hangingInner XNode)
      = .ret ("", some (.library "xpath" "expression not tabulated: b[")) ∧
    Query "<a><b>1</b></a>" "//b" (NewXMLExtractor sampleXmlLib "<a><b>1</b></a>" .XML).Parser
        (NewXMLExtractor sampleXmlLib "<a><b>1</b></a>" .XML).Query
        (NewXMLExtractor sampleXmlLib "<a><b>1</b></a>" .XML).Inner
      = .ret ("1", none) :=
  ⟨(query_short_circuits "<a>" "//b" (NewXMLExtractor sampleXmlLib "<a>" .XML).Parser).1
      none (.library "xml" "document not tabulated") rfl (hangingQuery XNode)
      (hangingInner XNode),
   (query_short_circuits "<a><b>1</b></a>" "b["
      (NewXMLExtractor sampleXmlLib "<a><b>1</b></a>" .XML).Parser).2.1
      (some sampleXmlDoc) (NewXMLExtractor sampleXmlLib "<a><b>1</b></a>" .XML).Query none
      (.library "xpath" "expression not tabulated: b[") rfl rfl (hangingInner XNode),
   (query_short_circuits "<a><b>1</b></a>" "//b"
      (NewXMLExtractor sampleXmlLib "<a><b>1</b></a>" .XML).Parser).2.2
      (some sampleXmlDoc) (NewXMLExtractor sampleXmlLib "<a><b>1</b></a>" .XML).Query
      (.mk .ElementNode "b" [.mk .TextNode "1" []])
      (NewXMLExtractor sampleXmlLib "<a><b>1</b></a>" .XML).Inner rfl rfl⟩

/-! ## C22: unknown target types -/

/-- C22: for a target type outside the seven that `Extract` knows, `Extract` returns the nil
value and the error `unknown type: ` followed by the text of the type, and it leaves the
extractor as it was, whatever the string extraction would do. -/
theorem extract_unknown_type {σ : Type} (E : Env) (R : Receiver σ) (x : σ)
    (hvt : (R.base x).VarType ∉ knownVarTypes) :
    BaseExtractor.Extract E R x
      = .ret ((.nil, some (.errorf ("unknown type: " ++ E.VarTypeString (R.base x).VarType))),
          x) := by
  cases hv : (R.base x).VarType with
  | other c => simp [BaseExtractor.Extract, hv]
  | _ => rw [hv] at hvt; exact absurd (by decide) hvt

/-- Witness for C22: with the target type of code 7 and a string extraction that would
panic, `Extract` returns the error of the unknown type. -/
theorem extract_unknown_type_witness :
    panickingReceiver.ExtractStrFn (sampleBase (.other 7)) = .panic .nilDereference ∧
    BaseExtractor.Extract sampleEnv panickingReceiver (sampleBase (.other 7))
      = .ret ((.nil, some (.errorf "unknown type: unknown")), sampleBase (.other 7)) :=
  ⟨rfl, extract_unknown_type sampleEnv panickingReceiver (sampleBase (.other 7)) (by decide)⟩


/-! ## C23: repeated calls of `Extract` -/

/-- The loop of `MatchStr` returns the same outcome when it is run again on the extractor
that it returned. -/
theorem matchLoop_again (m : List String) (r : RegexExtractor) (names : List String) :
    ∀ (i : Nat) (v : String × Option GoError) (r1 : RegexExtractor),
      matchLoop m r i names = .ret (v, r1) → matchLoop m r1 i names = .ret (v, r1) := by
  induction names with
  | nil =>
    intro i v r1 hret
    simp only [matchLoop] at hret ⊢
    cases h0 : m[0]? with
    | none => simp [h0] at hret
    | some s =>
      simp only [h0, Run.ret.injEq, Prod.mk.injEq] at hret ⊢
      exact ⟨hret.1, trivial⟩
  | cons name rest ih =>
    intro i v r1 hret
    simp only [matchLoop] at hret ⊢
    by_cases hi : 0 < i ∧ i ≤ m.length
    · simp only [hi, and_self, if_true] at hret ⊢
      cases h1 : m[i]? with
      | none => simp [h1] at hret
      | some s =>
        simp only [h1, Run.ret.injEq, Prod.mk.injEq] at hret ⊢
        refine ⟨hret.1, ?_⟩
        by_cases hg : 0 < name.length
        · simp only [hg, if_true] at hret ⊢
          rw [← hret.2]
        · simp only [hg, if_false]
    · simp only [hi, if_false] at hret ⊢
      exact ih (i + 1) v r1 hret

/-- `MatchStr` returns the same outcome when it is called again on the extractor that it
returned, and it changes neither the target type nor the document type and path of the
extractor. -/
theorem matchStr_again (compile : String → Option Regexp) (r r1 : RegexExtractor)
    (v : String × Option GoError) (h : r.MatchStr compile = .ret (v, r1)) :
    r1.MatchStr compile = .ret (v, r1) ∧ r1.VarType = r.VarType := by
  unfold RegexExtractor.MatchStr at h ⊢
  cases hc : compile r.Regex with
  | none => rw [hc] at h; simp at h
  | some re =>
    rw [hc] at h
    simp only [] at h
    cases hm : re.FindStringSubmatch r.Document with
    | none =>
      rw [hm] at h
      simp only [Run.ret.injEq, Prod.mk.injEq] at h
      rw [← h.2, hc]
      simp only [hm]
      rw [← h.1]
      exact ⟨rfl, trivial⟩
    | some m =>
      rw [hm] at h
      simp only [] at h
      obtain ⟨name, hname⟩ := matchLoop_frame m r re.SubexpNames 0 v r1 h
      have hreg : r1.Regex = r.Regex := by rw [hname]
      have hdoc : r1.Document = r.Document := by rw [hname]
      rw [hreg, hdoc, hc]
      simp only [hm]
      exact ⟨matchLoop_again m r re.SubexpNames 0 v r1 h, by rw [hname]⟩

theorem Run.bind_eq_ret {α β : Type} (r : Run α) (f : α → Run β) (b : β)
    (h : r.bind f = .ret b) : ∃ a, r = .ret a ∧ f a = .ret b := by
  cases r with
  | ret a => exact ⟨a, rfl, h⟩
  | panic p => simp [Run.bind] at h
  | hang => simp [Run.bind] at h

/-- For a target type that `Extract` knows, the extractor that `Extract` returns is the one
that the string extraction returned. -/
theorem extract_state {σ : Type} (E : Env) (R : Receiver σ) (x y1 x1 : σ)
    (sr : String × Option GoError) (res : Value × Option GoError)
    (hs : R.ExtractStrFn x = .ret (sr, y1)) (hk : (R.base x).VarType ∈ knownVarTypes)
    (h : BaseExtractor.Extract E R x = .ret (res, x1)) : x1 = y1 := by
  obtain ⟨s, err⟩ := sr
  cases hvt : (R.base x).VarType with
  | other c => rw [hvt] at hk; simp [knownVarTypes] at hk
  | LengthVariable =>
    simp only [BaseExtractor.Extract, hvt, BaseExtractor.ExtractLengthVariable, hs,
      Run.bind_ret] at h
    by_cases he : err = none
    · subst he
      simp only [ne_eq, not_true_eq_false, if_false] at h
      revert h
      repeat' split
      all_goals intro h
      all_goals first
        | (simp only [Run.ret.injEq, Prod.mk.injEq] at h; exact h.2.symm)
        | exact Run.noConfusion h
        | skip
      · obtain ⟨a, _, ha⟩ := Run.bind_eq_ret _ _ _ h
        simp only [Run.ret.injEq, Prod.mk.injEq] at ha
        exact ha.2.symm
      · obtain ⟨a, _, ha⟩ := Run.bind_eq_ret _ _ _ h
        cases a with
        | none => simp at ha
        | some node =>
          simp only [Run.ret.injEq, Prod.mk.injEq] at ha
          exact ha.2.symm
    · simp only [ne_eq, he, not_false_eq_true, if_true, Run.ret.injEq, Prod.mk.injEq] at h
      exact h.2.symm
  | _ =>
    simp only [BaseExtractor.Extract, hvt, BaseExtractor.ExtractInt,
      BaseExtractor.ExtractFloat, BaseExtractor.ExtractBool, BaseExtractor.ExtractTime,
      BaseExtractor.ExtractDuration, hs, Run.bind_ret] at h
    first
      | exact (by simpa using h.2 : x1 = y1)
      | (by_cases he : err = none
         · subst he
           simp only [ne_eq, not_true_eq_false, if_false, Run.bind_ret, Run.ret.injEq,
             Prod.mk.injEq] at h
           exact h.2.symm
         · simp only [ne_eq, he, not_false_eq_true, if_true, Run.bind_ret, Run.ret.injEq,
             Prod.mk.injEq] at h
           exact h.2.symm)

theorem extract_unknown_type_state {σ : Type} (E : Env) (R : Receiver σ) (x : σ)
    (hvt : (R.base x).VarType ∉ knownVarTypes) :
    BaseExtractor.Extract E R x
      = .ret ((.nil, some (.errorf ("unknown type: " ++ E.VarTypeString (R.base x).VarType))),
          x) := by
  cases hv : (R.base x).VarType with
  | other c => simp [BaseExtractor.Extract, hv]
  | _ => rw [hv] at hvt; exact absurd (by decide) hvt

/-- For a target type that `Extract` knows, `Extract` depends on the extractor through the
target type and the outcome of the string extraction only. -/
theorem extract_congr {σ : Type} (E : Env) (R : Receiver σ) (x y : σ)
    (hk : (R.base x).VarType ∈ knownVarTypes)
    (hvt : (R.base y).VarType = (R.base x).VarType)
    (hfn : R.ExtractStrFn y = R.ExtractStrFn x) :
    BaseExtractor.Extract E R y = BaseExtractor.Extract E R x := by
  cases hv : (R.base x).VarType with
  | other c => rw [hv] at hk; simp [knownVarTypes] at hk
  | _ =>
    rw [hv] at hvt
    simp only [BaseExtractor.Extract, hv, hvt, BaseExtractor.ExtractInt,
      BaseExtractor.ExtractFloat, BaseExtractor.ExtractBool, BaseExtractor.ExtractTime,
      BaseExtractor.ExtractDuration, BaseExtractor.ExtractLengthVariable, hfn]

/-- When the string extraction of a receiver returns the same outcome on the extractor it
returned and keeps the target type, so does `Extract`. -/
theorem extract_again {σ : Type} (E : Env) (R : Receiver σ) (x : σ)
    (hR : ∀ sr y1, R.ExtractStrFn x = .ret (sr, y1) →
      R.ExtractStrFn y1 = .ret (sr, y1) ∧ (R.base y1).VarType = (R.base x).VarType) :
    ∀ res x1, BaseExtractor.Extract E R x = .ret (res, x1) →
      BaseExtractor.Extract E R x1 = .ret (res, x1) := by
  intro res x1 h
  by_cases hk : (R.base x).VarType ∈ knownVarTypes
  · rcases hs : R.ExtractStrFn x with ⟨sr, y1⟩ | p | _
    · obtain ⟨h1, h2⟩ := hR sr y1 hs
      have hx := extract_state E R x y1 x1 sr res hs hk h
      subst hx
      rw [extract_congr E R x x1 hk h2 (by rw [h1, hs])]
      exact h
    · exfalso
      revert h
      cases hv : (R.base x).VarType <;>
        simp [BaseExtractor.Extract, hv, BaseExtractor.ExtractInt,
          BaseExtractor.ExtractFloat, BaseExtractor.ExtractBool, BaseExtractor.ExtractTime,
          BaseExtractor.ExtractDuration, BaseExtractor.ExtractLengthVariable, hs, Run.bind]
      rw [hv] at hk
      simp [knownVarTypes] at hk
    · exfalso
      revert h
      cases hv : (R.base x).VarType <;>
        simp [BaseExtractor.Extract, hv, BaseExtractor.ExtractInt,
          BaseExtractor.ExtractFloat, BaseExtractor.ExtractBool, BaseExtractor.ExtractTime,
          BaseExtractor.ExtractDuration, BaseExtractor.ExtractLengthVariable, hs, Run.bind]
      rw [hv] at hk
      simp [knownVarTypes] at hk
  · have h0 := extract_unknown_type_state E R x hk
    rw [h0] at h
    simp only [Run.ret.injEq, Prod.mk.injEq] at h
    rw [← h.2, h0, h.1]

/-- For a target type that `Extract` knows, a call of `Extract` that returns has run the
string extraction, which returned the extractor that `Extract` returns. -/
theorem extract_ret_strfn {σ : Type} (E : Env) (R : Receiver σ) (x x1 : σ)
    (res : Value × Option GoError) (hk : (R.base x).VarType ∈ knownVarTypes)
    (h : BaseExtractor.Extract E R x = .ret (res, x1)) :
    ∃ sr, R.ExtractStrFn x = .ret (sr, x1) := by
  rcases hs : R.ExtractStrFn x with ⟨sr, y1⟩ | p | _
  · have hx := extract_state E R x y1 x1 sr res hs hk h
    exact ⟨sr, by rw [hx]⟩
  · exfalso
    revert h
    cases hv : (R.base x).VarType <;>
      simp [BaseExtractor.Extract, hv, BaseExtractor.ExtractInt,
        BaseExtractor.ExtractFloat, BaseExtractor.ExtractBool, BaseExtractor.ExtractTime,
        BaseExtractor.ExtractDuration, BaseExtractor.ExtractLengthVariable, hs, Run.bind]
    rw [hv] at hk
    simp [knownVarTypes] at hk
  · exfalso
    revert h
    cases hv : (R.base x).VarType <;>
      simp [BaseExtractor.Extract, hv, BaseExtractor.ExtractInt,
        BaseExtractor.ExtractFloat, BaseExtractor.ExtractBool, BaseExtractor.ExtractTime,
        BaseExtractor.ExtractDuration, BaseExtractor.ExtractLengthVariable, hs, Run.bind]
    rw [hv] at hk
    simp [knownVarTypes] at hk

/-- The string extraction of a path extractor leaves the extractor as it was. -/
theorem xpath_strfn_state {T : Type} (x y1 : XPathExtractor T) (sr : String × Option GoError)
    (h : (XPathExtractor.receiver T).ExtractStrFn x = .ret (sr, y1)) : y1 = x := by
  simp only [XPathExtractor.receiver] at h
  obtain ⟨a, _, ha⟩ := Run.bind_eq_ret _ _ _ h
  simp only [Run.ret.injEq, Prod.mk.injEq] at ha
  exact ha.2.symm

/-- C23: a call of `Extract` on a path extractor leaves the extractor as it was, so that a
second call runs on the same document, query and target type and returns the same result;
a second call of `Extract` on a regular-expression extractor returns the result of the first
and leaves the extractor, a `Name` set by a named group included, as the first call left
it. -/
theorem extract_idempotent (E : Env) :
    (∀ (T : Type) (x x1 : XPathExtractor T) (res : Value × Option GoError),
      x.Extract E = .ret (res, x1) → x1 = x ∧ x1.Extract E = .ret (res, x1)) ∧
    (∀ (r r1 : RegexExtractor) (res : Value × Option GoError),
      r.Extract E = .ret (res, r1) → r1.Extract E = .ret (res, r1)) := by
  refine ⟨?_, ?_⟩
  · intro T x x1 res h
    have hx : x1 = x := by
      by_cases hk : ((XPathExtractor.receiver T).base x).VarType ∈ knownVarTypes
      · obtain ⟨sr, hs⟩ := extract_ret_strfn E _ x x1 res hk h
        exact xpath_strfn_state x x1 sr hs
      · have h0 := extract_unknown_type_state E (XPathExtractor.receiver T) x hk
        unfold XPathExtractor.Extract at h
        rw [h0] at h
        simp only [Run.ret.injEq, Prod.mk.injEq] at h
        exact h.2.symm
    exact ⟨hx, by rw [hx]; rw [hx] at h; exact h⟩
  · intro r r1 res h
    refine extract_again E (RegexExtractor.receiver E) r ?_ res r1 h
    intro sr y1 hs
    exact matchStr_again E.regexpCompile r y1 sr hs

/-- Witness for C23: the pattern `(?P<code>\d+)` on `status=42` gives `42` and sets `Name`
to `code`; the second call gives `42` again and leaves `Name` at `code`.  The path `//b`
over `<a><b>1</b></a>` gives `1` in both calls. -/
theorem extract_idempotent_witness :
    ((NewRegexExtractor "status=42" .TEXT).SetQuery "(?P<code>\\d+)").Extract sampleEnv
      = .ret ((.string "42", none),
          { (NewRegexExtractor "status=42" .TEXT).SetQuery "(?P<code>\\d+)" with
            Name := "code" }) ∧
    RegexExtractor.Extract sampleEnv
        { (NewRegexExtractor "status=42" .TEXT).SetQuery "(?P<code>\\d+)" with Name := "code" }
      = .ret ((.string "42", none),
          { (NewRegexExtractor "status=42" .TEXT).SetQuery "(?P<code>\\d+)" with
            Name := "code" }) ∧
    ((NewXMLExtractor sampleXmlLib "<a><b>1</b></a>" .XML).SetQuery "//b").Extract sampleEnv
      = .ret ((.string "1", none),
          (NewXMLExtractor sampleXmlLib "<a><b>1</b></a>" .XML).SetQuery "//b") :=
  ⟨rfl,
   (extract_idempotent sampleEnv).2
     ((NewRegexExtractor "status=42" .TEXT).SetQuery "(?P<code>\\d+)")
     { (NewRegexExtractor "status=42" .TEXT).SetQuery "(?P<code>\\d+)" with Name := "code" }
     (.string "42", none) rfl,
   ((extract_idempotent sampleEnv).1 XNode
     ((NewXMLExtractor sampleXmlLib "<a><b>1</b></a>" .XML).SetQuery "//b")
     ((NewXMLExtractor sampleXmlLib "<a><b>1</b></a>" .XML).SetQuery "//b")
     (.string "1", none) rfl).2⟩


/-! ## C29: the `PrevSibling` links of the synthetic root -/

theorem HHeap.setPrev_prevSibling (h : HHeap) (a b : Nat) (v : Option Nat) :
    ((h.setPrev a v).node b).PrevSibling = if b = a then v else (h.node b).PrevSibling := by
  by_cases hb : b = a <;> simp [HHeap.setPrev, Function.update, hb]

theorem HHeap.setNext_prevSibling (h : HHeap) (a b : Nat) (v : Option Nat) :
    ((h.setNext a v).node b).PrevSibling = (h.node b).PrevSibling := by
  by_cases hb : b = a <;> simp [HHeap.setNext, Function.update, hb]

/-- The `PrevSibling` links that the second loop of the HTML query step leaves in the
matched nodes `child :: rest`: the first gets `prev`, the last gets the node before it,
and every node between them gets itself. -/
theorem linkLoop_prevSibling (rest : List Nat) :
    ∀ (h : HHeap) (child prev : Nat), (child :: rest).Nodup → rest ≠ [] →
      ∀ (j a : Nat), (child :: rest)[j]? = some a →
        ((linkLoop h child prev rest).node a).PrevSibling
          = if j = 0 then some prev
            else if j + 1 = (child :: rest).length then (child :: rest)[j - 1]?
            else some a := by
  induction rest with
  | nil => intro h child prev _ hne; exact absurd rfl hne
  | cons n rest ih =>
    intro h child prev hnd _ j a hj
    have hcn : child ≠ n := by
      intro e
      simp [e] at hnd
    have hnd1 : (n :: rest).Nodup := (List.nodup_cons.mp hnd).2
    have hc : child ∉ n :: rest := (List.nodup_cons.mp hnd).1
    simp only [linkLoop]
    cases j with
    | zero =>
      simp only [List.getElem?_cons_zero, Option.some.injEq] at hj
      subst hj
      rw [linkLoop_node_of_not_mem _ _ _ _ _ (by
        intro hmem
        rcases List.mem_cons.mp hmem with e | e
        · exact hcn e
        · exact hc (List.mem_cons_of_mem _ e))]
      simp [HHeap.setPrev_prevSibling]
    | succ k =>
      simp only [List.getElem?_cons_succ] at hj
      by_cases hr : rest = []
      · subst hr
        cases k with
        | zero =>
          simp only [List.getElem?_cons_zero, Option.some.injEq] at hj
          subst hj
          simp [linkLoop, HHeap.setPrev_prevSibling, HHeap.setNext_prevSibling, Ne.symm hcn]
        | succ k => simp at hj
      · have h1 := ih ((((h.setNext child (some n)).setPrev n (some child)).setPrev child
            (some prev))) n n hnd1 hr k a hj
        rw [h1]
        cases k with
        | zero =>
          simp only [List.getElem?_cons_zero, Option.some.injEq] at hj
          subst hj
          simp [hr]
        | succ k => simp

/-- The `PrevSibling` links of the matched nodes in the heap that the HTML query step
leaves for two or more distinct matches: every node but the last points to itself, and the
last points to the node before it. -/
theorem relink_prevSibling (h : HHeap) (n0 n1 : Nat) (rest : List Nat)
    (hnd : (n0 :: n1 :: rest).Nodup) (j a : Nat) (hj : (n0 :: n1 :: rest)[j]? = some a) :
    ((relink h n0 (n1 :: rest)).node a).PrevSibling
      = if j + 1 = (n0 :: n1 :: rest).length then (n0 :: n1 :: rest)[j - 1]? else some a := by
  simp only [relink]
  rw [linkLoop_prevSibling (n1 :: rest) _ n0 n0 hnd (by simp) j a hj]
  cases j with
  | zero =>
    simp only [List.getElem?_cons_zero, Option.some.injEq] at hj
    simp [hj]
  | succ k => simp

/-- C29 (where the claim fails): for two or more distinct matched nodes, in the heap that
the HTML query step returns, the `PrevSibling` of the first child of the synthetic root is
the first child itself (not nil), the `PrevSibling` of every child but the last is that
child itself, and only the last child's `PrevSibling` is the child before it; so the
`PrevSibling` links are the inverse of the `NextSibling` links at the last child only. -/
theorem html_query_prev_links (queryAll : HRef → String → List Nat × Option GoError)
    (h : HHeap) (root : Nat) (xpath : String) (n0 n1 : Nat) (rest : List Nat)
    (hquery : queryAll ⟨h, root⟩ xpath = (n0 :: n1 :: rest, none))
    (hdistinct : (n0 :: n1 :: rest).Nodup) :
    htmlQuery queryAll (some ⟨h, root⟩) xpath
      = .ret (some ⟨relink h n0 (n1 :: rest), h.size⟩, none) ∧
    ((relink h n0 (n1 :: rest)).node n0).PrevSibling = some n0 ∧
    ((relink h n0 (n1 :: rest)).node n0).PrevSibling ≠ predIn (n0 :: n1 :: rest) n0 ∧
    (∀ j a, (n0 :: n1 :: rest)[j]? = some a → j + 1 < (n0 :: n1 :: rest).length →
      ((relink h n0 (n1 :: rest)).node a).PrevSibling = some a) ∧
    (∀ j a, (n0 :: n1 :: rest)[j]? = some a → j + 1 = (n0 :: n1 :: rest).length →
      ((relink h n0 (n1 :: rest)).node a).PrevSibling = (n0 :: n1 :: rest)[j - 1]?) := by
  have h0 : ((relink h n0 (n1 :: rest)).node n0).PrevSibling = some n0 := by
    rw [relink_prevSibling h n0 n1 rest hdistinct 0 n0 rfl]
    simp
  have hne : n0 ≠ n1 := by
    intro e
    simp [e] at hdistinct
  have hnot : n0 ∉ n1 :: rest := (List.nodup_cons.mp hdistinct).1
  refine ⟨?_, h0, ?_, ?_, ?_⟩
  · simp [htmlQuery, hquery, unlinkLoop_size]
  · rw [h0]
    have hp : ∀ (l : List Nat) (x : Nat), n0 ∉ l → predIn (x :: l) n0 = none := by
      intro l
      induction l with
      | nil => intro x _; rfl
      | cons y l ih =>
        intro x hy
        have hy1 : n0 ≠ y := fun e => hy (by simp [e])
        have hy2 : n0 ∉ l := fun e => hy (List.mem_cons_of_mem _ e)
        simp only [predIn, hy1, if_false]
        exact ih y hy2
    rw [hp (n1 :: rest) n0 hnot]
    simp
  · intro j a hj hlt
    rw [relink_prevSibling h n0 n1 rest hdistinct j a hj, if_neg (Nat.ne_of_lt hlt)]
  · intro j a hj hlast
    rw [relink_prevSibling h n0 n1 rest hdistinct j a hj, if_pos hlast]

/-- Witness for C29: `//li` over `<ul><li>a</li><li>b</li></ul>` matches the nodes 5 and 7;
in the returned heap the `PrevSibling` of the node 5 is the node 5, where a well-formed
sibling list has nil, and the `PrevSibling` of the node 7 is the node 5.  With the three
matches 5, 7 and 9 of `//li` in a list of three items, the `PrevSibling` of the node 7 is
the node 7, where a well-formed sibling list has the node 5. -/
theorem html_query_prev_links_witness :
    htmlQuery sampleQueryAll (some ⟨sampleListDoc, 0⟩) "//li"
      = .ret (some ⟨relink sampleListDoc 5 [7], 9⟩, none) ∧
    ((relink sampleListDoc 5 [7]).node 5).PrevSibling = some 5 ∧
    predIn [5, 7] 5 = none ∧
    ((relink sampleListDoc 5 [7]).node 7).PrevSibling = some 5 ∧
    sampleQueryAll ⟨sampleThreeDoc, 0⟩ "//li" = ([5, 7, 9], none) ∧
    ((relink sampleThreeDoc 5 [7, 9]).node 7).PrevSibling = some 7 ∧
    predIn [5, 7, 9] 7 = some 5 :=
  ⟨(html_query_prev_links sampleQueryAll sampleListDoc 0 "//li" 5 7 [] rfl (by decide)).1,
   (html_query_prev_links sampleQueryAll sampleListDoc 0 "//li" 5 7 [] rfl (by decide)).2.1,
   by decide,
   (html_query_prev_links sampleQueryAll sampleListDoc 0 "//li" 5 7 [] rfl
      (by decide)).2.2.2.2 1 7 rfl rfl,
   rfl,
   (html_query_prev_links sampleQueryAll sampleThreeDoc 0 "//li" 5 7 [9] rfl
      (by decide)).2.2.2.1 1 7 rfl (by decide),
   by decide⟩


/-! ## C25: `RemoveInvalidChars` -/

theorem skipNonAlphabetic_eq (name : List Nat) :
    skipNonAlphabetic name = name.dropWhile (fun ch => !isLetter ch) := by
  induction name with
  | nil => rfl
  | cons ch rest ih =>
    by_cases h : isLetter ch = true
    · have h1 := h
      unfold isLetter at h1
      simp [skipNonAlphabetic, List.dropWhile, h, h1]
    · have h1 := h
      unfold isLetter at h1
      simp only [Bool.not_eq_true] at h h1
      simp [skipNonAlphabetic, List.dropWhile, h, h1, ih]

theorem removeLoop_eq (l result : List Nat) :
    removeLoop l result = result ++ l.filter ValidMetricChar := by
  induction l generalizing result with
  | nil => simp [removeLoop]
  | cons ch rest ih =>
    by_cases h : ValidMetricChar ch = true
    · simp [removeLoop, h, ih]
    · simp [removeLoop, h, ih]

/-- `RemoveInvalidChars` drops the bytes before the first letter, and after them the bytes
that fail `ValidMetricChar`. -/
theorem removeInvalidChars_eq (name : List Nat) :
    RemoveInvalidChars name
      = (name.dropWhile (fun ch => !isLetter ch)).filter ValidMetricChar := by
  simp [RemoveInvalidChars, removeLoop_eq, skipNonAlphabetic_eq]

theorem isLetter_valid (ch : Nat) (h : isLetter ch = true) : ValidMetricChar ch = true := by
  unfold isLetter at h
  unfold ValidMetricChar
  simp only [Bool.or_eq_true, Bool.and_eq_true, decide_eq_true_eq] at h ⊢
  tauto

theorem metricRestChar_eq (ch : Nat) : metricRestChar ch = ValidMetricChar ch := rfl

/-- C25, amended: `RemoveInvalidChars` returns the input from its first letter on, with the
bytes that fail `ValidMetricChar` deleted, in the original order; so a valid metric name that
starts with a letter is returned unchanged. -/
theorem removeInvalidChars_from_first_letter (name : List Nat) :
    RemoveInvalidChars name
      = (name.dropWhile (fun ch => !isLetter ch)).filter ValidMetricChar ∧
    (ValidMetricName name = true → (∀ ch ∈ name.head?, isLetter ch = true) →
      RemoveInvalidChars name = name) := by
  refine ⟨removeInvalidChars_eq name, ?_⟩
  intro hvalid hhead
  rw [removeInvalidChars_eq]
  cases name with
  | nil => rfl
  | cons ch rest =>
    have hl : isLetter ch = true := hhead ch (by simp)
    simp only [ValidMetricName, validMetricMatchString, Bool.and_eq_true, List.all_eq_true]
      at hvalid
    have hd : (ch :: rest).dropWhile (fun ch => !isLetter ch) = ch :: rest := by
      simp [List.dropWhile, hl]
    rw [hd, List.filter_eq_self]
    intro a ha
    rcases List.mem_cons.mp ha with e | e
    · rw [e]; exact isLetter_valid ch hl
    · exact hvalid.2 a e

/-- Witness for C25, amended: `up_time` is a valid metric name that starts with a letter, and
it is returned unchanged. -/
theorem removeInvalidChars_from_first_letter_witness :
    ValidMetricName (asciiBytes "up_time") = true ∧
    RemoveInvalidChars (asciiBytes "up_time") = asciiBytes "up_time" :=
  ⟨by decide,
   (removeInvalidChars_from_first_letter (asciiBytes "up_time")).2 (by decide) (by decide)⟩

/-- Counterexample to C25 as stated: every byte of `_up` passes `ValidMetricChar` and `_up`
is a valid metric name, but `RemoveInvalidChars` returns `up`: it deletes the valid byte
`_` before the first letter. -/
theorem removeInvalidChars_drops_valid_bytes :
    (asciiBytes "_up").all ValidMetricChar = true ∧
    ValidMetricName (asciiBytes "_up") = true ∧
    RemoveInvalidChars (asciiBytes "_up") = asciiBytes "up" ∧
    RemoveInvalidChars (asciiBytes "_up") ≠ (asciiBytes "_up").filter ValidMetricChar ∧
    RemoveInvalidChars (asciiBytes "_up") ≠ asciiBytes "_up" := by
  decide

/-! ## C26 and C27: `GetName` -/

theorem getNameLoop_eq (fields : List (List Nat)) (name : List Nat) :
    getNameLoop fields name
      = name ++ ((fields.map RemoveInvalidChars).filter (fun v => 0 < v.length)).flatMap
          (fun v => v ++ [95]) := by
  induction fields generalizing name with
  | nil => simp [getNameLoop]
  | cons v rest ih =>
    by_cases h : 0 < (RemoveInvalidChars v).length
    · simp [getNameLoop, h, ih]
    · simp [getNameLoop, h, ih]

theorem dropLast_flatMap_underscore (vs : List (List Nat)) (hne : vs ≠ []) :
    (vs.flatMap (fun v => v ++ [95])).dropLast = [95].intercalate vs := by
  induction vs with
  | nil => exact absurd rfl hne
  | cons v rest ih =>
    cases rest with
    | nil => simp [List.intercalate]
    | cons w r =>
      have h1 := ih (by simp)
      have hb : (w :: r).flatMap (fun v => v ++ [95]) ≠ [] := by simp
      rw [List.flatMap_cons, List.dropLast_append_of_ne_nil _ hb, h1]
      simp [List.intercalate]

theorem getLast_flatMap_underscore (vs : List (List Nat)) (hne : vs ≠ []) :
    (vs.flatMap (fun v => v ++ [95])).getLast? = some 95 := by
  induction vs with
  | nil => exact absurd rfl hne
  | cons v rest ih =>
    cases rest with
    | nil => simp
    | cons w r =>
      have h1 := ih (by simp)
      have hb : (w :: r).flatMap (fun v => v ++ [95]) ≠ [] := by simp
      rw [List.flatMap_cons, List.getLast?_append_of_ne_nil _ hb, h1]

/-- `GetName` is the join with `_` of the fields that `RemoveInvalidChars` leaves not
empty. -/
theorem getName_eq (fields : List (List Nat)) :
    GetName fields
      = [95].intercalate ((fields.map RemoveInvalidChars).filter (fun v => 0 < v.length)) := by
  unfold GetName
  rw [getNameLoop_eq]
  simp only [List.nil_append]
  generalize hvs : (fields.map RemoveInvalidChars).filter (fun v => 0 < v.length) = vs
  cases hv : vs with
  | nil => simp [List.intercalate]
  | cons v rest =>
    have hne : v :: rest ≠ [] := by simp
    have hlast := getLast_flatMap_underscore (v :: rest) hne
    have hdrop := dropLast_flatMap_underscore (v :: rest) hne
    rw [List.getLast?_eq_getElem?] at hlast
    rw [List.dropLast_eq_take] at hdrop
    have hpos : 0 < ((v :: rest).flatMap (fun v => v ++ [95])).length := by
      simp
    simp only [hpos, hlast, and_self, if_true, hdrop]

/-- C26: `GetName` returns the join with a single `_` of the fields that `RemoveInvalidChars`
leaves not empty, in their order, and the empty string when `RemoveInvalidChars` leaves
every field empty. -/
theorem getName_joins_sanitized (fields : List (List Nat)) :
    GetName fields
      = [95].intercalate ((fields.map RemoveInvalidChars).filter (fun v => 0 < v.length)) ∧
    ((∀ f ∈ fields, RemoveInvalidChars f = []) → GetName fields = []) := by
  refine ⟨getName_eq fields, ?_⟩
  intro hall
  rw [getName_eq]
  have hnil : (fields.map RemoveInvalidChars).filter (fun v => 0 < v.length) = [] := by
    rw [List.filter_eq_nil_iff]
    intro v hv
    obtain ⟨f, hf, hfv⟩ := List.mem_map.mp hv
    rw [← hfv, hall f hf]
    simp
  rw [hnil]
  simp [List.intercalate]

/-- Witness for C26: of the fields ``, `my app`, `_x_` and `99` the second and the third are
left not empty, as `myapp` and `x_`, and the name is `myapp_x_`; the fields ``, `9` and `-`
are all left empty, and the name is empty. -/
theorem getName_joins_sanitized_witness :
    GetName [asciiBytes "", asciiBytes "my app", asciiBytes "_x_", asciiBytes "99"]
      = asciiBytes "myapp_x_" ∧
    GetName [asciiBytes "", asciiBytes "9", asciiBytes "-"] = [] :=
  ⟨by decide,
   (getName_joins_sanitized [asciiBytes "", asciiBytes "9", asciiBytes "-"]).2 (by decide)⟩

theorem removeInvalidChars_valid (name : List Nat) :
    ∀ ch ∈ RemoveInvalidChars name, ValidMetricChar ch = true := by
  intro ch hch
  rw [removeInvalidChars_eq] at hch
  exact (List.mem_filter.mp hch).2

theorem dropWhile_head (p : Nat → Bool) (l : List Nat) :
    l.dropWhile p = [] ∨ ∃ c t, l.dropWhile p = c :: t ∧ p c = false := by
  induction l with
  | nil => exact Or.inl rfl
  | cons a rest ih =>
    by_cases h : p a = true
    · simpa [List.dropWhile, h] using ih
    · exact Or.inr ⟨a, rest, by simp [List.dropWhile, h], by simpa using h⟩

/-- What `RemoveInvalidChars` returns is empty or starts with a letter. -/
theorem removeInvalidChars_head (name : List Nat) :
    RemoveInvalidChars name = [] ∨
      ∃ c t, RemoveInvalidChars name = c :: t ∧ isLetter c = true := by
  rw [removeInvalidChars_eq]
  rcases dropWhile_head (fun ch => !isLetter ch) name with h | ⟨c, t, h, hc⟩
  · rw [h]; exact Or.inl rfl
  · rw [h]
    have hl : isLetter c = true := by simpa using hc
    exact Or.inr ⟨c, t.filter ValidMetricChar, by simp [List.filter, isLetter_valid c hl], hl⟩

theorem mem_intercalate_underscore (vs : List (List Nat)) :
    ∀ ch ∈ [95].intercalate vs, ch = 95 ∨ ∃ v ∈ vs, ch ∈ v := by
  induction vs with
  | nil => simp [List.intercalate]
  | cons v rest ih =>
    cases rest with
    | nil =>
      intro ch hch
      simp [List.intercalate] at hch
      exact Or.inr ⟨v, by simp, hch⟩
    | cons w r =>
      intro ch hch
      have hshape : [95].intercalate (v :: w :: r) = v ++ 95 :: [95].intercalate (w :: r) := by
        simp [List.intercalate]
      rw [hshape] at hch
      rcases List.mem_append.mp hch with h | h
      · exact Or.inr ⟨v, by simp, h⟩
      · rcases List.mem_cons.mp h with e | e
        · exact Or.inl e
        · rcases ih ch e with e1 | ⟨u, hu, hcu⟩
          · exact Or.inl e1
          · exact Or.inr ⟨u, List.mem_cons_of_mem _ hu, hcu⟩

theorem intercalate_cons_head (v : List Nat) (rest : List (List Nat)) :
    ∃ tail, [95].intercalate (v :: rest) = v ++ tail := by
  cases rest with
  | nil => exact ⟨[], by simp [List.intercalate]⟩
  | cons w r => exact ⟨95 :: [95].intercalate (w :: r), by simp [List.intercalate]⟩

/-- C27: `GetName` returns the empty string or a string that `ValidMetricName` accepts, and
a string that is not empty begins with a letter. -/
theorem getName_valid (fields : List (List Nat)) :
    GetName fields = [] ∨
      (ValidMetricName (GetName fields) = true ∧
        ∃ ch rest, GetName fields = ch :: rest ∧ isLetter ch = true) := by
  rw [getName_eq]
  generalize hvs : (fields.map RemoveInvalidChars).filter (fun v => 0 < v.length) = vs
  have hmem : ∀ v ∈ vs, ∃ f, v = RemoveInvalidChars f ∧ 0 < v.length := by
    intro v hv
    rw [← hvs] at hv
    obtain ⟨hv1, hv2⟩ := List.mem_filter.mp hv
    obtain ⟨f, _, hfv⟩ := List.mem_map.mp hv1
    exact ⟨f, hfv.symm, by simpa using hv2⟩
  cases vs with
  | nil => exact Or.inl (by simp [List.intercalate])
  | cons v rest =>
    right
    obtain ⟨f, hf, hlen⟩ := hmem v (by simp)
    obtain ⟨tail, htail⟩ := intercalate_cons_head v rest
    have hall : ∀ ch ∈ [95].intercalate (v :: rest), ValidMetricChar ch = true := by
      intro ch hch
      rcases mem_intercalate_underscore (v :: rest) ch hch with e | ⟨u, hu, hcu⟩
      · rw [e]; decide
      · obtain ⟨g, hg, _⟩ := hmem u hu
        rw [hg] at hcu
        exact removeInvalidChars_valid g ch hcu
    rcases removeInvalidChars_head f with h0 | ⟨c, t, hct, hc⟩
    · rw [hf, h0] at hlen
      simp at hlen
    · rw [← hf] at hct
      rw [htail, hct] at hall ⊢
      refine ⟨?_, c, t ++ tail, rfl, hc⟩
      simp only [List.cons_append, ValidMetricName, validMetricMatchString, Bool.and_eq_true,
        List.all_eq_true]
      refine ⟨?_, fun a ha => ?_⟩
      · unfold isLetter at hc
        unfold metricFirstChar
        simp only [Bool.or_eq_true, Bool.and_eq_true, decide_eq_true_eq] at hc ⊢
        tauto
      · rw [metricRestChar_eq]
        exact hall a (by simp only [List.cons_append]; exact List.mem_cons_of_mem _ ha)


/-! ## C28: `getAndValid` -/

theorem labelNamesLoop_eq (labels : List (List Nat)) :
    labelNamesLoop labels
      = (labels.find? (fun l => !ValidLabelName l)).map MetricError.invalidLabelName := by
  induction labels with
  | nil => rfl
  | cons l rest ih =>
    by_cases h : ValidLabelName l = true
    · simp [labelNamesLoop, List.find?, h, ih]
    · simp only [Bool.not_eq_true] at h
      simp [labelNamesLoop, List.find?, h]

theorem constLabelNamesLoop_eq (constLabels : List (List Nat × List Nat)) :
    constLabelNamesLoop constLabels
      = ((constLabels.map Prod.fst).find? (fun l => !ValidLabelName l)).map
          MetricError.invalidConstLabelName := by
  induction constLabels with
  | nil => rfl
  | cons kv rest ih =>
    obtain ⟨l, v⟩ := kv
    by_cases h : ValidLabelName l = true
    · simp [constLabelNamesLoop, List.find?, h, ih]
    · simp only [Bool.not_eq_true] at h
      simp [constLabelNamesLoop, List.find?, h]

theorem lookup_isSome_iff (constLabels : List (List Nat × List Nat)) (l : List Nat) :
    (constLabels.lookup l).isSome = true ↔ l ∈ constLabels.map Prod.fst := by
  induction constLabels with
  | nil => simp
  | cons kv rest ih =>
    obtain ⟨k, v⟩ := kv
    by_cases h : l = k
    · simp [List.lookup, h]
    · have hb : (l == k) = false := by simpa using h
      simp [List.lookup, hb, ih, h]

theorem duplicatedLoop_eq (constLabels : List (List Nat × List Nat))
    (labels : List (List Nat)) :
    duplicatedLoop constLabels labels
      = (labels.find? (fun l => decide (l ∈ constLabels.map Prod.fst))).map
          MetricError.duplicatedLabel := by
  induction labels with
  | nil => rfl
  | cons l rest ih =>
    by_cases h : l ∈ constLabels.map Prod.fst
    · have h1 := (lookup_isSome_iff constLabels l).mpr h
      simp only [duplicatedLoop, h1, if_true, List.find?, h, decide_True, Option.map_some']
    · have h1 : (constLabels.lookup l).isSome = false := by
        cases hx : (constLabels.lookup l).isSome with
        | false => rfl
        | true => exact absurd ((lookup_isSome_iff constLabels l).mp hx) h
      simp only [duplicatedLoop, h1, List.find?, h, decide_False, ih]
      simp

/-- `getAndValid` returns the generated name when no check is violated, and the empty name
with the error of the first violated check otherwise. -/
theorem getAndValid_eq (nspace subsystem name metric : List Nat)
    (labels : List (List Nat)) (constLabels : List (List Nat × List Nat)) :
    getAndValid nspace subsystem name metric labels constLabels
      = (match firstViolation (GetName [nspace, subsystem, name, metric]) labels constLabels with
         | none => (GetName [nspace, subsystem, name, metric], none)
         | some err => ([], some err)) := by
  simp only [getAndValid, firstViolation, labelNamesLoop_eq, constLabelNamesLoop_eq,
    duplicatedLoop_eq]
  by_cases h1 : ValidMetricName (GetName [nspace, subsystem, name, metric]) = false
  · simp [h1]
  · simp only [h1, if_false]
    cases labels.find? (fun l => !ValidLabelName l) with
    | some l => simp
    | none =>
      simp only [Option.map_none']
      cases (constLabels.map Prod.fst).find? (fun l => !ValidLabelName l) with
      | some l => simp
      | none =>
        simp only [Option.map_none']
        cases labels.find? (fun l => decide (l ∈ constLabels.map Prod.fst)) with
        | some l => simp
        | none => simp

/-- When `getAndValid` returns no error, it returns the generated name. -/
theorem getAndValid_name (nspace subsystem name metric : List Nat)
    (labels : List (List Nat)) (constLabels : List (List Nat × List Nat))
    (h : (getAndValid nspace subsystem name metric labels constLabels).2 = none) :
    getAndValid nspace subsystem name metric labels constLabels
      = (GetName [nspace, subsystem, name, metric], none) := by
  rw [getAndValid_eq] at h ⊢
  cases hv : firstViolation (GetName [nspace, subsystem, name, metric]) labels constLabels with
  | none => rfl
  | some err => rw [hv] at h; simp at h

/-- C28: `getAndValid` returns no error exactly when the generated name is a valid metric
name, every label and every key of the const labels is a valid label name, and no label is
a key of the const labels; it then returns the generated name.  Otherwise it returns the
empty name and the error of the first violated check, in the order metric name, labels,
const labels, duplicates. -/
theorem getAndValid_first_violation (nspace subsystem name metric : List Nat)
    (labels : List (List Nat)) (constLabels : List (List Nat × List Nat)) :
    ((getAndValid nspace subsystem name metric labels constLabels).2 = none ↔
      (ValidMetricName (GetName [nspace, subsystem, name, metric]) = true ∧
       (∀ l ∈ labels, ValidLabelName l = true) ∧
       (∀ kv ∈ constLabels, ValidLabelName kv.1 = true) ∧
       (∀ l ∈ labels, l ∉ constLabels.map Prod.fst))) ∧
    getAndValid nspace subsystem name metric labels constLabels
      = (match firstViolation (GetName [nspace, subsystem, name, metric]) labels constLabels with
         | none => (GetName [nspace, subsystem, name, metric], none)
         | some err => ([], some err)) := by
  have hspec := getAndValid_eq nspace subsystem name metric labels constLabels
  refine ⟨?_, hspec⟩
  rw [hspec]
  unfold firstViolation
  by_cases h1 : ValidMetricName (GetName [nspace, subsystem, name, metric]) = false
  · simp [h1]
  · have h1t : ValidMetricName (GetName [nspace, subsystem, name, metric]) = true := by
      simpa using h1
    rw [h1t]
    cases hl : labels.find? (fun l => !ValidLabelName l) with
    | some l =>
      have hm := List.mem_of_find?_eq_some hl
      have hp := List.find?_some hl
      refine ⟨fun h => absurd h (by simp), fun hall => ?_⟩
      have := hall.2.1 l hm
      simp [this] at hp
    | none =>
      have hlab : ∀ l ∈ labels, ValidLabelName l = true := by
        intro l hm
        have := List.find?_eq_none.mp hl l hm
        simpa using this
      cases hc : (constLabels.map Prod.fst).find? (fun l => !ValidLabelName l) with
      | some l =>
        have hm := List.mem_of_find?_eq_some hc
        have hp := List.find?_some hc
        obtain ⟨kv, hkv, hk⟩ := List.mem_map.mp hm
        refine ⟨fun h => absurd h (by simp), fun hall => ?_⟩
        have := hall.2.2.1 kv hkv
        rw [hk] at this
        simp [this] at hp
      | none =>
        have hconst : ∀ kv ∈ constLabels, ValidLabelName kv.1 = true := by
          intro kv hkv
          have := List.find?_eq_none.mp hc kv.1 (List.mem_map.mpr ⟨kv, hkv, rfl⟩)
          simpa using this
        cases hd : labels.find? (fun l => decide (l ∈ constLabels.map Prod.fst)) with
        | some l =>
          have hm := List.mem_of_find?_eq_some hd
          have hp := List.find?_some hd
          refine ⟨fun h => absurd h (by simp), fun hall => ?_⟩
          exact absurd (of_decide_eq_true hp) (hall.2.2.2 l hm)
        | none =>
          refine ⟨fun _ => ⟨rfl, hlab, hconst, ?_⟩, fun _ => by simp⟩
          intro l hm
          have := List.find?_eq_none.mp hd l hm
          simpa using this


/-! ## C24: the registries of counters and gauges -/

theorem lookup_mapSet_self (m : List (List Nat × Collector)) (key : List Nat) (v : Collector) :
    (mapSet m key v).lookup key = some v := by
  simp [mapSet, List.lookup]

theorem lookup_filter_ne (m : List (List Nat × Collector)) (key k : List Nat) (h : k ≠ key) :
    (m.filter (fun e => e.1 ≠ key)).lookup k = m.lookup k := by
  induction m with
  | nil => rfl
  | cons e rest ih =>
    obtain ⟨a, b⟩ := e
    simp only [ne_eq, decide_not] at ih ⊢
    by_cases ha : a = key
    · subst ha
      have hk : (k == a) = false := by simpa using h
      simp [List.filter, List.lookup, hk, ih]
    · by_cases hka : k = a
      · simp [List.filter, ha, List.lookup, hka]
      · have hk : (k == a) = false := by simpa using hka
        simp [List.filter, ha, List.lookup, hk, ih]

theorem lookup_mapSet_ne (m : List (List Nat × Collector)) (key k : List Nat) (v : Collector)
    (h : k ≠ key) : (mapSet m key v).lookup k = m.lookup k := by
  have hk : (k == key) = false := by simpa using h
  simp only [mapSet, List.lookup, hk]
  exact lookup_filter_ne m key k h

/-- `NewCounter`, case by case. -/
theorem newCounter_cases (P : PromLib) (st : MetricState) (a : MetricArgs) :
    (a.check.2 ≠ none → a.newCounter P st = (.ret none, st)) ∧
    (a.check.2 = none → ∀ m, Counter st a.key = some m →
      a.newCounter P st = (.ret (some m), st)) ∧
    (a.check.2 = none → Counter st a.key = none →
      (a.newCounter P st).2.counterMap
          = mapSet st.counterMap a.key
              ⟨st.nextAddress, .counter, a.key, a.help, mergeLabels a.labels a.constLabels⟩ ∧
      (a.newCounter P st).2.gaugeMap = st.gaugeMap ∧
      (a.newCounter P st).1
        = if P.accepts st.registered
              ⟨st.nextAddress, .counter, a.key, a.help, mergeLabels a.labels a.constLabels⟩
          then .ret (some ⟨st.nextAddress, .counter, a.key, a.help,
                  mergeLabels a.labels a.constLabels⟩)
          else .panic .mustRegister) := by
  refine ⟨?_, ?_, ?_⟩
  · intro h
    unfold MetricArgs.newCounter NewCounter
    unfold MetricArgs.check at h
    rcases hc : getAndValid a.nspace a.subsystem a.name a.metric a.labels a.constLabels
      with ⟨n, _ | e⟩
    · rw [hc] at h; exact absurd rfl h
    · rfl
  · intro h m hm
    unfold MetricArgs.check at h
    unfold MetricArgs.newCounter NewCounter
    rw [getAndValid_name _ _ _ _ _ _ h]
    unfold Counter MetricArgs.key at hm
    simp only [hm]
  · intro h hm
    unfold MetricArgs.check at h
    unfold MetricArgs.newCounter NewCounter
    rw [getAndValid_name _ _ _ _ _ _ h]
    unfold Counter at hm
    unfold MetricArgs.key at hm ⊢
    simp only [hm]
    by_cases hp : P.accepts st.registered
        ⟨st.nextAddress, .counter, GetName [a.nspace, a.subsystem, a.name, a.metric], a.help,
          mergeLabels a.labels a.constLabels⟩ = true
    · simp [hp]
    · simp [hp]

/-- `NewGauge`, case by case. -/
theorem newGauge_cases (P : PromLib) (st : MetricState) (a : MetricArgs) :
    (a.check.2 ≠ none → a.newGauge P st = (.ret none, st)) ∧
    (a.check.2 = none → ∀ m, Gauge st a.key = some m →
      a.newGauge P st = (.ret (some m), st)) ∧
    (a.check.2 = none → Gauge st a.key = none →
      (a.newGauge P st).2.gaugeMap
          = mapSet st.gaugeMap a.key
              ⟨st.nextAddress, .gauge, a.key, a.help, mergeLabels a.labels a.constLabels⟩ ∧
      (a.newGauge P st).2.counterMap = st.counterMap ∧
      (a.newGauge P st).1
        = if P.accepts st.registered
              ⟨st.nextAddress, .gauge, a.key, a.help, mergeLabels a.labels a.constLabels⟩
          then .ret (some ⟨st.nextAddress, .gauge, a.key, a.help,
                  mergeLabels a.labels a.constLabels⟩)
          else .panic .mustRegister) := by
  refine ⟨?_, ?_, ?_⟩
  · intro h
    unfold MetricArgs.newGauge NewGauge
    unfold MetricArgs.check at h
    rcases hc : getAndValid a.nspace a.subsystem a.name a.metric a.labels a.constLabels
      with ⟨n, _ | e⟩
    · rw [hc] at h; exact absurd rfl h
    · rfl
  · intro h m hm
    unfold MetricArgs.check at h
    unfold MetricArgs.newGauge NewGauge
    rw [getAndValid_name _ _ _ _ _ _ h]
    unfold Gauge MetricArgs.key at hm
    simp only [hm]
  · intro h hm
    unfold MetricArgs.check at h
    unfold MetricArgs.newGauge NewGauge
    rw [getAndValid_name _ _ _ _ _ _ h]
    unfold Gauge at hm
    unfold MetricArgs.key at hm ⊢
    simp only [hm]
    by_cases hp : P.accepts st.registered
        ⟨st.nextAddress, .gauge, GetName [a.nspace, a.subsystem, a.name, a.metric], a.help,
          mergeLabels a.labels a.constLabels⟩ = true
    · simp [hp]
    · simp [hp]

/-- An entry of `counterMap` stays what it is through every call. -/
theorem counter_preserved (P : PromLib) (st : MetricState) (c : MetricCall) (key : List Nat)
    (m : Collector) (h : Counter st key = some m) : Counter (c.run P st) key = some m := by
  cases c with
  | newCounter a =>
    show Counter (a.newCounter P st).2 key = some m
    by_cases hc : a.check.2 = none
    · cases hk : Counter st a.key with
      | some m0 => rw [(newCounter_cases P st a).2.1 hc m0 hk]; exact h
      | none =>
        have hne : key ≠ a.key := by
          intro e
          rw [e, hk] at h
          exact Option.noConfusion h
        unfold Counter
        rw [((newCounter_cases P st a).2.2 hc hk).1, lookup_mapSet_ne _ _ _ _ hne]
        exact h
    · rw [(newCounter_cases P st a).1 hc]; exact h
  | newGauge a =>
    show Counter (a.newGauge P st).2 key = some m
    by_cases hc : a.check.2 = none
    · cases hk : Gauge st a.key with
      | some m0 => rw [(newGauge_cases P st a).2.1 hc m0 hk]; exact h
      | none =>
        unfold Counter
        rw [((newGauge_cases P st a).2.2 hc hk).2.1]
        exact h
    · rw [(newGauge_cases P st a).1 hc]; exact h

/-- An entry of `gaugeMap` stays what it is through every call. -/
theorem gauge_preserved (P : PromLib) (st : MetricState) (c : MetricCall) (key : List Nat)
    (m : Collector) (h : Gauge st key = some m) : Gauge (c.run P st) key = some m := by
  cases c with
  | newGauge a =>
    show Gauge (a.newGauge P st).2 key = some m
    by_cases hc : a.check.2 = none
    · cases hk : Gauge st a.key with
      | some m0 => rw [(newGauge_cases P st a).2.1 hc m0 hk]; exact h
      | none =>
        have hne : key ≠ a.key := by
          intro e
          rw [e, hk] at h
          exact Option.noConfusion h
        unfold Gauge
        rw [((newGauge_cases P st a).2.2 hc hk).1, lookup_mapSet_ne _ _ _ _ hne]
        exact h
    · rw [(newGauge_cases P st a).1 hc]; exact h
  | newCounter a =>
    show Gauge (a.newCounter P st).2 key = some m
    by_cases hc : a.check.2 = none
    · cases hk : Counter st a.key with
      | some m0 => rw [(newCounter_cases P st a).2.1 hc m0 hk]; exact h
      | none =>
        unfold Gauge
        rw [((newCounter_cases P st a).2.2 hc hk).2.1]
        exact h
    · rw [(newCounter_cases P st a).1 hc]; exact h

theorem counter_preserved_calls (P : PromLib) (calls : List MetricCall) :
    ∀ (st : MetricState) (key : List Nat) (m : Collector), Counter st key = some m →
      Counter (runCalls P st calls) key = some m := by
  induction calls with
  | nil => intro st key m h; exact h
  | cons c rest ih =>
    intro st key m h
    exact ih (c.run P st) key m (counter_preserved P st c key m h)

theorem gauge_preserved_calls (P : PromLib) (calls : List MetricCall) :
    ∀ (st : MetricState) (key : List Nat) (m : Collector), Gauge st key = some m →
      Gauge (runCalls P st calls) key = some m := by
  induction calls with
  | nil => intro st key m h; exact h
  | cons c rest ih =>
    intro st key m h
    exact ih (c.run P st) key m (gauge_preserved P st c key m h)

/-- After a call of `NewCounter` that returns the collector `m`, `counterMap` holds `m`
under the generated name. -/
theorem newCounter_stored (P : PromLib) (st : MetricState) (a : MetricArgs) (m : Collector)
    (h : (a.newCounter P st).1 = .ret (some m)) :
    Counter (a.newCounter P st).2 a.key = some m := by
  by_cases hc : a.check.2 = none
  · cases hk : Counter st a.key with
    | some m0 =>
      rw [(newCounter_cases P st a).2.1 hc m0 hk] at h ⊢
      simp only [Run.ret.injEq, Option.some.injEq] at h
      rw [← h]; exact hk
    | none =>
      obtain ⟨h1, _, h3⟩ := (newCounter_cases P st a).2.2 hc hk
      rw [h3] at h
      unfold Counter
      rw [h1, lookup_mapSet_self]
      by_cases hp : P.accepts st.registered
          ⟨st.nextAddress, .counter, a.key, a.help, mergeLabels a.labels a.constLabels⟩ = true
      · rw [if_pos hp] at h
        simp only [Run.ret.injEq, Option.some.injEq] at h
        rw [h]
      · rw [if_neg hp] at h
        exact Run.noConfusion h
  · rw [(newCounter_cases P st a).1 hc] at h
    simp at h

/-- After a call of `NewGauge` that returns the collector `m`, `gaugeMap` holds `m` under the
generated name. -/
theorem newGauge_stored (P : PromLib) (st : MetricState) (a : MetricArgs) (m : Collector)
    (h : (a.newGauge P st).1 = .ret (some m)) :
    Gauge (a.newGauge P st).2 a.key = some m := by
  by_cases hc : a.check.2 = none
  · cases hk : Gauge st a.key with
    | some m0 =>
      rw [(newGauge_cases P st a).2.1 hc m0 hk] at h ⊢
      simp only [Run.ret.injEq, Option.some.injEq] at h
      rw [← h]; exact hk
    | none =>
      obtain ⟨h1, _, h3⟩ := (newGauge_cases P st a).2.2 hc hk
      rw [h3] at h
      unfold Gauge
      rw [h1, lookup_mapSet_self]
      by_cases hp : P.accepts st.registered
          ⟨st.nextAddress, .gauge, a.key, a.help, mergeLabels a.labels a.constLabels⟩ = true
      · rw [if_pos hp] at h
        simp only [Run.ret.injEq, Option.some.injEq] at h
        rw [h]
      · rw [if_neg hp] at h
        exact Run.noConfusion h
  · rw [(newGauge_cases P st a).1 hc] at h
    simp at h

/-- The outcome of `NewCounter` on accepted arguments: a collector, or the panic of
`prometheus.MustRegister`. -/
theorem newCounter_outcome (P : PromLib) (st : MetricState) (a : MetricArgs)
    (hc : a.check.2 = none) :
    (∃ m, (a.newCounter P st).1 = .ret (some m)) ∨
      ((a.newCounter P st).1 = .panic .mustRegister ∧ Counter st a.key = none ∧
        P.accepts st.registered
          ⟨st.nextAddress, .counter, a.key, a.help, mergeLabels a.labels a.constLabels⟩
            = false) := by
  cases hk : Counter st a.key with
  | some m0 => exact Or.inl ⟨m0, by rw [(newCounter_cases P st a).2.1 hc m0 hk]⟩
  | none =>
    obtain ⟨_, _, h3⟩ := (newCounter_cases P st a).2.2 hc hk
    rw [h3]
    by_cases hp : P.accepts st.registered
        ⟨st.nextAddress, .counter, a.key, a.help, mergeLabels a.labels a.constLabels⟩ = true
    · exact Or.inl ⟨_, by rw [if_pos hp]⟩
    · exact Or.inr ⟨by rw [if_neg hp], rfl, by simpa using hp⟩

/-- The outcome of `NewGauge` on accepted arguments. -/
theorem newGauge_outcome (P : PromLib) (st : MetricState) (a : MetricArgs)
    (hc : a.check.2 = none) :
    (∃ m, (a.newGauge P st).1 = .ret (some m)) ∨
      ((a.newGauge P st).1 = .panic .mustRegister ∧ Gauge st a.key = none ∧
        P.accepts st.registered
          ⟨st.nextAddress, .gauge, a.key, a.help, mergeLabels a.labels a.constLabels⟩
            = false) := by
  cases hk : Gauge st a.key with
  | some m0 => exact Or.inl ⟨m0, by rw [(newGauge_cases P st a).2.1 hc m0 hk]⟩
  | none =>
    obtain ⟨_, _, h3⟩ := (newGauge_cases P st a).2.2 hc hk
    rw [h3]
    by_cases hp : P.accepts st.registered
        ⟨st.nextAddress, .gauge, a.key, a.help, mergeLabels a.labels a.constLabels⟩ = true
    · exact Or.inl ⟨_, by rw [if_pos hp]⟩
    · exact Or.inr ⟨by rw [if_neg hp], rfl, by simpa using hp⟩

/-- C24, amended: when `NewCounter` rejects the arguments it returns nil and leaves the state
of the package unchanged; otherwise it returns a collector, or it panics in
`prometheus.MustRegister`, which happens when the name is new to `counterMap` and the
Prometheus registry does not accept the new collector.  When it returns a collector `m`,
`Counter` returns `m` for the generated name, and after any further calls every call of
`NewCounter` whose arguments pass the check and generate that name returns `m` and leaves
the state unchanged.  The same holds for `NewGauge` and `Gauge`. -/
theorem registry_keeps_collector (P : PromLib) (st : MetricState) (a : MetricArgs) :
    ((a.check.2 ≠ none → a.newCounter P st = (.ret none, st)) ∧
     (a.check.2 = none →
       (∃ m, (a.newCounter P st).1 = .ret (some m)) ∨
       ((a.newCounter P st).1 = .panic .mustRegister ∧ Counter st a.key = none ∧
         P.accepts st.registered
           ⟨st.nextAddress, .counter, a.key, a.help, mergeLabels a.labels a.constLabels⟩
             = false)) ∧
     (∀ m, (a.newCounter P st).1 = .ret (some m) →
       Counter (a.newCounter P st).2 a.key = some m ∧
       ∀ (calls : List MetricCall) (b : MetricArgs), b.check.2 = none → b.key = a.key →
         b.newCounter P (runCalls P (a.newCounter P st).2 calls)
           = (.ret (some m), runCalls P (a.newCounter P st).2 calls))) ∧
    ((a.check.2 ≠ none → a.newGauge P st = (.ret none, st)) ∧
     (a.check.2 = none →
       (∃ m, (a.newGauge P st).1 = .ret (some m)) ∨
       ((a.newGauge P st).1 = .panic .mustRegister ∧ Gauge st a.key = none ∧
         P.accepts st.registered
           ⟨st.nextAddress, .gauge, a.key, a.help, mergeLabels a.labels a.constLabels⟩
             = false)) ∧
     (∀ m, (a.newGauge P st).1 = .ret (some m) →
       Gauge (a.newGauge P st).2 a.key = some m ∧
       ∀ (calls : List MetricCall) (b : MetricArgs), b.check.2 = none → b.key = a.key →
         b.newGauge P (runCalls P (a.newGauge P st).2 calls)
           = (.ret (some m), runCalls P (a.newGauge P st).2 calls))) := by
  refine ⟨⟨(newCounter_cases P st a).1, newCounter_outcome P st a, ?_⟩,
    ⟨(newGauge_cases P st a).1, newGauge_outcome P st a, ?_⟩⟩
  · intro m hm
    have hs := newCounter_stored P st a m hm
    refine ⟨hs, fun calls b hb hkey => ?_⟩
    have hl := counter_preserved_calls P calls _ _ _ hs
    rw [← hkey] at hl
    exact (newCounter_cases P _ b).2.1 hb m hl
  · intro m hm
    have hs := newGauge_stored P st a m hm
    refine ⟨hs, fun calls b hb hkey => ?_⟩
    have hl := gauge_preserved_calls P calls _ _ _ hs
    rw [← hkey] at hl
    exact (newGauge_cases P _ b).2.1 hb m hl

/-- Witness for C24, amended: the label `bad label` is rejected, and the state stays the
initial one; the counter `up` is created at the address 0, `Counter` returns it, and after a
call of `NewGauge` for `requests` a second `NewCounter` for `up` returns it again and
leaves the state as it is. -/
theorem registry_keeps_collector_witness :
    sampleBadLabel.newCounter samplePromLib .init = (.ret none, .init) ∧
    (sampleUp.newCounter samplePromLib .init).1
      = .ret (some ⟨0, .counter, asciiBytes "up", asciiBytes "up", []⟩) ∧
    Counter (sampleUp.newCounter samplePromLib .init).2 (asciiBytes "up")
      = some ⟨0, .counter, asciiBytes "up", asciiBytes "up", []⟩ ∧
    sampleUp.newCounter samplePromLib
        (runCalls samplePromLib (sampleUp.newCounter samplePromLib .init).2
          [.newGauge sampleRepeatedLabel])
      = (.ret (some ⟨0, .counter, asciiBytes "up", asciiBytes "up", []⟩),
          runCalls samplePromLib (sampleUp.newCounter samplePromLib .init).2
            [.newGauge sampleRepeatedLabel]) :=
  ⟨(registry_keeps_collector samplePromLib .init sampleBadLabel).1.1 (by decide),
   by decide,
   ((registry_keeps_collector samplePromLib .init sampleUp).1.2.2
      ⟨0, .counter, asciiBytes "up", asciiBytes "up", []⟩ (by decide)).1,
   ((registry_keeps_collector samplePromLib .init sampleUp).1.2.2
      ⟨0, .counter, asciiBytes "up", asciiBytes "up", []⟩ (by decide)).2
      [.newGauge sampleRepeatedLabel] sampleUp (by decide) rfl⟩

/-- Counterexample to C24 as stated: `getAndValid` accepts the name `requests` with the
label `code` given twice, but `NewCounter` does not return a collector: the registry
rejects the repeated label name and `prometheus.MustRegister` panics.  Likewise `NewGauge`
panics on the accepted name `up` after `NewCounter` has registered a counter `up`. -/
theorem newCounter_accepted_but_panics :
    sampleRepeatedLabel.check.2 = none ∧
    (sampleRepeatedLabel.newCounter samplePromLib .init).1 = .panic .mustRegister ∧
    sampleUp.check.2 = none ∧
    (sampleUp.newGauge samplePromLib (sampleUp.newCounter samplePromLib .init).2).1
      = .panic .mustRegister := by
  decide


/-! ## C30: the push interval -/

/-- C30 (where the claim fails): outside the push mode `runMetric` creates no sink; in the
push mode it creates a sink whose interval is 30 seconds when `time.ParseDuration` gives 0
(as it does for a string it rejects) and the parsed duration otherwise, so that a
negative duration is handed on as it is, and `time.NewTicker` panics on it in the
goroutine of `flushMetrics`. -/
theorem runMetric_interval {M : Type} [DecidableEq M]
    (parseDuration : String → Int × Option GoError) (modePush : M)
    (c : PrometheusSettings M) :
    (c.Mode ≠ modePush → runMetric parseDuration modePush c = none) ∧
    (c.Mode = modePush →
      ∃ sink out, runMetric parseDuration modePush c = some (sink, out) ∧
        sink.pushInterval
          = (if (parseDuration c.PushInterval).1 = 0 then 30000000000
             else (parseDuration c.PushInterval).1) ∧
        out = newTicker sink.pushInterval ∧
        (0 < (parseDuration c.PushInterval).1 →
          sink.pushInterval = (parseDuration c.PushInterval).1 ∧
          out = .ret (parseDuration c.PushInterval).1) ∧
        ((parseDuration c.PushInterval).1 = 0 →
          sink.pushInterval = 30000000000 ∧ out = .ret 30000000000) ∧
        ((parseDuration c.PushInterval).1 < 0 →
          sink.pushInterval < 0 ∧ out = .panic .nonPositiveInterval)) := by
  refine ⟨fun h => by simp [runMetric, h], fun h => ?_⟩
  refine ⟨_, _, by simp only [runMetric, h, ne_eq, not_true_eq_false, if_false]; rfl, ?_, rfl,
    ?_, ?_, ?_⟩
  · simp [NewPrometheusPushSink]
  · intro hpos
    have hne : (parseDuration c.PushInterval).1 ≠ 0 := by omega
    have hle : ¬ (parseDuration c.PushInterval).1 ≤ 0 := by omega
    simp [NewPrometheusPushSink, PrometheusPushSink.flushMetrics, newTicker, hne, hle]
  · intro hz
    simp [NewPrometheusPushSink, PrometheusPushSink.flushMetrics, newTicker, hz]
  · intro hneg
    have hne : (parseDuration c.PushInterval).1 ≠ 0 := by omega
    have hle : (parseDuration c.PushInterval).1 ≤ 0 := by omega
    simp [NewPrometheusPushSink, PrometheusPushSink.flushMetrics, newTicker, hne, hle, hneg]

/-- Witness for C30: in the push mode with the configured interval `-5s`, the interval of
the sink is -5 seconds and the ticker panics; with `1m` it is one minute, and with a string
that is no duration it is 30 seconds. -/
theorem runMetric_interval_witness :
    runMetric sampleParseDuration "push" ⟨"easeprobe", "push", "localhost:9091", "-5s"⟩
      = some (⟨"easeprobe", "localhost:9091", -5000000000⟩, .panic .nonPositiveInterval) ∧
    runMetric sampleParseDuration "push" ⟨"easeprobe", "push", "localhost:9091", "1m"⟩
      = some (⟨"easeprobe", "localhost:9091", 60000000000⟩, .ret 60000000000) ∧
    runMetric sampleParseDuration "push" ⟨"easeprobe", "push", "localhost:9091", "soon"⟩
      = some (⟨"easeprobe", "localhost:9091", 30000000000⟩, .ret 30000000000) ∧
    runMetric sampleParseDuration "push" ⟨"easeprobe", "pull", "localhost:9091", "1m"⟩
      = none ∧
    (∃ sink out,
      runMetric sampleParseDuration "push" ⟨"easeprobe", "push", "localhost:9091", "-5s"⟩
        = some (sink, out) ∧ sink.pushInterval < 0 ∧ out = .panic .nonPositiveInterval) := by
  refine ⟨by decide, by decide, by decide, by decide, ?_⟩
  obtain ⟨sink, out, h1, _, _, _, _, h6⟩ :=
    (runMetric_interval sampleParseDuration "push"
      ⟨"easeprobe", "push", "localhost:9091", "-5s"⟩).2 rfl
  exact ⟨sink, out, h1, h6 (by decide)⟩

end Easeprobe
